import Mathlib

/-! DDR usage computation (`plugins/tracers/gstddrusagecompute.c`)

A shallow embedding of the DDR bandwidth tracer core: the SoC identity
resolver, the line callback that demultiplexes `perf stat` output into the
counter table, the script generator / initializer and the snapshot function.

Conventions of the embedding

* A `gfloat` is a value of IEEE 754 binary32 and the `double` of libc one of
  binary64: a finite number with its sign, an infinity or a NaN.  Conversions
  and divisions round to nearest, ties to even, with gradual underflow and
  overflow to infinity.  The sign and payload of a NaN are not represented.
* Undefined behaviour of the C program (null dereference, modulo by zero,
  access outside an array) and the fatal `g_error` are results `.error _`.
  The run-time checks of GLib (`g_return_if_fail`) are enabled, and the
  `usage` pointer passed by the caller is not null.
* `gstddrusagecompute.h` is not among the sources.  What it declares is taken
  as a parameter: `Header` carries `DDR_STRING_MAX` and the integer types of
  `meas_num` and `meas_count`; `DDR_MEAS_MAX` is the length of the three arrays
  of a `GstDDRUsage` value.
* libc `atof` is a parameter of the line callback; GLib's `g_strstrip` and
  `g_strsplit` are modelled after their documentation.
-/

namespace DDRUsage

/-! ## C arithmetic -/

/-- The two candidate integer types of the counters of `GstDDRUsage`. -/
inductive CIntTy where
  | gint
  | guint
deriving DecidableEq, Repr

/-- Conversion to `guint` (32 bit, value modulo 2^32). -/
def to_guint (n : Int) : Int := n % 2 ^ 32

/-- Conversion to `gint` (32 bit two's complement). -/
def to_gint (n : Int) : Int := (n + 2 ^ 31) % 2 ^ 32 - 2 ^ 31

/-- Store a value into an object of the given integer type.  For `gint` an
out-of-range value wraps, which is what the compiled increment of a counter
held in memory does (ISO C leaves signed overflow undefined). -/
def c_conv : CIntTy → Int → Int
  | .gint => to_gint
  | .guint => to_guint

/-- Ways in which the C program leaves defined behaviour. -/
inductive Fault where
  | nullDeref
  | divByZero
  | overflow
  | outOfBounds
  | abort
deriving DecidableEq, Repr

/-- The C expression `a % b` for `a` of type `ta` and `b` of type `tb`, the
result assigned to a `gint`.  Two `gint` operands give the truncated
remainder; otherwise the usual arithmetic conversions make both operands
`guint`. -/
def c_rem (ta tb : CIntTy) (a b : Int) : Except Fault Int :=
  match ta, tb with
  | .gint, .gint =>
    if b = 0 then .error .divByZero
    else if a = -2 ^ 31 ∧ b = -1 then .error .overflow
    else .ok (Int.tmod a b)
  | _, _ =>
    if to_guint b = 0 then .error .divByZero
    else .ok (to_gint (to_guint a % to_guint b))

/-! ## Floating point -/

/-- A value of an IEEE 754 binary format: a finite number given by its sign
and its magnitude (so that -0.0 is told from 0.0), an infinity, or a NaN. -/
inductive fp_value where
  | num (neg : Bool) (mag : ℚ)
  | inf (neg : Bool)
  | nan
deriving DecidableEq

/-- A `gfloat`: a value of binary32. -/
abbrev gfloat := fp_value

/-- A `gdouble`, the `double` of libc: a value of binary64. -/
abbrev gdouble := fp_value

instance (n : Nat) : OfNat fp_value n := ⟨.num false n⟩

/-- A binary format: the number of bits of the significand (the hidden bit
included), the exponent `emin` of the least positive number `2 ^ emin`, and the
exponent `emax` of the bound `2 ^ emax` of the finite numbers. -/
structure fp_format where
  prec : Nat
  emin : Int
  emax : Int
deriving DecidableEq, Repr

def binary32 : fp_format := ⟨24, -149, 128⟩

def binary64 : fp_format := ⟨53, -1074, 1024⟩

/-- The integer nearest to `x`, the even one of the two when `x` lies half way
between them. -/
def round_half_even (x : ℚ) : Int :=
  let f := ⌊x⌋
  if x - f < 1 / 2 then f
  else if 1 / 2 < x - f then f + 1
  else if f % 2 = 0 then f else f + 1

/-- The exponent of the unit in the last place of a number of magnitude `x`:
`prec` bits from the leading bit of `x`, but not below `emin` (gradual
underflow). -/
def ulp_exp (fmt : fp_format) (x : ℚ) : Int :=
  max (Int.log 2 x - ((fmt.prec : Int) - 1)) fmt.emin

/-- Rounding of the real number of sign `neg` and magnitude `|x|` to the format,
to nearest with ties to even: the nearest multiple of the unit in the last
place, and an infinity when that is `2 ^ emax` or more. -/
def fp_round (fmt : fp_format) (neg : Bool) (x : ℚ) : fp_value :=
  let e := ulp_exp fmt |x|
  let y : ℚ := (round_half_even (|x| / 2 ^ e) : ℚ) * 2 ^ e
  if (2 : ℚ) ^ fmt.emax ≤ y then .inf neg else .num neg y

/-- The conversion `(float) d` of a `double`. -/
def to_gfloat : gdouble → gfloat
  | .num s m => fp_round binary32 s m
  | .inf s => .inf s
  | .nan => .nan

/-- The conversion of a `gint` to `gfloat`. -/
def gfloat_of_gint (n : Int) : gfloat := fp_round binary32 (decide (n < 0)) n

/-- The quotient `x / y` computed in the format. -/
def fp_div (fmt : fp_format) : fp_value → fp_value → fp_value
  | .nan, _ => .nan
  | _, .nan => .nan
  | .inf _, .inf _ => .nan
  | .inf s, .num t _ => .inf (xor s t)
  | .num s _, .inf t => .num (xor s t) 0
  | .num s a, .num t b =>
    if b = 0 then (if a = 0 then .nan else .inf (xor s t))
    else fp_round fmt (xor s t) (a / b)

/-- The numbers of a format: `m * 2 ^ k` with `m` of at most `prec` bits and
`k` from `emin`, below `2 ^ emax`. -/
def representable (fmt : fp_format) (x : ℚ) : Prop :=
  ∃ (m : ℕ) (k : ℤ), m < 2 ^ fmt.prec ∧ fmt.emin ≤ k ∧ k + fmt.prec ≤ fmt.emax ∧
    x = (m : ℚ) * 2 ^ k

/-- The value is one of the format: an infinity, a NaN, or a finite number
`representable` in it. -/
def in_format (fmt : fp_format) : fp_value → Prop
  | .num _ v => representable fmt v
  | _ => True

/-! ## Data model -/

def SOC_NAME_MAX_LENGTH : Nat := 8

/-- The value of the `double` constant `MEAS_INTERVAL`, 1.0. -/
def MEAS_INTERVAL : ℚ := 1

inductive soc_id where
  | IMX8MP
deriving DecidableEq, Repr

/-- One entry of a counter table: `struct perf_ddr_type`.  A `char *` that is
`NULL` is `none`. -/
structure perf_ddr_type where
  name : Option String
  rd_metric_name : Option String
  rd_metric_value : gfloat
  wr_metric_name : Option String
  wr_metric_value : gfloat
deriving DecidableEq

/-- The terminating `{0}` entry. -/
def sentinel : perf_ddr_type :=
  { name := none, rd_metric_name := none, rd_metric_value := 0,
    wr_metric_name := none, wr_metric_value := 0 }

/-- Initial contents of the static array `perf_ddr_imx8mp`. -/
def perf_ddr_imx8mp : List perf_ddr_type :=
  [ ⟨some "all", some "imx8mp-ddr0-all-r", 0, some "imx8mp-ddr0-all-w", 0⟩,
    ⟨some "npu", some "imx8mp-ddr0-npu-r", 0, some "imx8mp-ddr0-npu-w", 0⟩,
    ⟨some "gpu3d", some "imx8mp-ddr0-3d-r", 0, some "imx8mp-ddr0-3d-w", 0⟩,
    ⟨some "gpu2d", some "imx8mp-ddr0-2d-r", 0, some "imx8mp-ddr0-2d-w", 0⟩,
    ⟨some "a53", some "imx8mp-ddr0-a53-r", 0, some "imx8mp-ddr0-a53-w", 0⟩,
    ⟨some "isi1", some "imx8mp-ddr0-isi1-r", 0, some "imx8mp-ddr0-isi1-w", 0⟩,
    sentinel ]

/-- What `gstddrusagecompute.h` declares and the functions depend on. -/
structure Header where
  DDR_STRING_MAX : Nat
  meas_num_ty : CIntTy
  meas_count_ty : CIntTy
deriving DecidableEq, Repr

/-- The caller's `GstDDRUsage`.  The three arrays have `DDR_MEAS_MAX`
elements; `names[i]` is `NULL` or points to the buffer `event_name[j]`
(`some j`). -/
structure GstDDRUsage where
  meas_num : Int
  meas_count : Int
  event_name : List String
  names : List (Option Nat)
  load : List gfloat
deriving DecidableEq

/-- The file-scope variables of the translation unit, the caller's usage
structure, and the two things the initializer leaves outside the process
image: the contents of the temporary script and whether the line callback is
registered on the error stream of the spawned process. -/
structure State where
  soc_name : List Char
  perf_ddr_imx8mp : List perf_ddr_type
  perf_ddr_soc : Option soc_id
  perfPID : Int
  usage : GstDDRUsage
  script : Option String
  watch : Bool
deriving DecidableEq

/-- The array `perf_ddr_socs`, indexed by `soc_id`. -/
def perf_ddr_socs (st : State) : soc_id → List perf_ddr_type
  | .IMX8MP => st.perf_ddr_imx8mp

/-- Write a whole table back through the pointer `perf_ddr_socs[id]`. -/
def set_table (st : State) : soc_id → List perf_ddr_type → State
  | .IMX8MP, tbl => { st with perf_ddr_imx8mp := tbl }

/-- Array store with bounds: `l[i] = a`. -/
def store {α : Type} (l : List α) (i : Nat) (a : α) : Except Fault (List α) :=
  if i < l.length then .ok (l.set i a) else .error .outOfBounds

/-! ## C strings, GLib string helpers -/

/-- The C string held in a buffer: the bytes before the first NUL. -/
def c_str (l : List Char) : List Char := l.takeWhile (fun ch => ch ≠ Char.ofNat 0)

/-- Reading with `fgets (buf, size, file)` at the start of a file with the
given contents: `none` at end of file, otherwise at most `size - 1` bytes up
to and including the first newline. -/
def fgets (size : Nat) (file : List Char) : Option (List Char) :=
  match file with
  | [] => none
  | _ =>
    let upto := file.takeWhile (fun ch => ch ≠ Char.ofNat 10)
    let line := if upto.length < file.length then upto ++ [Char.ofNat 10] else upto
    some (line.take (size - 1))

/-- Whether `strncmp (a, b, n)` is 0. -/
def strncmp_eq (a b : List Char) (n : Nat) : Bool :=
  (c_str a).take n == (c_str b).take n

/-- The string left in an all-zero destination by `strncpy (dst, src, n)`. -/
def strncpy (src : List Char) (n : Nat) : List Char := (c_str src).take n

/-- `g_ascii_isspace`: space, tab, line feed, form feed and carriage return
(not the vertical tab). -/
def g_ascii_isspace (ch : Char) : Bool :=
  ch = ' ' || ch = Char.ofNat 9 || ch = Char.ofNat 10 || ch = Char.ofNat 12 ||
  ch = Char.ofNat 13

/-- `g_strstrip`: removes leading and trailing whitespace. -/
def g_strstrip (s : List Char) : List Char :=
  ((s.dropWhile g_ascii_isspace).reverse.dropWhile g_ascii_isspace).reverse

/-- Splitting of a non-empty string at every occurrence of a one-character
delimiter; `cur` is the token being read, reversed. -/
def split_tokens (delim : Char) : List Char → List Char → List String
  | [], cur => [String.mk cur.reverse]
  | ch :: rest, cur =>
    if ch = delim then String.mk cur.reverse :: split_tokens delim rest []
    else split_tokens delim rest (ch :: cur)

/-- `g_strsplit (string, delimiter, -1)` for a delimiter of one character: every
delimiter separates two tokens (possibly empty ones), and the empty string
gives the empty vector. -/
def g_strsplit (s : List Char) (delim : Char) : List String :=
  match s with
  | [] => []
  | _ => split_tokens delim s []

/-! ## SoC identity resolver -/

/-- `gtop_set_perf_ddr_soc`; `soc_id_file` is the contents of
`/sys/devices/soc0/soc_id`, `none` when it cannot be opened.  A line of 8 bytes
or more leaves `soc_name` without terminator; `strlen` of it is not zero
whatever follows the array, and that is all the function looks at. -/
def gtop_set_perf_ddr_soc (soc_id_file : Option String) (st : State) : State :=
  if (c_str st.soc_name).length ≠ 0 then st
  else
    match soc_id_file with
    | none => st
    | some file =>
      match fgets 1024 file.data with
      | none => st
      | some buf =>
        let st1 :=
          if strncmp_eq buf "i.MX8MP".data (SOC_NAME_MAX_LENGTH - 1) then
            { st with perf_ddr_soc := some soc_id.IMX8MP }
          else st
        { st1 with soc_name := strncpy buf SOC_NAME_MAX_LENGTH }

/-! ## Line callback -/

def G_IO_IN : Nat := 1

def G_IO_HUP : Nat := 16

/-- `cb_err_watch`.  `cond` is the reported condition, `string` what
`g_io_channel_read_line` returns (`none` for `NULL`: nothing could be read),
`atof` the function of libc, which returns a `double`; the result is the new
state and the `gboolean` returned to the main loop.  The value read is
converted to `gfloat`; `fvalue /= (1024 * 1024)` converts the `int` to `gfloat`
and divides in binary32 (evaluating the quotient in a wider format and rounding
it at the assignment gives the same number, the quotient by a power of two
being exact there); `fvalue /= MEAS_INTERVAL` divides by the `double` 1.0 in
binary64 and converts back.  The GLib helpers return `NULL` for a
`NULL` string, and `g_strv_length (NULL)` is 0; they see the line read as a C
string, up to its first NUL. -/
def cb_err_watch (hdr : Header) (atof : String → gdouble) (cond : Nat)
    (string : Option String) (st : State) : Except Fault (State × Bool) :=
  if cond = G_IO_HUP then .ok (st, false)
  else
    let items : List String :=
      match string with
      | none => []
      | some s => g_strsplit (g_strstrip (c_str s.data)) ';'
    if items.length ≠ 7 then .ok (st, true)
    else do
      let cnt ← c_rem hdr.meas_count_ty hdr.meas_num_ty st.usage.meas_count st.usage.meas_num
      let usage := { st.usage with
        meas_count := c_conv hdr.meas_count_ty (st.usage.meas_count + 1) }
      let idx := Int.tdiv cnt 2
      match st.perf_ddr_soc with
      | none => .error .nullDeref
      | some id =>
        let tbl := perf_ddr_socs st id
        if idx < 0 then .error .outOfBounds
        else
          match tbl[idx.toNat]? with
          | none => .error .outOfBounds
          | some evt =>
            let fvalue : gfloat := to_gfloat (atof (items.getD 5 ""))
            let fvalue := fp_div binary32 fvalue (gfloat_of_gint (1024 * 1024))
            let fvalue := to_gfloat (fp_div binary64 fvalue (.num false MEAS_INTERVAL))
            let evt1 :=
              if Int.tmod cnt 2 ≠ 0 then { evt with wr_metric_value := fvalue }
              else { evt with rd_metric_value := fvalue }
            .ok (set_table { st with usage := usage } id (tbl.set idx.toNat evt1), true)

/-- The main loop delivering one line per call with data available, for as
long as the callback stays registered. -/
def feed_lines (hdr : Header) (atof : String → gdouble) :
    List String → State → Except Fault State
  | [], st => .ok st
  | line :: rest, st => do
    let (st1, keep) ← cb_err_watch hdr atof G_IO_IN (some line) st
    if keep then feed_lines hdr atof rest st1 else .ok st1

/-- A line that passes the validity check of the callback. -/
def valid_line (line : String) : Bool :=
  (g_strsplit (g_strstrip (c_str line.data)) ';').length = 7

/-! ## Metric count -/

/-- The loop `for (i = 0; evt->name != NULL; i += 2) evt++` over the array
starting at `evt`; running past the end of the array is a fault.  The `gint`
counter `i` is a natural number here: it would take a static table of 2^30
entries to overflow it. -/
def nmeas_loop : List perf_ddr_type → Nat → Except Fault Nat
  | [], _ => .error .outOfBounds
  | evt :: rest, i =>
    match evt.name with
    | none => .ok i
    | some _ => nmeas_loop rest (i + 2)

/-- `gst_ddr_usage_get_nmeas`. -/
def gst_ddr_usage_get_nmeas (soc_id_file : Option String) (st : State) :
    Except Fault (State × Int) :=
  let st1 := gtop_set_perf_ddr_soc soc_id_file st
  match st1.perf_ddr_soc with
  | none => .error .nullDeref
  | some id => do
    let i ← nmeas_loop (perf_ddr_socs st1 id) 0
    .ok (st1, (i : Int))

/-! ## Initialization: script generation and spawn -/

/-- Decimal digits of `n`, padded with zeros on the left to `width`. -/
def pad_digits (width n : Nat) : String :=
  let d := toString n
  String.mk (List.replicate (width - d.length) '0') ++ d

/-- The conversion `%f` of `printf` in the C locale: six digits after the
point, the exact value rounded to nearest, ties to even. -/
def printf_f (q : ℚ) : String :=
  let n := q.num.natAbs * 1000000
  let d := q.den
  let lo := n / d
  let r := n % d
  let s := if d < 2 * r ∨ (2 * r = d ∧ lo % 2 = 1) then lo + 1 else lo
  (if q < 0 then "-" else "") ++ toString (s / 1000000) ++ "." ++ pad_digits 6 (s % 1000000)

/-- `PERF_CMDLINE` applied to its three arguments. -/
def PERF_CMDLINE (rd wr : String) (interval : ℚ) : String :=
  "\t/usr/bin/perf stat -a -x \";\" -M " ++ rd ++ "," ++ wr ++ " sleep " ++
    printf_f interval ++ " &\n\twait $!\n"

/-- What `snprintf (buf, size, "%s" suffix, name)` leaves in `buf`; every
character counts as one byte. -/
def snprintf_name (size : Nat) (name suffix : String) (buf : String) : String :=
  if size = 0 then buf else String.mk ((name ++ suffix).data.take (size - 1))

/-- `memset (usage, 0, sizeof (GstDDRUsage))`. -/
def memset_usage (usage : GstDDRUsage) : GstDDRUsage :=
  { meas_num := 0, meas_count := 0,
    event_name := usage.event_name.map (fun _ => ""),
    names := usage.names.map (fun _ => none),
    load := usage.load.map (fun _ => 0) }

/-- The loop of `gst_ddr_usage_init` over the array starting at `evt`, with
the counter `i`, the script text built so far and the usage structure.  `i`
counts array elements and stays below the array bounds checked here, so it is
a natural number.  The local array `metric_pnames` is written at the same
indices as `names` and never read; it is left out.  A null counter name given
to `%s` is a fault. -/
def init_loop (hdr : Header) :
    List perf_ddr_type → Nat → String → GstDDRUsage → Except Fault (String × GstDDRUsage)
  | [], _, _, _ => .error .outOfBounds
  | evt :: rest, i, script_str, usage =>
    match evt.name with
    | none => .ok (script_str, usage)
    | some name =>
      match evt.rd_metric_name, evt.wr_metric_name with
      | some rd, some wr => do
        let script_str := script_str ++ PERF_CMDLINE rd wr MEAS_INTERVAL
        -- Read
        let names ← store usage.names i (some i)
        let event_name ← store usage.event_name i
          (snprintf_name hdr.DDR_STRING_MAX name "-rd" (usage.event_name.getD i ""))
        -- Write
        let names ← store names (i + 1) (some (i + 1))
        let event_name ← store event_name (i + 1)
          (snprintf_name hdr.DDR_STRING_MAX name "-wr" (event_name.getD (i + 1) ""))
        let usage := { usage with
          names := names, event_name := event_name,
          meas_num := c_conv hdr.meas_num_ty (usage.meas_num + 2) }
        init_loop hdr rest (i + 2) script_str usage
      | _, _ => .error .nullDeref

/-- `gst_perf_spawn`: `spawn` is the outcome of `g_spawn_async_with_pipes`, the
child's pid or `none` on failure, which `g_error` turns into an abort. -/
def gst_perf_spawn (spawn : Option Int) : Except Fault Int :=
  match spawn with
  | none => .error .abort
  | some pid => .ok pid

/-- `gst_ddr_usage_init` on the caller's structure `st.usage`, with run-time
checks of GLib enabled (`g_return_if_fail`).  The script is written to
`nnshark-perf-ddr.sh` in the temporary directory; the result of
`g_file_set_contents` is not looked at by the code, and the file is taken to
hold the text afterwards. -/
def gst_ddr_usage_init (hdr : Header) (soc_id_file : Option String) (spawn : Option Int)
    (st : State) : Except Fault State :=
  if st.perfPID > 0 then .ok st
  else
    let st1 := gtop_set_perf_ddr_soc soc_id_file { st with usage := memset_usage st.usage }
    match st1.perf_ddr_soc with
    | none => .ok st1
    | some id => do
      let (script_str, usage) ← init_loop hdr (perf_ddr_socs st1 id) 0
        "#! /usr/bin/env bash\n\nwhile true;\ndo\n" st1.usage
      let script_str := script_str ++ "done\n"
      let pid ← gst_perf_spawn spawn
      .ok { st1 with usage := usage, script := some script_str, perfPID := pid, watch := true }

/-! ## Snapshot -/

/-- The loop of `gst_ddr_usage_compute` over the array starting at `evt`. -/
def compute_loop : List perf_ddr_type → Nat → List gfloat → Except Fault (List gfloat)
  | [], _, _ => .error .outOfBounds
  | evt :: rest, i, load =>
    match evt.name with
    | none => .ok load
    | some _ => do
      let load ← store load i evt.rd_metric_value
      let load ← store load (i + 1) evt.wr_metric_value
      compute_loop rest (i + 2) load

/-- `gst_ddr_usage_compute` on the caller's structure `st.usage`. -/
def gst_ddr_usage_compute (soc_id_file : Option String) (st : State) : Except Fault State :=
  let st1 := gtop_set_perf_ddr_soc soc_id_file st
  match st1.perf_ddr_soc with
  | none => .error .nullDeref
  | some id => do
    let load ← compute_loop (perf_ddr_socs st1 id) 0 st1.usage.load
    .ok { st1 with usage := { st1.usage with load := load } }

/-- The state of the program at start-up, with a caller's structure whose
arrays have `DDR_MEAS_MAX` elements. -/
def initial_state (DDR_MEAS_MAX : Nat) : State :=
  { soc_name := [], perf_ddr_imx8mp := perf_ddr_imx8mp, perf_ddr_soc := none, perfPID := 0,
    usage := { meas_num := 0, meas_count := 0,
               event_name := List.replicate DDR_MEAS_MAX "",
               names := List.replicate DDR_MEAS_MAX none,
               load := List.replicate DDR_MEAS_MAX 0 },
    script := none, watch := false }

/-- The table `tbl` consists of the named entries `named` followed by the
null-name sentinel. -/
def is_table (named : List perf_ddr_type) (tbl : List perf_ddr_type) : Prop :=
  (∀ e ∈ named, e.name ≠ none) ∧ ∃ s, s.name = none ∧ tbl = named ++ [s]

/-- Every named entry of the table has its two counter identifiers. -/
def has_counters (tbl : List perf_ddr_type) : Prop :=
  ∀ e ∈ tbl, e.name ≠ none → e.rd_metric_name ≠ none ∧ e.wr_metric_name ≠ none

/-- The value of the flat slot `i` of a table: the read value of entry `i / 2`
for even `i`, its write value for odd `i`. -/
def slot_value (tbl : List perf_ddr_type) (i : Nat) : Option gfloat :=
  (tbl[i / 2]?).map (fun e => if i % 2 = 0 then e.rd_metric_value else e.wr_metric_value)

/-- The integer `n` is a value of the type `ty`. -/
def is_value (ty : CIntTy) (n : Int) : Prop := c_conv ty n = n

instance (ty : CIntTy) (n : Int) : Decidable (is_value ty n) := by
  unfold is_value; infer_instance

/-- The value the callback stores for a valid line: field 5 converted by
`atof` and to `gfloat`, divided by 1024 * 1024 and by the interval. -/
def line_value (atof : String → gdouble) (line : String) : gfloat :=
  to_gfloat (fp_div binary64
    (fp_div binary32
      (to_gfloat (atof ((g_strsplit (g_strstrip (c_str line.data)) ';').getD 5 "")))
      (gfloat_of_gint (1024 * 1024)))
    (.num false MEAS_INTERVAL))

/-- The entry as the callback leaves it after storing `x` at position `p`. -/
def write_slot (evt : perf_ddr_type) (p : Nat) (x : gfloat) : perf_ddr_type :=
  if p % 2 = 1 then { evt with wr_metric_value := x } else { evt with rd_metric_value := x }

/-- The table consists of `k` named entries followed by the sentinel. -/
def table_shape (k : Nat) (tbl : List perf_ddr_type) : Prop :=
  ∃ named, named.length = k ∧ is_table named tbl

/-- The states the program can be in after the state `a`, by calls of the line
callback with any condition and any line read, each returning normally. -/
inductive Reachable (hdr : Header) (atof : String → gdouble) (a : State) : State → Prop where
  | start : Reachable hdr atof a a
  | step (st st1 : State) (cond : Nat) (string : Option String) (keep : Bool) :
      Reachable hdr atof a st → cb_err_watch hdr atof cond string st = .ok (st1, keep) →
      Reachable hdr atof a st1

/-- What holds in every state reached from an initialized one: the active
table pointer, the shape of the table, the slot count `2k`, and a cursor that
is a value of its type. -/
def running_inv (hdr : Header) (id : soc_id) (k : Nat) (st : State) : Prop :=
  st.perf_ddr_soc = some id ∧ table_shape k (perf_ddr_socs st id) ∧
  st.usage.meas_num = ((2 * k : Nat) : Int) ∧
  c_conv hdr.meas_count_ty st.usage.meas_count = st.usage.meas_count

/-! ## Metric names and script text, as the specification words them -/

/-- The string `usage->names[i]` points to. -/
def metric_name (usage : GstDDRUsage) (i : Nat) : Option String :=
  match usage.names[i]? with
  | some (some j) => usage.event_name[j]?
  | _ => none

/-- Concatenation of a list of strings. -/
def concat_strings : List String → String
  | [] => ""
  | x :: xs => x ++ concat_strings xs

/-- The sampling command for one table entry: `perf stat` on the read counter
and the write counter, in this order, for the interval 1.0 printed by `%f`, put
in the background and waited for. -/
def sampling_command (e : perf_ddr_type) : String :=
  "\t/usr/bin/perf stat -a -x \";\" -M " ++ e.rd_metric_name.getD "" ++ "," ++
    e.wr_metric_name.getD "" ++ " sleep 1.000000 &\n\twait $!\n"

/-- The script for the named entries of a table: the header, one sampling
command per entry in table order, and `done`. -/
def script_text (named : List perf_ddr_type) : String :=
  "#! /usr/bin/env bash\n\nwhile true;\ndo\n" ++ concat_strings (named.map sampling_command) ++
    "done\n"

/-- The constant part of a table entry: the initiator name and the two counter
identifiers. -/
def entry_key (e : perf_ddr_type) : Option String × Option String × Option String :=
  (e.name, e.rd_metric_name, e.wr_metric_name)

/-! ## Launches of the script -/

/-- Whether a call of the initializer from `st` passes the guard on `perfPID`
and the null check of the table pointer, after which it writes the script and
spawns it. -/
def launches (soc_id_file : Option String) (st : State) : Bool :=
  decide (st.perfPID ≤ 0) &&
    (gtop_set_perf_ddr_soc soc_id_file { st with usage := memset_usage st.usage }).perf_ddr_soc.isSome

/-- The number of launches of the script over a sequence of calls of the
initializer, each given with the contents of the identity file and the pid the
spawn would return; a fault ends the program. -/
def launch_count (hdr : Header) : List (Option String × Int) → State → Nat
  | [], _ => 0
  | call :: rest, st =>
    match gst_ddr_usage_init hdr call.1 (some call.2) st with
    | .error _ => 0
    | .ok st1 => (if launches call.1 st then 1 else 0) + launch_count hdr rest st1

/-! ## The program as the host and the main loop drive it -/

/-- `gst_ddr_usage_finalize`: the function is empty. -/
def gst_ddr_usage_finalize (st : State) : State := st

/-- What happens to the program: a call of one of the public functions by the
host, or a condition reported on the error stream of the spawned script. -/
inductive Event where
  | init (soc_id_file : Option String) (spawn : Option Int)
  | get_nmeas (soc_id_file : Option String)
  | compute (soc_id_file : Option String)
  | finalize
  | io (cond : Nat) (string : Option String)

/-- The main loop of GLib on a condition of the error stream: the callback
runs only while it is registered, which `g_io_add_watch` in `gst_perf_spawn`
does, and its returning FALSE removes it. -/
def dispatch (hdr : Header) (atof : String → gdouble) (cond : Nat) (string : Option String)
    (st : State) : Except Fault State :=
  if st.watch then do
    let (st1, keep) ← cb_err_watch hdr atof cond string st
    .ok { st1 with watch := keep }
  else .ok st

/-- One event. -/
def step (hdr : Header) (atof : String → gdouble) : Event → State → Except Fault State
  | .init soc_id_file spawn, st => gst_ddr_usage_init hdr soc_id_file spawn st
  | .get_nmeas soc_id_file, st => (gst_ddr_usage_get_nmeas soc_id_file st).map (fun r => r.1)
  | .compute soc_id_file, st => gst_ddr_usage_compute soc_id_file st
  | .finalize, st => .ok (gst_ddr_usage_finalize st)
  | .io cond string, st => dispatch hdr atof cond string st

/-- `isdigit`. -/
def isdigit (ch : Char) : Bool := 48 ≤ ch.toNat && ch.toNat ≤ 57

/-- `isspace` in the C locale: space and the control characters 9 to 13. -/
def isspace (ch : Char) : Bool := ch = ' ' || (9 ≤ ch.toNat && ch.toNat ≤ 13)

/-- Reads a run of decimal digits: the number read so far, the count of digits
read, and the rest of the input. -/
def read_digits : List Char → Nat → Nat → Nat × Nat × List Char
  | [], acc, n => (acc, n, [])
  | ch :: rest, acc, n =>
    if isdigit ch then read_digits rest (acc * 10 + (ch.toNat - 48)) (n + 1)
    else (acc, n, ch :: rest)

/-- The longest prefix `[space] [sign] digits [. digits]` of the input: whether
it is negative, its digits as one number and the count of digits after the
point; `(false, 0, 0)` when there is no digit at all. -/
def parse_decimal (l : List Char) : Bool × Nat × Nat :=
  let l := l.dropWhile isspace
  let sg : Bool × List Char :=
    match l with
    | '-' :: r => (true, r)
    | '+' :: r => (false, r)
    | _ => (false, l)
  let ip := read_digits sg.2 0 0
  let fp : Nat × Nat × List Char :=
    match ip.2.2 with
    | '.' :: r => read_digits r ip.1 0
    | _ => (ip.1, 0, ip.2.2)
  if ip.2.1 + fp.2.1 = 0 then (false, 0, 0) else (sg.1, fp.1, fp.2.1)

/-- The function `atof` of libc on decimal input in the C locale: the `double`
nearest to the value of the prefix found by `parse_decimal`, and 0 when no
conversion is possible.  Exponents, hexadecimal input, infinities and NaN are
not covered. -/
def atof_dec (s : String) : gdouble :=
  let p := parse_decimal s.data
  fp_round binary64 p.1 ((p.2.1 : ℚ) / 10 ^ p.2.2)

/-- The two-initiator table `all`, `npu` with the given values. -/
def table_all_npu (a b c d : gfloat) : List perf_ddr_type :=
  [ ⟨some "all", some "imx8mp-ddr0-all-r", a, some "imx8mp-ddr0-all-w", b⟩,
    ⟨some "npu", some "imx8mp-ddr0-npu-r", c, some "imx8mp-ddr0-npu-w", d⟩,
    sentinel ]

/-- A running state over a table, with slot count `n`, cursor `c` and a
caller's structure of `cap` elements per array. -/
def running_state (tbl : List perf_ddr_type) (n c : Int) (cap : Nat) : State :=
  { soc_name := "i.MX8MP\n".data, perf_ddr_imx8mp := tbl, perf_ddr_soc := some .IMX8MP,
    perfPID := 100,
    usage := { meas_num := n, meas_count := c,
               event_name := List.replicate cap "",
               names := List.replicate cap none,
               load := List.replicate cap 0 },
    script := none, watch := true }

/-- The header with both counters declared `gint`. -/
def header_gint : Header := ⟨32, .gint, .gint⟩

/-- The header with both counters declared `guint`. -/
def header_guint : Header := ⟨32, .guint, .guint⟩

/-- The program at start-up with the two-initiator table in place of the
registered one, and a caller's structure of `cap` elements per array. -/
def initial_state_all_npu (cap : Nat) : State :=
  { initial_state cap with perf_ddr_imx8mp := table_all_npu 0 0 0 0 }

/-! # Theorems -/

/-! ## Floating point: rounding to nearest -/

theorem round_half_even_intCast (n : Int) : round_half_even (n : ℚ) = n := by
  unfold round_half_even
  simp

theorem floor_le_round_half_even (x : ℚ) : ⌊x⌋ ≤ round_half_even x := by
  unfold round_half_even
  dsimp only
  split
  · exact le_refl _
  · split
    · omega
    · split <;> omega

theorem round_half_even_le_floor_add_one (x : ℚ) : round_half_even x ≤ ⌊x⌋ + 1 := by
  unfold round_half_even
  dsimp only
  split
  · omega
  · split
    · omega
    · split <;> omega

theorem le_round_half_even (x : ℚ) (n : Int) (h : (n : ℚ) ≤ x) : n ≤ round_half_even x :=
  le_trans (Int.le_floor.mpr h) (floor_le_round_half_even x)

theorem round_half_even_le (x : ℚ) (n : Int) (h : x ≤ (n : ℚ)) : round_half_even x ≤ n := by
  have hf : ⌊x⌋ ≤ n := by
    have h1 : ((⌊x⌋ : ℤ) : ℚ) ≤ (n : ℚ) := (Int.floor_le x).trans h
    exact_mod_cast h1
  rcases lt_or_eq_of_le hf with hlt | heq
  · have := round_half_even_le_floor_add_one x
    omega
  · have hx : x = (n : ℚ) := le_antisymm h (by rw [← heq]; exact Int.floor_le x)
    rw [hx, round_half_even_intCast]

theorem abs_round_half_even_sub (x : ℚ) : |(round_half_even x : ℚ) - x| ≤ 1 / 2 := by
  have h1 := Int.floor_le x
  have h2 := Int.lt_floor_add_one x
  unfold round_half_even
  dsimp only
  split
  · rename_i h
    rw [abs_le]; constructor <;> linarith
  · rename_i h
    split
    · rename_i h3
      push_cast
      rw [abs_le]; constructor <;> linarith
    · rename_i h3
      have he : x - ⌊x⌋ = 1 / 2 := le_antisymm (not_lt.mp h3) (not_lt.mp h)
      split
      · rw [abs_le]; constructor <;> linarith
      · push_cast
        rw [abs_le]; constructor <;> linarith

theorem two_zpow_pos (z : ℤ) : (0 : ℚ) < 2 ^ z := zpow_pos (by norm_num) z

theorem log_two_lt_iff (x : ℚ) (hx : 0 < x) (z : ℤ) : x < 2 ^ z ↔ Int.log 2 x < z := by
  have := Int.lt_zpow_iff_log_lt (R := ℚ) (b := 2) (by norm_num) (x := z) hx
  simpa using this

theorem log_two_le_iff (x : ℚ) (hx : 0 < x) (z : ℤ) : 2 ^ z ≤ x ↔ z ≤ Int.log 2 x := by
  have := Int.zpow_le_iff_le_log (R := ℚ) (b := 2) (by norm_num) (x := z) hx
  simpa using this

theorem ulp_exp_le (fmt : fp_format) (x : ℚ) (k : ℤ) (hx : 0 < x)
    (hlt : x < 2 ^ (k + fmt.prec)) (hk : fmt.emin ≤ k) : ulp_exp fmt x ≤ k := by
  have h := (log_two_lt_iff x hx _).mp hlt
  unfold ulp_exp
  omega

theorem fp_round_representable (fmt : fp_format) (s : Bool) (x : ℚ)
    (h : representable fmt x) : fp_round fmt s x = .num s x := by
  obtain ⟨m, k, hm, hk, hke, rfl⟩ := h
  have h2k := two_zpow_pos k
  have hm' : (m : ℚ) < 2 ^ fmt.prec := by exact_mod_cast hm
  have hnn : (0 : ℚ) ≤ (m : ℚ) * 2 ^ k := by positivity
  have hlt : (m : ℚ) * 2 ^ k < 2 ^ (k + (fmt.prec : ℤ)) := by
    rw [zpow_add₀ (by norm_num : (2 : ℚ) ≠ 0), zpow_natCast, mul_comm]
    exact mul_lt_mul_of_pos_left hm' h2k
  have hnov : ¬ ((2 : ℚ) ^ fmt.emax ≤ (m : ℚ) * 2 ^ k) := by
    have : (2 : ℚ) ^ (k + (fmt.prec : ℤ)) ≤ 2 ^ fmt.emax :=
      zpow_le_zpow_right₀ (by norm_num) hke
    linarith
  unfold fp_round
  dsimp only
  rw [abs_of_nonneg hnn]
  by_cases hm0 : m = 0
  · subst hm0
    have : round_half_even 0 = 0 := by simpa using round_half_even_intCast 0
    simp [this]
    exact two_zpow_pos _
  · have hx : (0 : ℚ) < (m : ℚ) * 2 ^ k := by
      have : (0 : ℚ) < m := by exact_mod_cast Nat.pos_of_ne_zero hm0
      positivity
    have he := ulp_exp_le fmt _ k hx hlt hk
    obtain ⟨d, hd⟩ := Int.eq_ofNat_of_zero_le (by omega : 0 ≤ k - ulp_exp fmt ((m : ℚ) * 2 ^ k))
    have hdiv : (m : ℚ) * 2 ^ k / 2 ^ ulp_exp fmt ((m : ℚ) * 2 ^ k) =
        (((m * 2 ^ d : ℕ) : ℤ) : ℚ) := by
      rw [mul_div_assoc, ← zpow_sub₀ (by norm_num : (2 : ℚ) ≠ 0), hd]
      push_cast
      rw [zpow_natCast]
    rw [hdiv, round_half_even_intCast]
    have hy : ((((m * 2 ^ d : ℕ) : ℤ) : ℚ)) * 2 ^ ulp_exp fmt ((m : ℚ) * 2 ^ k) =
        (m : ℚ) * 2 ^ k := by
      rw [← hdiv]
      exact div_mul_cancel₀ _ (ne_of_gt (two_zpow_pos _))
    rw [hy, if_neg hnov]

theorem round_ratio_le (fmt : fp_format) (a : ℚ) :
    a / 2 ^ ulp_exp fmt a ≤ 2 ^ fmt.prec := by
  rw [div_le_iff₀ (two_zpow_pos _)]
  have h1 : a < 2 ^ (Int.log 2 a + 1) := by
    have := Int.lt_zpow_succ_log_self (R := ℚ) (b := 2) (by norm_num) a
    simpa using this
  have h2 : (2 : ℚ) ^ (Int.log 2 a + 1) ≤ 2 ^ ((fmt.prec : ℤ) + ulp_exp fmt a) := by
    apply zpow_le_zpow_right₀ (by norm_num)
    unfold ulp_exp
    omega
  rw [← zpow_natCast, ← zpow_add₀ (by norm_num : (2 : ℚ) ≠ 0)]
  linarith

theorem le_round_ratio (fmt : fp_format) (a : ℚ) (ha : 0 < a)
    (he : fmt.emin < ulp_exp fmt a) : (2 : ℚ) ^ ((fmt.prec : ℤ) - 1) ≤ a / 2 ^ ulp_exp fmt a := by
  have hlog : ulp_exp fmt a = Int.log 2 a - ((fmt.prec : ℤ) - 1) := by
    unfold ulp_exp at he ⊢
    omega
  rw [le_div_iff₀ (two_zpow_pos _), ← zpow_add₀ (by norm_num : (2 : ℚ) ≠ 0), hlog]
  have : (fmt.prec : ℤ) - 1 + (Int.log 2 a - ((fmt.prec : ℤ) - 1)) = Int.log 2 a := by ring
  rw [this]
  exact (log_two_le_iff a ha _).mpr (le_refl _)

theorem representable_zero (fmt : fp_format) (hfmt : fmt.emin + fmt.prec ≤ fmt.emax) :
    representable fmt 0 :=
  ⟨0, fmt.emin, Nat.pos_of_ne_zero (by positivity), le_refl _, hfmt, by simp⟩

theorem fp_round_cases (fmt : fp_format) (hp : 1 ≤ fmt.prec)
    (hfmt : fmt.emin + fmt.prec ≤ fmt.emax) (s : Bool) (x : ℚ) :
    fp_round fmt s x = .inf s ∨ ∃ y, fp_round fmt s x = .num s y ∧ representable fmt y := by
  unfold fp_round
  dsimp only
  have ha : (0 : ℚ) ≤ |x| := abs_nonneg x
  generalize |x| = a at ha
  by_cases hov : (2 : ℚ) ^ fmt.emax ≤
      (round_half_even (a / 2 ^ ulp_exp fmt a) : ℚ) * 2 ^ ulp_exp fmt a
  · left
    rw [if_pos hov]
  · right
    rw [if_neg hov]
    refine ⟨_, rfl, ?_⟩
    have hemin : fmt.emin ≤ ulp_exp fmt a := le_max_right _ _
    have hn0 : 0 ≤ round_half_even (a / 2 ^ ulp_exp fmt a) :=
      le_round_half_even _ 0 (by
        have := two_zpow_pos (ulp_exp fmt a)
        simp only [Int.cast_zero]
        positivity)
    have hnp : round_half_even (a / 2 ^ ulp_exp fmt a) ≤ 2 ^ fmt.prec :=
      round_half_even_le _ _ (by
        have := round_ratio_le fmt a
        push_cast
        exact this)
    obtain ⟨n, hn⟩ := Int.eq_ofNat_of_zero_le hn0
    rw [hn] at hov hnp ⊢
    have hnp' : n ≤ 2 ^ fmt.prec := by exact_mod_cast hnp
    have hlt : ((n : ℤ) : ℚ) * 2 ^ ulp_exp fmt a < 2 ^ fmt.emax := not_le.mp hov
    by_cases hn0' : n = 0
    · subst hn0'
      simpa using representable_zero fmt hfmt
    rcases lt_or_eq_of_le hnp' with hnlt | hneq
    · refine ⟨n, ulp_exp fmt a, hnlt, hemin, ?_, by push_cast; rfl⟩
      rcases lt_or_eq_of_le hemin with he | he
      · have hapos : 0 < a := by
          rcases lt_or_eq_of_le ha with h | h
          · exact h
          · exfalso
            rw [← h] at hn
            have : round_half_even 0 = 0 := by simpa using round_half_even_intCast 0
            simp only [zero_div, this] at hn
            omega
        have h1 := le_round_ratio fmt a hapos he
        have h2 : (2 : ℤ) ^ (fmt.prec - 1) ≤ round_half_even (a / 2 ^ ulp_exp fmt a) :=
          le_round_half_even _ _ (by
            push_cast
            rw [← zpow_natCast]
            have : ((fmt.prec - 1 : ℕ) : ℤ) = (fmt.prec : ℤ) - 1 := by omega
            rw [this]
            exact h1)
        rw [hn] at h2
        have h3 : (2 : ℚ) ^ ((fmt.prec : ℤ) - 1 + ulp_exp fmt a) ≤
            ((n : ℤ) : ℚ) * 2 ^ ulp_exp fmt a := by
          rw [zpow_add₀ (by norm_num : (2 : ℚ) ≠ 0)]
          apply mul_le_mul_of_nonneg_right _ (le_of_lt (two_zpow_pos _))
          have : ((fmt.prec : ℤ) - 1) = ((fmt.prec - 1 : ℕ) : ℤ) := by omega
          rw [this, zpow_natCast]
          exact_mod_cast h2
        have h4 : (2 : ℚ) ^ ((fmt.prec : ℤ) - 1 + ulp_exp fmt a) < 2 ^ fmt.emax :=
          lt_of_le_of_lt h3 hlt
        have h5 := (zpow_lt_zpow_iff_right₀ (by norm_num : (1 : ℚ) < 2)).mp h4
        omega
      · rw [← he]; exact hfmt
    · subst hneq
      refine ⟨2 ^ (fmt.prec - 1), ulp_exp fmt a + 1, ?_, by omega, ?_, ?_⟩
      · exact Nat.pow_lt_pow_right (by norm_num) (by omega)
      · have h4 : (2 : ℚ) ^ ((fmt.prec : ℤ) + ulp_exp fmt a) < 2 ^ fmt.emax := by
          rw [zpow_add₀ (by norm_num : (2 : ℚ) ≠ 0), zpow_natCast]
          exact_mod_cast hlt
        have h5 := (zpow_lt_zpow_iff_right₀ (by norm_num : (1 : ℚ) < 2)).mp h4
        omega
      · push_cast
        rw [zpow_add₀ (by norm_num : (2 : ℚ) ≠ 0)]
        have : (2 : ℚ) ^ fmt.prec = 2 ^ (fmt.prec - 1) * 2 := by
          rw [← pow_succ]
          congr 1
          omega
        rw [this]
        ring

theorem ulp_exp_subnormal (fmt : fp_format) (a : ℚ) (ha : 0 < a)
    (hlt : a < 2 ^ (fmt.emin + (fmt.prec : ℤ) - 1)) : ulp_exp fmt a = fmt.emin := by
  have h := (log_two_lt_iff a ha _).mp hlt
  unfold ulp_exp
  omega

/-- Below the normal range the rounding error is at most half of the least
positive number, and the result is finite. -/
theorem fp_round_near (fmt : fp_format) (hp : 1 ≤ fmt.prec)
    (hfmt : fmt.emin + fmt.prec ≤ fmt.emax) (s : Bool) (x : ℚ)
    (hx : |x| < 2 ^ (fmt.emin + (fmt.prec : ℤ) - 1)) :
    ∃ y, fp_round fmt s x = .num s y ∧ abs (y - abs x) ≤ 2 ^ (fmt.emin - 1) := by
  unfold fp_round
  dsimp only
  have ha : (0 : ℚ) ≤ |x| := abs_nonneg x
  generalize |x| = a at ha hx
  have hhalf : (2 : ℚ) ^ (fmt.emin - 1) = 2 ^ fmt.emin / 2 := by
    rw [zpow_sub₀ (by norm_num : (2 : ℚ) ≠ 0)]; norm_num
  rcases lt_or_eq_of_le ha with hpos | h0
  · have he := ulp_exp_subnormal fmt a hpos hx
    rw [he]
    have herr := abs_round_half_even_sub (a / 2 ^ fmt.emin)
    have h2 := two_zpow_pos fmt.emin
    have hy : |(round_half_even (a / 2 ^ fmt.emin) : ℚ) * 2 ^ fmt.emin - a| ≤
        2 ^ (fmt.emin - 1) := by
      have : (round_half_even (a / 2 ^ fmt.emin) : ℚ) * 2 ^ fmt.emin - a =
          ((round_half_even (a / 2 ^ fmt.emin) : ℚ) - a / 2 ^ fmt.emin) * 2 ^ fmt.emin := by
        field_simp
      rw [this, abs_mul, abs_of_pos h2, hhalf]
      calc |(round_half_even (a / 2 ^ fmt.emin) : ℚ) - a / 2 ^ fmt.emin| * 2 ^ fmt.emin
        _ ≤ 1 / 2 * 2 ^ fmt.emin := mul_le_mul_of_nonneg_right herr (le_of_lt h2)
        _ = 2 ^ fmt.emin / 2 := by ring
    have hnov : ¬ ((2 : ℚ) ^ fmt.emax ≤
        (round_half_even (a / 2 ^ fmt.emin) : ℚ) * 2 ^ fmt.emin) := by
      have h3 := (abs_le.mp hy).2
      have h4 : (2 : ℚ) ^ (fmt.emin - 1) < 2 ^ (fmt.emin + (fmt.prec : ℤ) - 1) :=
        zpow_lt_zpow_right₀ (by norm_num) (by omega)
      have h5 : (2 : ℚ) ^ (fmt.emin + (fmt.prec : ℤ) - 1) * 2 ≤ 2 ^ fmt.emax := by
        have : (2 : ℚ) ^ (fmt.emin + (fmt.prec : ℤ) - 1) * 2 = 2 ^ (fmt.emin + (fmt.prec : ℤ)) := by
          rw [zpow_sub₀ (by norm_num : (2 : ℚ) ≠ 0)]; field_simp
        rw [this]
        exact zpow_le_zpow_right₀ (by norm_num) hfmt
      intro hc
      linarith
    rw [if_neg hnov]
    exact ⟨_, rfl, hy⟩
  · subst h0
    have : round_half_even 0 = 0 := by simpa using round_half_even_intCast 0
    simp only [zero_div, this, Int.cast_zero, zero_mul]
    rw [if_neg (not_le.mpr (two_zpow_pos _))]
    refine ⟨0, rfl, ?_⟩
    simp only [sub_zero, abs_zero]
    exact le_of_lt (two_zpow_pos _)

/-- Computing a rounding: with the exponent `e` of the last place and the
rounded quotient `n` at hand. -/
theorem fp_round_eval (fmt : fp_format) (s : Bool) (x : ℚ) (l : ℤ) (e n : ℤ)
    (hx : 0 < x) (hl1 : 2 ^ l ≤ x) (hl2 : x < 2 ^ (l + 1))
    (he : e = max (l - ((fmt.prec : ℤ) - 1)) fmt.emin)
    (hn : round_half_even (x / 2 ^ e) = n)
    (hov : (n : ℚ) * 2 ^ e < 2 ^ fmt.emax) :
    fp_round fmt s x = .num s ((n : ℚ) * 2 ^ e) := by
  have hlog : Int.log 2 x = l := by
    have h1 := (log_two_le_iff x hx l).mp hl1
    have h2 := (log_two_lt_iff x hx (l + 1)).mp hl2
    omega
  unfold fp_round
  dsimp only
  rw [abs_of_pos hx]
  have : ulp_exp fmt x = e := by
    unfold ulp_exp; rw [hlog, he]
  rw [this, hn, if_neg (not_le.mpr hov)]

theorem round_half_even_eval (x : ℚ) (f : ℤ) (n : ℤ) (h1 : (f : ℚ) ≤ x) (h2 : x < f + 1)
    (hn : (x - f < 1 / 2 ∧ n = f) ∨ (1 / 2 < x - f ∧ n = f + 1) ∨
      (x - f = 1 / 2 ∧ ((f % 2 = 0 ∧ n = f) ∨ (f % 2 = 1 ∧ n = f + 1)))) :
    round_half_even x = n := by
  have hf : ⌊x⌋ = f := Int.floor_eq_iff.mpr ⟨h1, h2⟩
  unfold round_half_even
  dsimp only
  rw [hf]
  rcases hn with ⟨a, b⟩ | ⟨a, b⟩ | ⟨a, b⟩
  · rw [if_pos a, b]
  · rw [if_neg (by linarith), if_pos a, b]
  · rw [if_neg (by linarith), if_neg (by linarith)]
    rcases b with ⟨c, d⟩ | ⟨c, d⟩
    · rw [if_pos c, d]
    · rw [if_neg (by omega), d]

/-- The integer 16777217 = 2^24 + 1 is half way between two numbers of
binary32; it rounds to the even one. -/
theorem fp_round_tie_example : fp_round binary32 false 16777217 = .num false 16777216 := by
  have h := fp_round_eval binary32 false 16777217 24 1 8388608 (by norm_num) (by norm_num)
    (by norm_num) (by decide)
    (round_half_even_eval _ 8388608 _ (by norm_num) (by norm_num)
      (Or.inr (Or.inr ⟨by norm_num, Or.inl ⟨by decide, rfl⟩⟩)))
    (by norm_num [binary32])
  rw [h]
  norm_num

/-- A quotient below the normal range is rounded: 14272477 * 2^-149, the
binary32 number nearest to 2e-38, divided by 2^20 gives 14 * 2^-149. -/
theorem fp_round_subnormal_example :
    fp_round binary32 false (14272477 / 2 ^ 149 / 1048576) = .num false (7 / 2 ^ 148) := by
  have h := fp_round_eval binary32 false (14272477 / 2 ^ 149 / 1048576) (-146) (-149) 14
    (by norm_num) (by norm_num) (by norm_num) (by decide)
    (round_half_even_eval _ 13 _ (by norm_num) (by norm_num)
      (Or.inr (Or.inl ⟨by norm_num, by norm_num⟩)))
    (by norm_num [binary32])
  rw [h]
  norm_num

/-! ## Floating point: the conversions and divisions of the callback -/

theorem representable_binary64_of_binary32 (v : ℚ) (h : representable binary32 v) :
    representable binary64 v := by
  obtain ⟨m, k, hm, hk, hke, rfl⟩ := h
  simp only [binary32] at hm hk hke
  refine ⟨m, k, ?_, ?_, ?_, rfl⟩
  · simp only [binary64]
    exact lt_trans hm (by norm_num)
  · simp only [binary64]; omega
  · simp only [binary64]; push_cast at hke ⊢; omega

theorem representable_nonneg (fmt : fp_format) (v : ℚ) (h : representable fmt v) : 0 ≤ v := by
  obtain ⟨m, k, _, _, _, rfl⟩ := h
  have := two_zpow_pos k
  positivity

theorem in_format_fp_round (fmt : fp_format) (hp : 1 ≤ fmt.prec)
    (hfmt : fmt.emin + fmt.prec ≤ fmt.emax) (s : Bool) (x : ℚ) :
    in_format fmt (fp_round fmt s x) := by
  rcases fp_round_cases fmt hp hfmt s x with h | ⟨y, h, hy⟩
  · rw [h]; trivial
  · rw [h]; exact hy

theorem in_format_to_gfloat (x : gdouble) : in_format binary32 (to_gfloat x) := by
  cases x with
  | num s m => exact in_format_fp_round binary32 (by decide) (by decide) s m
  | inf s => trivial
  | nan => trivial

theorem in_format_fp_div (fmt : fp_format) (hp : 1 ≤ fmt.prec)
    (hfmt : fmt.emin + fmt.prec ≤ fmt.emax) (x y : fp_value) :
    in_format fmt (fp_div fmt x y) := by
  cases x with
  | nan => simp only [fp_div, in_format]
  | inf s =>
    cases y with
    | nan => simp only [fp_div, in_format]
    | inf t => simp only [fp_div, in_format]
    | num t b => simp only [fp_div, in_format]
  | num s a =>
    cases y with
    | nan => simp only [fp_div, in_format]
    | inf t => exact representable_zero fmt hfmt
    | num t b =>
      simp only [fp_div]
      split
      · split <;> simp only [in_format]
      · exact in_format_fp_round fmt hp hfmt _ _

theorem gfloat_of_gint_mebi : gfloat_of_gint (1024 * 1024) = .num false 1048576 := by
  have h : fp_round binary32 false 1048576 = .num false 1048576 :=
    fp_round_representable _ _ _ ⟨1, 20, by decide, by decide, by decide, by norm_num⟩
  unfold gfloat_of_gint
  have hd : decide ((1024 * 1024 : Int) < 0) = false := by decide
  rw [hd]
  norm_num
  exact h

/-- Dividing a `gfloat` by the `double` 1.0 and converting the quotient back
gives the `gfloat` itself. -/
theorem to_gfloat_div_interval (x : gfloat) (hx : in_format binary32 x) :
    to_gfloat (fp_div binary64 x (.num false MEAS_INTERVAL)) = x := by
  have h1 : MEAS_INTERVAL ≠ 0 := by unfold MEAS_INTERVAL; norm_num
  cases x with
  | nan => rfl
  | inf s =>
    simp only [fp_div, to_gfloat, Bool.xor_false]
  | num s v =>
    have hv : representable binary32 v := hx
    simp only [fp_div, if_neg h1, Bool.xor_false, MEAS_INTERVAL, div_one]
    rw [fp_round_representable _ _ _ (representable_binary64_of_binary32 v hv)]
    exact fp_round_representable _ _ _ hv

/-- The quotient of a binary32 number by 2^20, in binary32: the rounded
quotient; the quotient itself when the number is zero or at least 2^-106; in
every case a finite number within 2^-150 of the quotient. -/
theorem fp_div_mebi (s : Bool) (v : ℚ) (hv : representable binary32 v) :
    fp_div binary32 (.num s v) (.num false 1048576) = fp_round binary32 s (v / 1048576) ∧
    ((v = 0 ∨ 2 ^ (-106 : ℤ) ≤ v) →
      fp_div binary32 (.num s v) (.num false 1048576) = .num s (v / 1048576)) ∧
    ∃ r, fp_div binary32 (.num s v) (.num false 1048576) = .num s r ∧
      |r - v / 1048576| ≤ 2 ^ (-150 : ℤ) := by
  have hdiv : fp_div binary32 (.num s v) (.num false 1048576) =
      fp_round binary32 s (v / 1048576) := by
    simp only [fp_div, Bool.xor_false]
    rw [if_neg (by norm_num)]
  have hnn := representable_nonneg _ v hv
  have hexact : (v = 0 ∨ 2 ^ (-106 : ℤ) ≤ v) → representable binary32 (v / 1048576) := by
    intro h
    rcases h with h0 | hbig
    · rw [h0]; simpa using representable_zero binary32 (by decide)
    · obtain ⟨m, k, hm, hk, hke, rfl⟩ := hv
      simp only [binary32] at hm hk hke
      have hk129 : -129 ≤ k := by
        by_contra hc
        have hk' : k ≤ -130 := by omega
        have h1 : (m : ℚ) < 2 ^ (24 : ℤ) := by
          have : (m : ℚ) < 2 ^ (24 : ℕ) := by exact_mod_cast hm
          rw [← zpow_natCast] at this
          exact this
        have h2 : (2 : ℚ) ^ k ≤ 2 ^ (-130 : ℤ) := zpow_le_zpow_right₀ (by norm_num) hk'
        have h3 : (m : ℚ) * 2 ^ k < 2 ^ (24 : ℤ) * 2 ^ (-130 : ℤ) := by
          calc (m : ℚ) * 2 ^ k ≤ (m : ℚ) * 2 ^ (-130 : ℤ) :=
                mul_le_mul_of_nonneg_left h2 (by positivity)
            _ < 2 ^ (24 : ℤ) * 2 ^ (-130 : ℤ) :=
                mul_lt_mul_of_pos_right h1 (two_zpow_pos _)
        have h4 : (2 : ℚ) ^ (24 : ℤ) * 2 ^ (-130 : ℤ) = 2 ^ (-106 : ℤ) := by
          rw [← zpow_add₀ (by norm_num : (2 : ℚ) ≠ 0)]; norm_num
        linarith
      refine ⟨m, k - 20, by simpa [binary32] using hm, by simp only [binary32]; omega,
        by simp only [binary32]; push_cast at hke ⊢; omega, ?_⟩
      rw [zpow_sub₀ (by norm_num : (2 : ℚ) ≠ 0)]
      norm_num
      ring
  refine ⟨hdiv, ?_, ?_⟩
  · intro h
    rw [hdiv, fp_round_representable _ _ _ (hexact h)]
  · by_cases h : v = 0 ∨ 2 ^ (-106 : ℤ) ≤ v
    · refine ⟨v / 1048576, ?_, ?_⟩
      · rw [hdiv, fp_round_representable _ _ _ (hexact h)]
      · simp only [sub_self, abs_zero]
        exact le_of_lt (two_zpow_pos _)
    · push_neg at h
      have hq : (0 : ℚ) ≤ v / 1048576 := by positivity
      have hsmall : |v / 1048576| < 2 ^ (binary32.emin + (binary32.prec : ℤ) - 1) := by
        rw [abs_of_nonneg hq]
        have : (2 : ℚ) ^ (binary32.emin + (binary32.prec : ℤ) - 1) = 2 ^ (-106 : ℤ) / 1048576 := by
          have : (1048576 : ℚ) = 2 ^ (20 : ℤ) := by norm_num
          rw [this, ← zpow_sub₀ (by norm_num : (2 : ℚ) ≠ 0)]
          simp only [binary32]
          norm_num
        rw [this]
        exact div_lt_div_of_pos_right h.2 (by norm_num)
      obtain ⟨y, hy, hbound⟩ := fp_round_near binary32 (by decide) (by decide) s (v / 1048576) hsmall
      refine ⟨y, by rw [hdiv, hy], ?_⟩
      rw [abs_of_nonneg hq] at hbound
      simpa [binary32] using hbound

/-! ## Arithmetic of the counters -/

theorem to_guint_of_nat (c : Nat) (h : (c : Int) < 2 ^ 32) : to_guint c = c := by
  unfold to_guint
  exact Int.emod_eq_of_lt (Int.ofNat_nonneg c) h

theorem to_gint_of_nat (c : Nat) (h : (c : Int) < 2 ^ 31) : to_gint c = c := by
  unfold to_gint
  norm_num at h ⊢
  omega

theorem is_value_nat_lt (ty : CIntTy) (c : Nat) (h : is_value ty c) : (c : Int) < 2 ^ 32 := by
  cases ty <;> simp only [is_value, c_conv, to_gint, to_guint] at h <;> norm_num at h ⊢ <;> omega

theorem is_value_gint_lt (c : Nat) (h : is_value .gint c) : (c : Int) < 2 ^ 31 := by
  simp only [is_value, c_conv, to_gint] at h; norm_num at h ⊢; omega

theorem is_value_of_lt (ty : CIntTy) (c : Nat) (h : (c : Int) < 2 ^ 31) : is_value ty c := by
  cases ty <;> simp only [is_value, c_conv, to_gint, to_guint] <;> norm_num at h ⊢ <;> omega

/-- The position computed by the callback for a cursor holding the natural
number `c` and a slot count `n`. -/
theorem c_rem_nat (ta tb : CIntTy) (c n : Nat) (hn : 0 < n) (hn31 : (n : Int) < 2 ^ 31)
    (hc : is_value ta c) : c_rem ta tb c n = .ok ((c % n : Nat) : Int) := by
  have hc32 := is_value_nat_lt ta c hc
  have hn32 : (n : Int) < 2 ^ 32 := by norm_num at hn31 ⊢; omega
  have hmod : ((c % n : Nat) : Int) < 2 ^ 31 := by
    have : c % n < n := Nat.mod_lt _ hn
    norm_num at hn31 ⊢; omega
  have hn0 : (n : Int) ≠ 0 := by omega
  have hu : c_rem .guint tb c n = .ok ((c % n : Nat) : Int) ∧
      c_rem ta .guint c n = .ok ((c % n : Nat) : Int) := by
    constructor
    · cases tb <;>
        simp only [c_rem, to_guint_of_nat c hc32, to_guint_of_nat n hn32, hn0, if_false] <;>
        rw [← Int.ofNat_emod, to_gint_of_nat _ hmod]
    · cases ta <;>
        simp only [c_rem, to_guint_of_nat c hc32, to_guint_of_nat n hn32, hn0, if_false] <;>
        rw [← Int.ofNat_emod, to_gint_of_nat _ hmod]
  cases ta
  · cases tb
    · have h1 : ¬ ((c : Int) = -2 ^ 31 ∧ (n : Int) = -1) := by omega
      simp only [c_rem, hn0, h1, if_false, Int.ofNat_tmod]
    · exact hu.2
  · exact hu.1

/-! ## The value stored for a line -/

theorem fp_ofNat (n : Nat) : (OfNat.ofNat n : fp_value) = .num false (n : ℚ) := rfl

/-- The three steps of the callback on the value read amount to one division
by 2^20 in binary32. -/
theorem line_value_eq (atof : String → gdouble) (line : String) :
    line_value atof line =
      fp_div binary32
        (to_gfloat (atof ((g_strsplit (g_strstrip (c_str line.data)) ';').getD 5 "")))
        (.num false 1048576) := by
  unfold line_value
  rw [gfloat_of_gint_mebi]
  exact to_gfloat_div_interval _ (in_format_fp_div binary32 (by decide) (by decide) _ _)

/-- The value stored for a line whose field 5 is read as the finite `gfloat` of
sign `s` and magnitude `v`: the quotient `v / 1048576 / MEAS_INTERVAL` rounded
to binary32; the quotient itself when `v` is zero or at least 2^-106, and in
every case a finite number within 2^-150 of it. -/
theorem line_value_finite (atof : String → gdouble) (line : String) (s : Bool) (v : ℚ)
    (h : to_gfloat (atof ((g_strsplit (g_strstrip (c_str line.data)) ';').getD 5 "")) =
      .num s v) :
    representable binary32 v ∧
    line_value atof line = fp_round binary32 s (v / 1048576 / MEAS_INTERVAL) ∧
    ((v = 0 ∨ 2 ^ (-106 : ℤ) ≤ v) →
      line_value atof line = .num s (v / 1048576 / MEAS_INTERVAL)) ∧
    ∃ r, line_value atof line = .num s r ∧
      |r - v / 1048576 / MEAS_INTERVAL| ≤ 2 ^ (-150 : ℤ) := by
  have hv : representable binary32 v := by
    have := in_format_to_gfloat (atof ((g_strsplit (g_strstrip (c_str line.data)) ';').getD 5 ""))
    rw [h] at this
    exact this
  obtain ⟨h1, h2, h3⟩ := fp_div_mebi s v hv
  have hone : v / 1048576 / MEAS_INTERVAL = v / 1048576 := by
    unfold MEAS_INTERVAL; rw [div_one]
  rw [line_value_eq, h, hone]
  exact ⟨hv, h1, h2, h3⟩

/-- An infinity or a NaN read in field 5 is stored as it is. -/
theorem line_value_special (atof : String → gdouble) (line : String) :
    (∀ s, to_gfloat (atof ((g_strsplit (g_strstrip (c_str line.data)) ';').getD 5 "")) =
      .inf s → line_value atof line = .inf s) ∧
    (to_gfloat (atof ((g_strsplit (g_strstrip (c_str line.data)) ';').getD 5 "")) = .nan →
      line_value atof line = .nan) := by
  constructor
  · intro s h
    rw [line_value_eq, h]
    simp only [fp_div, Bool.xor_false]
  · intro h
    rw [line_value_eq, h]
    simp only [fp_div]

/-- When `atof` returns the number 0 for field 5 the value stored is 0. -/
theorem line_value_zero (atof : String → gdouble) (line : String)
    (h : atof ((g_strsplit (g_strstrip (c_str line.data)) ';').getD 5 "") = 0) :
    line_value atof line = 0 := by
  have h0 : to_gfloat (atof ((g_strsplit (g_strstrip (c_str line.data)) ';').getD 5 "")) =
      .num false 0 := by
    rw [h, fp_ofNat]
    simp only [to_gfloat, Nat.cast_zero]
    exact fp_round_representable _ _ _ (representable_zero binary32 (by decide))
  have := (line_value_finite atof line false 0 h0).2.2.1 (Or.inl rfl)
  rw [this, fp_ofNat]
  simp

/-- A natural number below 2^53 written in decimal is read by `atof_dec` as it
is. -/
theorem atof_dec_of_parse (t : String) (n : Nat) (h : parse_decimal t.data = (false, n, 0))
    (hn : n < 2 ^ 53) : atof_dec t = .num false (n : ℚ) := by
  unfold atof_dec
  rw [h]
  simp only [pow_zero, div_one]
  exact fp_round_representable _ _ _
    ⟨n, 0, hn, by decide, by decide, by simp⟩

/-- The value stored for a line whose field 5 is read by `atof` as the natural
number `n = m * 2^20` with `m` below 2^4: it is `m`. -/
theorem line_value_mebi_multiple (atof : String → gdouble) (line : String) (m : Nat)
    (hm : m < 16)
    (h : atof ((g_strsplit (g_strstrip (c_str line.data)) ';').getD 5 "") =
      .num false ((m * 1048576 : Nat) : ℚ)) :
    line_value atof line = .num false (m : ℚ) := by
  have hrep : representable binary32 ((m * 1048576 : Nat) : ℚ) :=
    ⟨m, 20, lt_trans hm (by decide), by decide, by decide, by push_cast; norm_num⟩
  have h0 : to_gfloat (atof ((g_strsplit (g_strstrip (c_str line.data)) ';').getD 5 "")) =
      .num false ((m * 1048576 : Nat) : ℚ) := by
    rw [h]
    exact fp_round_representable _ _ _ hrep
  have hbig : ((m * 1048576 : Nat) : ℚ) = 0 ∨ (2 : ℚ) ^ (-106 : ℤ) ≤ ((m * 1048576 : Nat) : ℚ) := by
    rcases Nat.eq_zero_or_pos m with h0 | hpos
    · left; rw [h0]; simp
    · right
      have h1 : (1 : ℚ) ≤ ((m * 1048576 : Nat) : ℚ) := by
        have : 1 ≤ m * 1048576 := by omega
        exact_mod_cast this
      have h2 : (2 : ℚ) ^ (-106 : ℤ) ≤ 1 := by
        have := zpow_le_zpow_right₀ (by norm_num : (1 : ℚ) ≤ 2) (by norm_num : (-106 : ℤ) ≤ 0)
        simpa using this
      linarith
  rw [(line_value_finite atof line false _ h0).2.2.1 hbig]
  congr 1
  unfold MEAS_INTERVAL
  push_cast
  norm_num

/-! ## Tables -/

theorem perf_ddr_socs_set_table (st : State) (id : soc_id) (tbl : List perf_ddr_type) :
    perf_ddr_socs (set_table st id tbl) id = tbl := by
  cases id; rfl

theorem is_table_length {named tbl : List perf_ddr_type} (h : is_table named tbl) :
    tbl.length = named.length + 1 := by
  obtain ⟨_, s, _, rfl⟩ := h
  simp

theorem is_table_getElem? {named tbl : List perf_ddr_type} (h : is_table named tbl)
    {j : Nat} (hj : j < named.length) : tbl[j]? = named[j]? := by
  obtain ⟨_, s, _, rfl⟩ := h
  exact List.getElem?_append_left hj

theorem table_shape_imx8mp : table_shape 6 perf_ddr_imx8mp :=
  ⟨perf_ddr_imx8mp.take 6, rfl, by decide, sentinel, rfl, rfl⟩

theorem table_shape_all_npu (a b c d : gfloat) : table_shape 2 (table_all_npu a b c d) :=
  ⟨(table_all_npu a b c d).take 2, rfl, by simp [table_all_npu], sentinel, rfl, rfl⟩

theorem has_counters_imx8mp : has_counters perf_ddr_imx8mp := by
  unfold has_counters; decide

theorem has_counters_all_npu (a b c d : gfloat) : has_counters (table_all_npu a b c d) := by
  simp [has_counters, table_all_npu, sentinel]

/-! ## The line callback -/

/-- What the callback does on a valid line, for an active table of at least
one initiator and a cursor holding a natural number. -/
theorem cb_err_watch_valid (hdr : Header) (atof : String → gdouble) (st : State) (id : soc_id)
    (named : List perf_ddr_type) (c cond : Nat) (line : String)
    (hsoc : st.perf_ddr_soc = some id)
    (htbl : is_table named (perf_ddr_socs st id))
    (hk : 0 < named.length)
    (hnum : st.usage.meas_num = ((2 * named.length : Nat) : Int))
    (hfit : ((2 * named.length : Nat) : Int) < 2 ^ 31)
    (hc : st.usage.meas_count = (c : Int)) (hcty : is_value hdr.meas_count_ty c)
    (hcond : cond ≠ G_IO_HUP) (h7 : valid_line line = true) :
    ∃ evt, named[c % (2 * named.length) / 2]? = some evt ∧
      cb_err_watch hdr atof cond (some line) st =
        .ok (set_table
              { st with usage := { st.usage with
                  meas_count := c_conv hdr.meas_count_ty ((c : Int) + 1) } } id
              ((perf_ddr_socs st id).set (c % (2 * named.length) / 2)
                (write_slot evt (c % (2 * named.length)) (line_value atof line))), true) := by
  have hpos : 0 < 2 * named.length := by omega
  have hp : c % (2 * named.length) < 2 * named.length := Nat.mod_lt _ hpos
  have hidx : c % (2 * named.length) / 2 < named.length := by omega
  obtain ⟨evt, hevt⟩ : ∃ evt, named[c % (2 * named.length) / 2]? = some evt :=
    ⟨named[c % (2 * named.length) / 2], List.getElem?_eq_getElem hidx⟩
  refine ⟨evt, hevt, ?_⟩
  have htget : (perf_ddr_socs st id)[c % (2 * named.length) / 2]? = some evt := by
    rw [is_table_getElem? htbl hidx, hevt]
  have h7' : (g_strsplit (g_strstrip (c_str line.data)) ';').length = 7 := by
    simpa [valid_line] using h7
  have hrem := c_rem_nat hdr.meas_count_ty hdr.meas_num_ty c (2 * named.length) hpos hfit hcty
  have htd : Int.tdiv ((c % (2 * named.length) : Nat) : Int) 2 =
      ((c % (2 * named.length) / 2 : Nat) : Int) := by
    rw [Int.ofNat_tdiv]; rfl
  have htm : (Int.tmod ((c % (2 * named.length) : Nat) : Int) 2 ≠ 0) ↔
      c % (2 * named.length) % 2 = 1 := by
    have : Int.tmod ((c % (2 * named.length) : Nat) : Int) 2 =
        ((c % (2 * named.length) % 2 : Nat) : Int) := by
      rw [Int.ofNat_tmod]; rfl
    rw [this]; omega
  unfold cb_err_watch
  rw [if_neg hcond]
  simp only [h7', ne_eq, not_true_eq_false, if_false, hnum, hc, hrem, hsoc]
  simp only [bind, Except.bind, htd]
  have hnn : ¬ (((c % (2 * named.length) / 2 : Nat) : Int) < 0) := by omega
  simp only [hnn, if_false, Int.toNat_ofNat, htget, write_slot, line_value, htm]

/-- C1 (amended): for a state with an active table of k >= 1 initiators (slot
count 2k) and a line that splits into exactly 7 fields, the callback returns
TRUE and the entry at index `(c mod 2k) / 2`, c the cursor before the call,
holds the value x as its read value when `c mod 2k` is even and as its write
value when it is odd, where x is computed from the `gfloat` nearest to what
`atof` reads in field 5, of sign s and magnitude v: x is
`v / 1048576 / MEAS_INTERVAL` rounded to binary32, the quotient itself when v is
zero or at least 2^-106, and always within 2^-150 of it; v is the number read
itself when that is a number of binary32; an infinity or a NaN is stored as it
is. -/
theorem cb_err_watch_stores_value (hdr : Header) (atof : String → gdouble) (st : State)
    (id : soc_id) (named : List perf_ddr_type) (c cond : Nat) (line : String)
    (hsoc : st.perf_ddr_soc = some id)
    (htbl : is_table named (perf_ddr_socs st id))
    (hk : 1 ≤ named.length)
    (hnum : st.usage.meas_num = ((2 * named.length : Nat) : Int))
    (hfit : ((2 * named.length : Nat) : Int) < 2 ^ 31)
    (hc : st.usage.meas_count = (c : Int)) (hcty : is_value hdr.meas_count_ty c)
    (hcond : cond ≠ G_IO_HUP)
    (h7 : (g_strsplit (g_strstrip (c_str line.data)) ';').length = 7) :
    ∃ st1 evt x, cb_err_watch hdr atof cond (some line) st = .ok (st1, true) ∧
      c % (2 * named.length) / 2 < named.length ∧
      (perf_ddr_socs st1 id)[c % (2 * named.length) / 2]? = some evt ∧
      (c % (2 * named.length) % 2 = 0 → evt.rd_metric_value = x) ∧
      (c % (2 * named.length) % 2 = 1 → evt.wr_metric_value = x) ∧
      x = fp_div binary32
        (to_gfloat (atof ((g_strsplit (g_strstrip (c_str line.data)) ';').getD 5 "")))
        (.num false 1048576) ∧
      (∀ s v,
        to_gfloat (atof ((g_strsplit (g_strstrip (c_str line.data)) ';').getD 5 "")) =
          .num s v →
        x = fp_round binary32 s (v / 1048576 / MEAS_INTERVAL) ∧
        ((v = 0 ∨ 2 ^ (-106 : ℤ) ≤ v) → x = .num s (v / 1048576 / MEAS_INTERVAL)) ∧
        ∃ r, x = .num s r ∧ |r - v / 1048576 / MEAS_INTERVAL| ≤ 2 ^ (-150 : ℤ)) ∧
      (∀ s v, atof ((g_strsplit (g_strstrip (c_str line.data)) ';').getD 5 "") = .num s v →
        representable binary32 v →
        to_gfloat (atof ((g_strsplit (g_strstrip (c_str line.data)) ';').getD 5 "")) =
          .num s v) ∧
      (∀ s,
        to_gfloat (atof ((g_strsplit (g_strstrip (c_str line.data)) ';').getD 5 "")) =
          .inf s → x = .inf s) ∧
      (to_gfloat (atof ((g_strsplit (g_strstrip (c_str line.data)) ';').getD 5 "")) = .nan →
        x = .nan) := by
  have hvalid : valid_line line = true := by simp [valid_line, h7]
  obtain ⟨evt, hevt, hrun⟩ := cb_err_watch_valid hdr atof st id named c cond line hsoc htbl
    (by omega) hnum hfit hc hcty hcond hvalid
  have hidx : c % (2 * named.length) / 2 < named.length := by
    have : c % (2 * named.length) < 2 * named.length := Nat.mod_lt _ (by omega)
    omega
  have hlen : c % (2 * named.length) / 2 < (perf_ddr_socs st id).length := by
    rw [is_table_length htbl]; omega
  refine ⟨_, write_slot evt (c % (2 * named.length)) (line_value atof line),
    line_value atof line, hrun, hidx, ?_, ?_, ?_, line_value_eq atof line, ?_, ?_,
    (line_value_special atof line).1, (line_value_special atof line).2⟩
  · rw [perf_ddr_socs_set_table, List.getElem?_set]
    simp [hlen]
  · intro h0
    have : ¬ c % (2 * named.length) % 2 = 1 := by omega
    rw [write_slot, if_neg this]
  · intro h1
    rw [write_slot, if_pos h1]
  · intro s v hv
    exact (line_value_finite atof line s v hv).2
  · intro s v hv hrep
    rw [hv]
    exact fp_round_representable _ _ _ hrep

/-- The table `all`, `npu` with cursor 6 and the value 3145728 in field 5:
position 2, the read value of `npu` becomes 3. -/
theorem cb_err_watch_stores_value_witness :
    ∃ st1 evt,
      cb_err_watch header_gint atof_dec G_IO_IN (some "S0;1;;MiB;x;3145728;y\n")
        (running_state (table_all_npu 0 0 0 0) 4 6 4) = .ok (st1, true) ∧
      (perf_ddr_socs st1 .IMX8MP)[1]? = some evt ∧
      evt.rd_metric_value = .num false (3145728 / 1048576 / MEAS_INTERVAL) ∧
      evt.rd_metric_value = 3 := by
  obtain ⟨st1, evt, x, hrun, _, hget, hrd, _, _, hfin, hnarrow, _, _⟩ :=
    cb_err_watch_stores_value header_gint atof_dec (running_state (table_all_npu 0 0 0 0) 4 6 4)
      .IMX8MP [⟨some "all", some "imx8mp-ddr0-all-r", 0, some "imx8mp-ddr0-all-w", 0⟩,
        ⟨some "npu", some "imx8mp-ddr0-npu-r", 0, some "imx8mp-ddr0-npu-w", 0⟩]
      6 G_IO_IN "S0;1;;MiB;x;3145728;y\n" rfl
      ⟨by decide, sentinel, rfl, rfl⟩ (by decide) rfl (by decide) rfl (by decide) (by decide)
      (by decide)
  have hf : (g_strsplit (g_strstrip (c_str "S0;1;;MiB;x;3145728;y\n".data)) ';').getD 5 "" =
      "3145728" := by decide
  have hp : parse_decimal "3145728".data = (false, 3145728, 0) := by decide
  have ha : atof_dec "3145728" = .num false 3145728 := by
    rw [atof_dec_of_parse "3145728" 3145728 hp (by norm_num)]
    norm_num
  rw [hf] at hfin hnarrow
  have hv := hnarrow false 3145728 ha ⟨3, 20, by decide, by decide, by decide, by norm_num⟩
  have hx := (hfin false 3145728 hv).2.1 (Or.inr (by norm_num))
  have hval : evt.rd_metric_value = .num false (3145728 / 1048576 / MEAS_INTERVAL) := by
    rw [hrd (by decide), hx]
  refine ⟨st1, evt, hrun, hget, hval, ?_⟩
  rw [hval, fp_ofNat]
  norm_num [MEAS_INTERVAL]

/-- C2: for every state and every line that, trimmed and split on `;`, does
not have exactly 7 fields, the callback returns TRUE (the source stays
registered) and the whole state is unchanged: read and write values, metric
names, slot count and cursor. -/
theorem cb_err_watch_discards (hdr : Header) (atof : String → gdouble) (st : State)
    (cond : Nat) (line : String) (hcond : cond ≠ G_IO_HUP)
    (h7 : (g_strsplit (g_strstrip (c_str line.data)) ';').length ≠ 7) :
    cb_err_watch hdr atof cond (some line) st = .ok (st, true) := by
  unfold cb_err_watch
  rw [if_neg hcond]
  simp only [h7, ne_eq, not_false_eq_true, if_true]

/-- A line of 5 fields leaves a running state as it is. -/
theorem cb_err_watch_discards_witness :
    cb_err_watch header_gint atof_dec G_IO_IN (some "a;b;c;d;e")
      (running_state (table_all_npu 1 2 3 4) 4 1 4) =
      .ok (running_state (table_all_npu 1 2 3 4) 4 1 4, true) :=
  cb_err_watch_discards header_gint atof_dec (running_state (table_all_npu 1 2 3 4) 4 1 4)
    G_IO_IN "a;b;c;d;e" (by decide) (by decide)

/-- Lines of 5 and of 8 fields, the empty line and a blank line fail the
validity check; a line of 7 fields passes it, also with surrounding blanks. -/
theorem valid_line_examples :
    valid_line "a;b;c;d;e" = false ∧ valid_line "a;b;c;d;e;f;g;h" = false ∧
    valid_line "" = false ∧ valid_line " \n" = false ∧
    valid_line "a;b;c;d;e;f;g" = true ∧ valid_line "  a;b;c;d;e;f;g\n" = true ∧
    valid_line ";;;;;;" = true := by
  decide

/-- Nothing read from the channel (`NULL` string) is discarded as well. -/
theorem cb_err_watch_null_string (hdr : Header) (atof : String → gdouble) (st : State)
    (cond : Nat) (hcond : cond ≠ G_IO_HUP) :
    cb_err_watch hdr atof cond none st = .ok (st, true) := by
  unfold cb_err_watch
  rw [if_neg hcond]
  simp

/-! ## One valid line: effect on cursor, table shape and slots -/

theorem set_table_usage (st : State) (id : soc_id) (tbl : List perf_ddr_type) :
    (set_table st id tbl).usage = st.usage := by
  cases id; rfl

theorem set_table_perf_ddr_soc (st : State) (id : soc_id) (tbl : List perf_ddr_type) :
    (set_table st id tbl).perf_ddr_soc = st.perf_ddr_soc := by
  cases id; rfl

theorem write_slot_names (evt : perf_ddr_type) (p : Nat) (x : gfloat) :
    (write_slot evt p x).name = evt.name ∧
    (write_slot evt p x).rd_metric_name = evt.rd_metric_name ∧
    (write_slot evt p x).wr_metric_name = evt.wr_metric_name := by
  unfold write_slot
  split <;> exact ⟨rfl, rfl, rfl⟩

theorem is_table_set {named tbl : List perf_ddr_type} (h : is_table named tbl) (j p : Nat)
    (x : gfloat) (evt : perf_ddr_type) (hevt : named[j]? = some evt) :
    is_table (named.set j (write_slot evt p x)) (tbl.set j (write_slot evt p x)) := by
  obtain ⟨hn, s, hs, rfl⟩ := h
  have hj : j < named.length := by
    by_contra hc
    rw [List.getElem?_eq_none (by omega)] at hevt
    cases hevt
  have hmem : evt ∈ named := List.getElem?_mem hevt
  refine ⟨?_, s, hs, ?_⟩
  · intro e he
    rcases List.mem_or_eq_of_mem_set he with h1 | h1
    · exact hn e h1
    · rw [h1, (write_slot_names evt p x).1]
      exact hn evt hmem
  · rw [List.set_append_left _ _ hj]

theorem slot_value_set (tbl : List perf_ddr_type) (p q : Nat) (x : gfloat)
    (evt : perf_ddr_type) (hevt : tbl[p / 2]? = some evt) :
    slot_value (tbl.set (p / 2) (write_slot evt p x)) q =
      if q = p then some x else slot_value tbl q := by
  have hlen : p / 2 < tbl.length := by
    by_contra hc
    rw [List.getElem?_eq_none (by omega)] at hevt
    cases hevt
  unfold slot_value
  rw [List.getElem?_set]
  by_cases hq : p / 2 = q / 2
  · rw [if_pos hq, if_pos hlen]
    rw [← hq, hevt]
    by_cases hqp : q = p
    · subst hqp
      rw [if_pos rfl]
      unfold write_slot
      by_cases hpar : q % 2 = 1
      · have : ¬ q % 2 = 0 := by omega
        simp [hpar]
      · have : q % 2 = 0 := by omega
        simp [this]
    · rw [if_neg hqp]
      unfold write_slot
      by_cases hpar : p % 2 = 1
      · have : q % 2 = 0 := by omega
        simp [hpar, this]
      · have : ¬ q % 2 = 0 := by omega
        simp [hpar, this]
  · rw [if_neg hq]
    have hqp : q ≠ p := by
      intro h; apply hq; rw [h]
    rw [if_neg hqp]

theorem is_value_le (ty : CIntTy) (a b : Nat) (hab : a ≤ b) (h : is_value ty b) :
    is_value ty a := by
  cases ty <;> simp only [is_value, c_conv, to_gint, to_guint] at h ⊢ <;>
    norm_num at h ⊢ <;> omega

/-- A valid line on a table of `k >= 1` initiators: the callback returns TRUE,
advances the cursor, keeps the slot count, the active table pointer and the
shape of the table, changes nothing else of the caller's structure, and
overwrites exactly the slot `c mod 2k`. -/
theorem cb_err_watch_step (hdr : Header) (atof : String → gdouble) (st : State) (id : soc_id)
    (k c cond : Nat) (line : String)
    (hsoc : st.perf_ddr_soc = some id)
    (htbl : table_shape k (perf_ddr_socs st id))
    (hk : 0 < k)
    (hnum : st.usage.meas_num = ((2 * k : Nat) : Int))
    (hfit : ((2 * k : Nat) : Int) < 2 ^ 31)
    (hc : st.usage.meas_count = (c : Int)) (hcty : is_value hdr.meas_count_ty c)
    (hcond : cond ≠ G_IO_HUP) (h7 : valid_line line = true) :
    ∃ st1, cb_err_watch hdr atof cond (some line) st = .ok (st1, true) ∧
      st1.usage = { st.usage with meas_count := c_conv hdr.meas_count_ty ((c : Int) + 1) } ∧
      st1.perf_ddr_soc = some id ∧
      table_shape k (perf_ddr_socs st1 id) ∧
      (∀ q, slot_value (perf_ddr_socs st1 id) q =
        if q = c % (2 * k) then some (line_value atof line)
        else slot_value (perf_ddr_socs st id) q) := by
  obtain ⟨named, hlen, hnamed⟩ := htbl
  subst hlen
  obtain ⟨evt, hevt, hrun⟩ := cb_err_watch_valid hdr atof st id named c cond line hsoc hnamed
    hk hnum hfit hc hcty hcond h7
  have hidx : c % (2 * named.length) / 2 < named.length := by
    have : c % (2 * named.length) < 2 * named.length := Nat.mod_lt _ (by omega)
    omega
  have htget : (perf_ddr_socs st id)[c % (2 * named.length) / 2]? = some evt := by
    rw [is_table_getElem? hnamed hidx, hevt]
  refine ⟨_, hrun, ?_, ?_, ?_, ?_⟩
  · rw [set_table_usage]
  · rw [set_table_perf_ddr_soc]; exact hsoc
  · rw [perf_ddr_socs_set_table]
    exact ⟨_, by simp, is_table_set hnamed _ _ _ evt hevt⟩
  · intro q
    rw [perf_ddr_socs_set_table]
    exact slot_value_set _ _ q _ evt htget

/-- The line with 16777217 = 2^24 + 1 in field 5: `atof` returns the number as
it is, the conversion to `gfloat` gives 16777216, and the value stored is 16. -/
theorem line_value_tie_example :
    atof_dec ((g_strsplit (g_strstrip (c_str "S0;1;;MiB;x;16777217;y\n".data)) ';').getD 5 "") =
      .num false 16777217 ∧
    line_value atof_dec "S0;1;;MiB;x;16777217;y\n" = .num false 16 := by
  have hf : (g_strsplit (g_strstrip (c_str "S0;1;;MiB;x;16777217;y\n".data)) ';').getD 5 "" =
      "16777217" := by decide
  have hp : parse_decimal "16777217".data = (false, 16777217, 0) := by decide
  have ha : atof_dec "16777217" = .num false 16777217 := by
    rw [atof_dec_of_parse "16777217" 16777217 hp (by norm_num)]
    norm_num
  have h0 : to_gfloat (atof_dec
      ((g_strsplit (g_strstrip (c_str "S0;1;;MiB;x;16777217;y\n".data)) ';').getD 5 "")) =
      .num false 16777216 := by
    rw [hf, ha]
    exact fp_round_tie_example
  refine ⟨by rw [hf, ha], ?_⟩
  rw [(line_value_finite atof_dec _ false 16777216 h0).2.2.1 (Or.inr (by norm_num))]
  norm_num [MEAS_INTERVAL]

/-- The line with 2e-38 in field 5, written without exponent: `atof` returns
the nearest `double`, the conversion to `gfloat` gives 14272477 * 2^-149, and
the quotient by 2^20, below the normal range of binary32, is rounded to
14 * 2^-149 = 7 / 2^148. -/
theorem line_value_subnormal_example :
    to_gfloat (atof_dec ((g_strsplit (g_strstrip
      (c_str "S0;1;;MiB;x;0.00000000000000000000000000000000000002;y\n".data)) ';').getD 5 "")) =
      .num false (14272477 / 2 ^ 149) ∧
    line_value atof_dec "S0;1;;MiB;x;0.00000000000000000000000000000000000002;y\n" =
      .num false (7 / 2 ^ 148) ∧
    (7 : ℚ) / 2 ^ 148 ≠ 14272477 / 2 ^ 149 / 1048576 / MEAS_INTERVAL := by
  have hf : (g_strsplit (g_strstrip
      (c_str "S0;1;;MiB;x;0.00000000000000000000000000000000000002;y\n".data)) ';').getD 5 "" =
      "0.00000000000000000000000000000000000002" := by decide
  have hp : parse_decimal "0.00000000000000000000000000000000000002".data = (false, 2, 38) := by
    decide
  have ha : atof_dec "0.00000000000000000000000000000000000002" =
      .num false (7662477704329444 / 2 ^ 178) := by
    unfold atof_dec
    rw [hp]
    have h := fp_round_eval binary64 false (((2 : ℕ) : ℚ) / 10 ^ 38) (-126) (-178)
      7662477704329444 (by norm_num) (by norm_num) (by norm_num) (by decide)
      (round_half_even_eval _ 7662477704329444 _ (by norm_num) (by norm_num)
        (Or.inl ⟨by norm_num, rfl⟩))
      (by norm_num [binary64])
    simp only at h ⊢
    rw [h]
    norm_num
  have h0 : to_gfloat (atof_dec ((g_strsplit (g_strstrip
      (c_str "S0;1;;MiB;x;0.00000000000000000000000000000000000002;y\n".data)) ';').getD 5 "")) =
      .num false (14272477 / 2 ^ 149) := by
    rw [hf, ha]
    have h := fp_round_eval binary32 false (7662477704329444 / 2 ^ 178) (-126) (-149) 14272477
      (by norm_num) (by norm_num) (by norm_num) (by decide)
      (round_half_even_eval _ 14272476 _ (by norm_num) (by norm_num)
        (Or.inr (Or.inl ⟨by norm_num, by norm_num⟩)))
      (by norm_num [binary32])
    simp only [to_gfloat]
    rw [h]
    norm_num
  refine ⟨h0, ?_, by norm_num [MEAS_INTERVAL]⟩
  rw [(line_value_finite atof_dec _ false _ h0).2.1]
  have : (14272477 : ℚ) / 2 ^ 149 / 1048576 / MEAS_INTERVAL = 14272477 / 2 ^ 149 / 1048576 := by
    unfold MEAS_INTERVAL; rw [div_one]
  rw [this]
  exact fp_round_subnormal_example

/-! ## Resolver and initializer: frame facts and success -/

theorem gtop_set_perf_ddr_soc_frame (file : Option String) (st : State) :
    (gtop_set_perf_ddr_soc file st).usage = st.usage ∧
    (gtop_set_perf_ddr_soc file st).perf_ddr_imx8mp = st.perf_ddr_imx8mp ∧
    (gtop_set_perf_ddr_soc file st).perfPID = st.perfPID ∧
    (gtop_set_perf_ddr_soc file st).script = st.script ∧
    (gtop_set_perf_ddr_soc file st).watch = st.watch := by
  unfold gtop_set_perf_ddr_soc
  split
  · exact ⟨rfl, rfl, rfl, rfl, rfl⟩
  · split
    · exact ⟨rfl, rfl, rfl, rfl, rfl⟩
    · split
      · exact ⟨rfl, rfl, rfl, rfl, rfl⟩
      · dsimp only
        split <;> exact ⟨rfl, rfl, rfl, rfl, rfl⟩

theorem gtop_set_perf_ddr_soc_usage (file : Option String) (st : State) (u : GstDDRUsage) :
    gtop_set_perf_ddr_soc file { st with usage := u } =
      { gtop_set_perf_ddr_soc file st with usage := u } := by
  unfold gtop_set_perf_ddr_soc
  dsimp only
  split
  · rfl
  · split
    · rfl
    · split
      · rfl
      · split <;> rfl

theorem perf_ddr_socs_congr (st st1 : State) (id : soc_id)
    (h : st1.perf_ddr_imx8mp = st.perf_ddr_imx8mp) :
    perf_ddr_socs st1 id = perf_ddr_socs st id := by
  cases id; exact h

theorem store_ok {α : Type} (l : List α) (i : Nat) (a : α) (h : i < l.length) :
    store l i a = .ok (l.set i a) := by
  unfold store; rw [if_pos h]

/-- The loop of the initializer over `named` followed by a sentinel succeeds
when the arrays of the structure hold two more elements per entry, and adds 2
per entry to the slot count; cursor and load array are not touched. -/
theorem init_loop_ok (hdr : Header) (s : perf_ddr_type) (hs : s.name = none) :
    ∀ (named : List perf_ddr_type) (i : Nat) (script_str : String) (usage : GstDDRUsage)
      (m : Nat),
      (∀ e ∈ named, e.name ≠ none ∧ e.rd_metric_name ≠ none ∧ e.wr_metric_name ≠ none) →
      usage.meas_num = (m : Int) →
      ((m + 2 * named.length : Nat) : Int) < 2 ^ 31 →
      i + 2 * named.length ≤ usage.event_name.length →
      i + 2 * named.length ≤ usage.names.length →
      ∃ script1 usage1, init_loop hdr (named ++ [s]) i script_str usage = .ok (script1, usage1) ∧
        usage1.meas_num = ((m + 2 * named.length : Nat) : Int) ∧
        usage1.meas_count = usage.meas_count ∧ usage1.load = usage.load ∧
        usage1.event_name.length = usage.event_name.length ∧
        usage1.names.length = usage.names.length := by
  intro named
  induction named with
  | nil =>
    intro i script_str usage m _ hm _ _ _
    refine ⟨script_str, usage, ?_, ?_, rfl, rfl, rfl, rfl⟩
    · simp [init_loop, hs]
    · simpa using hm
  | cons e rest ih =>
    intro i script_str usage m hn hm hfit hev hna
    obtain ⟨h1, h2, h3⟩ := hn e (List.mem_cons_self _ _)
    obtain ⟨name, hname⟩ := Option.ne_none_iff_exists'.mp h1
    obtain ⟨rd, hrd⟩ := Option.ne_none_iff_exists'.mp h2
    obtain ⟨wr, hwr⟩ := Option.ne_none_iff_exists'.mp h3
    simp only [List.length_cons] at hfit hev hna
    have hconv : c_conv hdr.meas_num_ty (usage.meas_num + 2) = ((m + 2 : Nat) : Int) := by
      have hv : is_value hdr.meas_num_ty ((m + 2 : Nat) : Int) :=
        is_value_of_lt _ _ (by push_cast at hfit ⊢; omega)
      rw [hm]
      exact hv
    obtain ⟨script1, usage1, hrun, r1, r2, r3, r4, r5⟩ :=
      ih (i + 2) (script_str ++ PERF_CMDLINE rd wr MEAS_INTERVAL)
        { usage with
          names := (usage.names.set i (some i)).set (i + 1) (some (i + 1)),
          event_name := (usage.event_name.set i
            (snprintf_name hdr.DDR_STRING_MAX name "-rd" (usage.event_name.getD i ""))).set
            (i + 1) (snprintf_name hdr.DDR_STRING_MAX name "-wr"
              ((usage.event_name.set i (snprintf_name hdr.DDR_STRING_MAX name "-rd"
                (usage.event_name.getD i ""))).getD (i + 1) "")),
          meas_num := c_conv hdr.meas_num_ty (usage.meas_num + 2) }
        (m + 2) (fun x hx => hn x (List.mem_cons_of_mem _ hx)) hconv
        (by push_cast at hfit ⊢; omega) (by simp; omega) (by simp; omega)
    refine ⟨script1, usage1, ?_, ?_, r2, r3, ?_, ?_⟩
    · rw [← hrun]
      simp only [List.cons_append, init_loop, hname, hrd, hwr]
      rw [store_ok _ _ _ (by omega : i < usage.names.length),
        store_ok _ _ _ (by omega : i < usage.event_name.length)]
      simp only [bind, Except.bind]
      rw [store_ok _ _ _ (by simp; omega), store_ok _ _ _ (by simp; omega)]
      rfl
    · rw [r1, List.length_cons]; push_cast; ring
    · simpa using r4
    · simpa using r5

/-- The first initialization on an active table of `k` initiators that fits the
arrays of the caller's structure, with a successful spawn: it succeeds, leaves
the table as it is, sets the slot count to `2k` and the cursor to 0, zeroes the
load array and registers the callback. -/
theorem gst_ddr_usage_init_ok (hdr : Header) (file : Option String) (pid : Int) (st0 : State)
    (id : soc_id) (k : Nat)
    (hpid : st0.perfPID ≤ 0)
    (hsoc : (gtop_set_perf_ddr_soc file st0).perf_ddr_soc = some id)
    (htbl : table_shape k (perf_ddr_socs st0 id))
    (hcnt : has_counters (perf_ddr_socs st0 id))
    (hfit : ((2 * k : Nat) : Int) < 2 ^ 31)
    (hev : 2 * k ≤ st0.usage.event_name.length)
    (hna : 2 * k ≤ st0.usage.names.length) :
    ∃ st1, gst_ddr_usage_init hdr file (some pid) st0 = .ok st1 ∧
      st1.perf_ddr_soc = some id ∧
      perf_ddr_socs st1 id = perf_ddr_socs st0 id ∧
      st1.usage.meas_num = ((2 * k : Nat) : Int) ∧
      st1.usage.meas_count = 0 ∧
      st1.usage.load = st0.usage.load.map (fun _ => 0) ∧
      st1.perfPID = pid ∧ st1.watch = true := by
  obtain ⟨named, hlen, hnamed, s, hs, htb⟩ := htbl
  subst hlen
  obtain ⟨f1, f2, f3, f4, f5⟩ := gtop_set_perf_ddr_soc_frame file st0
  have htb1 : perf_ddr_socs (gtop_set_perf_ddr_soc file st0) id = named ++ [s] := by
    rw [perf_ddr_socs_congr _ _ id f2, htb]
  have hnamed3 : ∀ e ∈ named,
      e.name ≠ none ∧ e.rd_metric_name ≠ none ∧ e.wr_metric_name ≠ none := by
    intro e he
    have hmem : e ∈ perf_ddr_socs st0 id := by
      rw [htb]; exact List.mem_append_left _ he
    exact ⟨hnamed e he, hcnt e hmem (hnamed e he)⟩
  obtain ⟨script1, usage1, hrun, r1, r2, r3, _, _⟩ :=
    init_loop_ok hdr s hs named 0 "#! /usr/bin/env bash\n\nwhile true;\ndo\n"
      (memset_usage st0.usage) 0 hnamed3 rfl (by simpa using hfit)
      (by simpa [memset_usage] using hev) (by simpa [memset_usage] using hna)
  refine ⟨{ gtop_set_perf_ddr_soc file st0 with
      usage := usage1, script := some (script1 ++ "done\n"), perfPID := pid, watch := true },
    ?_, hsoc, ?_, ?_, ?_, ?_, rfl, rfl⟩
  · unfold gst_ddr_usage_init
    rw [if_neg (by omega), gtop_set_perf_ddr_soc_usage]
    simp only [hsoc]
    cases id
    simp only [perf_ddr_socs] at htb1 ⊢
    rw [htb1, hrun]
    rfl
  · cases id; exact f2
  · simpa using r1
  · rw [r2]; rfl
  · rw [r3]; rfl

/-- C1 (counterexample): after the initialization of the start-up state on the
i.MX8MP table, the line whose field 5 is the number 16777217, which `atof`
returns as it is, makes the callback store 16 as the read value of `all`, the
quotient of the nearest `gfloat` 16777216, and not
16777217 / 1048576 / MEAS_INTERVAL. -/
theorem cb_err_watch_rounds_value :
    atof_dec ((g_strsplit (g_strstrip (c_str "S0;1;;MiB;x;16777217;y\n".data)) ';').getD 5 "") =
      .num false 16777217 ∧
    (∃ st1 st2,
      gst_ddr_usage_init header_gint (some "i.MX8MP\n") (some 4242) (initial_state 16) =
        .ok st1 ∧
      cb_err_watch header_gint atof_dec G_IO_IN (some "S0;1;;MiB;x;16777217;y\n") st1 =
        .ok (st2, true) ∧
      slot_value (perf_ddr_socs st2 .IMX8MP) 0 = some (.num false 16)) ∧
    (16 : ℚ) ≠ 16777217 / 1048576 / MEAS_INTERVAL := by
  refine ⟨line_value_tie_example.1, ?_, by norm_num [MEAS_INTERVAL]⟩
  obtain ⟨st1, hinit, hsoc1, htbl1, hnum1, hcur1, _⟩ :=
    gst_ddr_usage_init_ok header_gint (some "i.MX8MP\n") 4242 (initial_state 16) .IMX8MP 6
      (by decide) (by decide) table_shape_imx8mp has_counters_imx8mp (by decide) (by decide)
      (by decide)
  obtain ⟨st2, hrun, _, _, _, hslot⟩ := cb_err_watch_step header_gint atof_dec st1 .IMX8MP 6 0
    G_IO_IN "S0;1;;MiB;x;16777217;y\n" hsoc1 (by rw [htbl1]; exact table_shape_imx8mp)
    (by decide) hnum1 (by decide) (by simpa using hcur1) (by decide) (by decide) (by decide)
  refine ⟨st1, st2, hinit, hrun, ?_⟩
  have := hslot 0
  rw [line_value_tie_example.2] at this
  simpa using this

/-! ## Sequences of lines -/

theorem feed_lines_cons_keep (hdr : Header) (atof : String → gdouble) (line : String)
    (rest : List String) (st st1 : State)
    (h : cb_err_watch hdr atof G_IO_IN (some line) st = .ok (st1, true)) :
    feed_lines hdr atof (line :: rest) st = feed_lines hdr atof rest st1 := by
  simp only [feed_lines, h, bind, Except.bind, if_true]

/-- Feeding lines to a table of `k >= 1` initiators: the cursor grows by the
number of valid lines, as long as that stays a value of the cursor's type. -/
theorem feed_lines_cursor (hdr : Header) (atof : String → gdouble) (id : soc_id) (k : Nat)
    (hk : 0 < k) (hfit : ((2 * k : Nat) : Int) < 2 ^ 31) :
    ∀ (lines : List String) (st : State) (c : Nat),
      st.perf_ddr_soc = some id → table_shape k (perf_ddr_socs st id) →
      st.usage.meas_num = ((2 * k : Nat) : Int) → st.usage.meas_count = (c : Int) →
      is_value hdr.meas_count_ty ((c + (lines.filter valid_line).length : Nat) : Int) →
      ∃ st2, feed_lines hdr atof lines st = .ok st2 ∧
        st2.usage.meas_count = ((c + (lines.filter valid_line).length : Nat) : Int) ∧
        st2.perf_ddr_soc = some id ∧ table_shape k (perf_ddr_socs st2 id) ∧
        st2.usage.meas_num = ((2 * k : Nat) : Int) := by
  intro lines
  induction lines with
  | nil =>
    intro st c hsoc htbl hnum hc _
    exact ⟨st, rfl, by simpa using hc, hsoc, htbl, hnum⟩
  | cons line rest ih =>
    intro st c hsoc htbl hnum hc hty
    by_cases hv : valid_line line = true
    · have hcount : ((line :: rest).filter valid_line).length =
          (rest.filter valid_line).length + 1 := by
        simp [List.filter_cons, hv]
      rw [hcount] at hty ⊢
      have hc0 : is_value hdr.meas_count_ty ((c : Nat) : Int) :=
        is_value_le _ _ _ (by omega) hty
      have hc1 : is_value hdr.meas_count_ty ((c + 1 : Nat) : Int) :=
        is_value_le _ _ _ (by omega) hty
      obtain ⟨st1, hrun, hu, hsoc1, htbl1, _⟩ := cb_err_watch_step hdr atof st id k c G_IO_IN
        line hsoc htbl hk hnum hfit hc hc0 (by decide) hv
      have hcur : st1.usage.meas_count = ((c + 1 : Nat) : Int) := by
        rw [hu]
        exact hc1
      have hnum1 : st1.usage.meas_num = ((2 * k : Nat) : Int) := by
        rw [hu]; exact hnum
      obtain ⟨st2, hfeed, r1, r2, r3, r4⟩ := ih st1 (c + 1) hsoc1 htbl1 hnum1 hcur
        (by
          have : c + 1 + (rest.filter valid_line).length =
              c + ((rest.filter valid_line).length + 1) := by omega
          rw [this]; exact hty)
      refine ⟨st2, ?_, ?_, r2, r3, r4⟩
      · rw [feed_lines_cons_keep hdr atof line rest st st1 hrun]; exact hfeed
      · rw [r1]; congr 1; omega
    · have hcount : ((line :: rest).filter valid_line).length =
          (rest.filter valid_line).length := by
        simp [List.filter_cons, hv]
      rw [hcount] at hty ⊢
      have h7 : (g_strsplit (g_strstrip (c_str line.data)) ';').length ≠ 7 := by
        simpa [valid_line] using hv
      have hrun : cb_err_watch hdr atof G_IO_IN (some line) st = .ok (st, true) := by
        unfold cb_err_watch
        rw [if_neg (by decide)]
        simp only [h7, ne_eq, not_false_eq_true, if_true]
      obtain ⟨st2, hfeed, r⟩ := ih st c hsoc htbl hnum hc hty
      exact ⟨st2, by rw [feed_lines_cons_keep hdr atof line rest st st hrun]; exact hfeed, r⟩

/-- C3: after the initialization on an active table of k >= 1 initiators, the
cursor `meas_count` is 0, and after any sequence of lines it equals the number
N of valid (7-field) lines fed, also after every initial part of the sequence:
each valid line adds exactly 1 and each invalid line adds 0.  N is a value of
the cursor's integer type. -/
theorem cursor_counts_valid_lines (hdr : Header) (atof : String → gdouble)
    (file : Option String) (pid : Int) (st0 : State) (id : soc_id) (k : Nat)
    (lines : List String)
    (hpid : st0.perfPID ≤ 0)
    (hsoc : (gtop_set_perf_ddr_soc file st0).perf_ddr_soc = some id)
    (htbl : table_shape k (perf_ddr_socs st0 id))
    (hcnt : has_counters (perf_ddr_socs st0 id))
    (hk : 1 ≤ k)
    (hfit : ((2 * k : Nat) : Int) < 2 ^ 31)
    (hev : 2 * k ≤ st0.usage.event_name.length)
    (hna : 2 * k ≤ st0.usage.names.length)
    (hN : is_value hdr.meas_count_ty (((lines.filter valid_line).length : Nat) : Int)) :
    ∃ st1, gst_ddr_usage_init hdr file (some pid) st0 = .ok st1 ∧
      st1.usage.meas_count = 0 ∧
      (∃ st2, feed_lines hdr atof lines st1 = .ok st2 ∧
        st2.usage.meas_count = (((lines.filter valid_line).length : Nat) : Int)) ∧
      ∀ n, ∃ st2, feed_lines hdr atof (lines.take n) st1 = .ok st2 ∧
        st2.usage.meas_count = ((((lines.take n).filter valid_line).length : Nat) : Int) := by
  obtain ⟨st1, hinit, hsoc1, htbl1, hnum1, hcur1, _⟩ :=
    gst_ddr_usage_init_ok hdr file pid st0 id k hpid hsoc htbl hcnt hfit hev hna
  have hpart : ∀ part : List String,
      ((part.filter valid_line).length) ≤ (lines.filter valid_line).length →
      ∃ st2, feed_lines hdr atof part st1 = .ok st2 ∧
        st2.usage.meas_count = (((part.filter valid_line).length : Nat) : Int) := by
    intro part hle
    obtain ⟨st2, hfeed, hcur2, _⟩ := feed_lines_cursor hdr atof id k (by omega) hfit part st1 0
      hsoc1 (by rw [htbl1]; exact htbl) hnum1 (by simpa using hcur1)
      (by simpa using is_value_le _ _ _ hle hN)
    exact ⟨st2, hfeed, by simpa using hcur2⟩
  refine ⟨st1, hinit, hcur1, hpart lines (le_refl _), ?_⟩
  intro n
  exact hpart (lines.take n) ((List.take_sublist n lines).filter valid_line).length_le

/-- The start-up state, the identity `i.MX8MP`, and four lines of which the
first and the third are valid: the cursor ends at 2. -/
theorem cursor_counts_valid_lines_witness :
    ∃ st1,
      gst_ddr_usage_init header_gint (some "i.MX8MP\n") (some 4242) (initial_state 16) =
        .ok st1 ∧
      st1.usage.meas_count = 0 ∧
      (∃ st2, feed_lines header_gint atof_dec
          ["a;b;c;d;e;1048576;g\n", "perf: warming up\n", "a;b;c;d;e;2097152;g\n", ""] st1 =
          .ok st2 ∧
        st2.usage.meas_count = 2) ∧
      ∀ n, ∃ st2, feed_lines header_gint atof_dec
          (["a;b;c;d;e;1048576;g\n", "perf: warming up\n", "a;b;c;d;e;2097152;g\n", ""].take n)
          st1 = .ok st2 ∧
        st2.usage.meas_count =
          ((((["a;b;c;d;e;1048576;g\n", "perf: warming up\n", "a;b;c;d;e;2097152;g\n",
            ""].take n).filter valid_line).length : Nat) : Int) :=
  cursor_counts_valid_lines header_gint atof_dec (some "i.MX8MP\n") 4242 (initial_state 16)
    .IMX8MP 6 ["a;b;c;d;e;1048576;g\n", "perf: warming up\n", "a;b;c;d;e;2097152;g\n", ""]
    (by decide) (by decide) table_shape_imx8mp has_counters_imx8mp (by decide) (by decide)
    (by decide) (by decide) (by decide)

/-! ## Snapshot -/

theorem gtop_set_perf_ddr_soc_keeps (file : Option String) (st : State) (id : soc_id)
    (h : st.perf_ddr_soc = some id) : (gtop_set_perf_ddr_soc file st).perf_ddr_soc = some id := by
  cases id
  unfold gtop_set_perf_ddr_soc
  split
  · exact h
  · split
    · exact h
    · split
      · exact h
      · dsimp only
        split
        · rfl
        · exact h

theorem slot_value_append_left (named rest : List perf_ddr_type) (j : Nat)
    (hj : j < 2 * named.length) : slot_value (named ++ rest) j = slot_value named j := by
  unfold slot_value
  rw [List.getElem?_append_left (by omega)]

theorem slot_value_cons_add_two (e : perf_ddr_type) (rest : List perf_ddr_type) (j : Nat) :
    slot_value (e :: rest) (j + 2) = slot_value rest j := by
  unfold slot_value
  have h1 : (j + 2) / 2 = j / 2 + 1 := by omega
  have h2 : (j + 2) % 2 = j % 2 := by omega
  rw [h1, h2, List.getElem?_cons_succ]

/-- The loop of the snapshot over `named` followed by a sentinel, writing from
index `i`: it succeeds when the load array holds two more elements per entry,
writes the slots of the table in order and nothing else. -/
theorem compute_loop_ok (s : perf_ddr_type) (hs : s.name = none) :
    ∀ (named : List perf_ddr_type) (i : Nat) (load : List gfloat),
      (∀ e ∈ named, e.name ≠ none) →
      i + 2 * named.length ≤ load.length →
      ∃ load1, compute_loop (named ++ [s]) i load = .ok load1 ∧
        load1.length = load.length ∧
        (∀ j, j < 2 * named.length → load1[i + j]? = slot_value named j) ∧
        (∀ q, q < i ∨ i + 2 * named.length ≤ q → load1[q]? = load[q]?) := by
  intro named
  induction named with
  | nil =>
    intro i load _ _
    refine ⟨load, ?_, rfl, ?_, fun _ _ => rfl⟩
    · simp [compute_loop, hs]
    · intro j hj; simp at hj
  | cons e rest ih =>
    intro i load hn hcap
    obtain ⟨name, hname⟩ := Option.ne_none_iff_exists'.mp (hn e (List.mem_cons_self _ _))
    simp only [List.length_cons] at hcap
    obtain ⟨load1, hrun, hl, hslots, hframe⟩ :=
      ih (i + 2) ((load.set i e.rd_metric_value).set (i + 1) e.wr_metric_value)
        (fun x hx => hn x (List.mem_cons_of_mem _ hx)) (by simp; omega)
    refine ⟨load1, ?_, ?_, ?_, ?_⟩
    · rw [← hrun]
      simp only [List.cons_append, compute_loop, hname]
      rw [store_ok _ _ _ (by omega : i < load.length)]
      simp only [bind, Except.bind]
      rw [store_ok _ _ _ (by simp; omega)]
      rfl
    · simpa using hl
    · intro j hj
      simp only [List.length_cons] at hj
      by_cases h0 : j = 0
      · subst h0
        rw [hframe (i + 0) (Or.inl (by omega))]
        simp only [Nat.add_zero]
        rw [List.getElem?_set_ne (by omega), List.getElem?_set_self (by omega)]
        simp [slot_value]
      · by_cases h1 : j = 1
        · subst h1
          rw [hframe (i + 1) (Or.inl (by omega))]
          rw [List.getElem?_set_self (by simp; omega)]
          simp [slot_value]
        · obtain ⟨j2, rfl⟩ : ∃ j2, j = j2 + 2 := ⟨j - 2, by omega⟩
          rw [slot_value_cons_add_two]
          have := hslots j2 (by omega)
          rw [← this]
          congr 1
          omega
    · intro q hq
      simp only [List.length_cons] at hq
      rw [hframe q (by omega)]
      rw [List.getElem?_set_ne (by omega), List.getElem?_set_ne (by omega)]

/-- The snapshot on an active table of `k` initiators that fits the load array:
it succeeds, copies the slots of the table to `load[0 .. 2k-1]` in order,
keeps every further element of `load`, and changes nothing but `load` and
what the resolver changes. -/
theorem gst_ddr_usage_compute_ok (file : Option String) (st : State) (id : soc_id) (k : Nat)
    (hsoc : (gtop_set_perf_ddr_soc file st).perf_ddr_soc = some id)
    (htbl : table_shape k (perf_ddr_socs st id))
    (hcap : 2 * k ≤ st.usage.load.length) :
    ∃ load1, gst_ddr_usage_compute file st =
        .ok { gtop_set_perf_ddr_soc file st with usage := { st.usage with load := load1 } } ∧
      load1.length = st.usage.load.length ∧
      (∀ j, j < 2 * k → load1[j]? = slot_value (perf_ddr_socs st id) j) ∧
      (∀ q, 2 * k ≤ q → load1[q]? = st.usage.load[q]?) := by
  obtain ⟨named, hlen, hnamed, s, hs, htb⟩ := htbl
  subst hlen
  obtain ⟨f1, f2, _, _, _⟩ := gtop_set_perf_ddr_soc_frame file st
  obtain ⟨load1, hrun, hl, hslots, hframe⟩ := compute_loop_ok s hs named 0 st.usage.load
    hnamed (by omega)
  refine ⟨load1, ?_, hl, ?_, ?_⟩
  · unfold gst_ddr_usage_compute
    simp only [hsoc]
    rw [perf_ddr_socs_congr _ _ id f2, htb, f1, hrun]
    rfl
  · intro j hj
    rw [htb, slot_value_append_left _ _ _ hj]
    simpa using hslots j hj
  · intro q hq
    exact hframe q (Or.inr (by omega))

/-! ## Rotation -/

/-- Feeding valid lines from cursor `c` without passing the end of the table:
line number `j` overwrites slot `c + j`, all other slots keep their value, and
the caller's load array is not touched. -/
theorem feed_lines_rotation (hdr : Header) (atof : String → gdouble) (id : soc_id) (k : Nat)
    (hk : 0 < k) (hfit : ((2 * k : Nat) : Int) < 2 ^ 31) :
    ∀ (lines : List String) (st : State) (c : Nat),
      st.perf_ddr_soc = some id → table_shape k (perf_ddr_socs st id) →
      st.usage.meas_num = ((2 * k : Nat) : Int) → st.usage.meas_count = (c : Int) →
      c + lines.length ≤ 2 * k → (∀ l ∈ lines, valid_line l = true) →
      ∃ st2, feed_lines hdr atof lines st = .ok st2 ∧
        st2.perf_ddr_soc = some id ∧ table_shape k (perf_ddr_socs st2 id) ∧
        st2.usage.load = st.usage.load ∧
        (∀ q, slot_value (perf_ddr_socs st2 id) q =
          if c ≤ q ∧ q < c + lines.length then (lines[q - c]?).map (line_value atof)
          else slot_value (perf_ddr_socs st id) q) := by
  intro lines
  induction lines with
  | nil =>
    intro st c hsoc htbl _ _ _ _
    refine ⟨st, rfl, hsoc, htbl, rfl, ?_⟩
    intro q
    have : ¬ (c ≤ q ∧ q < c + ([] : List String).length) := by simp
    rw [if_neg this]
  | cons line rest ih =>
    intro st c hsoc htbl hnum hc hlen hvalid
    simp only [List.length_cons] at hlen
    have hc31 : ((c : Nat) : Int) < 2 ^ 31 := by
      have : c < 2 * k := by omega
      push_cast at hfit ⊢; omega
    have hc1 : is_value hdr.meas_count_ty ((c + 1 : Nat) : Int) :=
      is_value_of_lt _ _ (by push_cast at hfit hc31 ⊢; omega)
    obtain ⟨st1, hrun, hu, hsoc1, htbl1, hslot1⟩ := cb_err_watch_step hdr atof st id k c G_IO_IN
      line hsoc htbl hk hnum hfit hc (is_value_of_lt _ _ hc31) (by decide)
      (hvalid line (List.mem_cons_self _ _))
    have hcur : st1.usage.meas_count = ((c + 1 : Nat) : Int) := by
      rw [hu]; exact hc1
    have hnum1 : st1.usage.meas_num = ((2 * k : Nat) : Int) := by
      rw [hu]; exact hnum
    obtain ⟨st2, hfeed, r1, r2, r3, r4⟩ := ih st1 (c + 1) hsoc1 htbl1 hnum1 hcur (by omega)
      (fun l hl => hvalid l (List.mem_cons_of_mem _ hl))
    refine ⟨st2, ?_, r1, r2, ?_, ?_⟩
    · rw [feed_lines_cons_keep hdr atof line rest st st1 hrun]; exact hfeed
    · rw [r3, hu]
    · intro q
      rw [r4 q, hslot1 q, Nat.mod_eq_of_lt (by omega : c < 2 * k)]
      simp only [List.length_cons]
      by_cases hq : q = c
      · subst hq
        have h1 : ¬ (q + 1 ≤ q ∧ q < q + 1 + rest.length) := by omega
        have h2 : q ≤ q ∧ q < q + (rest.length + 1) := by omega
        rw [if_neg h1, if_pos rfl, if_pos h2]
        simp
      · by_cases hin : c + 1 ≤ q ∧ q < c + 1 + rest.length
        · have h2 : c ≤ q ∧ q < c + (rest.length + 1) := by omega
          rw [if_pos hin, if_pos h2]
          obtain ⟨d, rfl⟩ : ∃ d, q = c + 1 + d := ⟨q - (c + 1), by omega⟩
          have e1 : c + 1 + d - (c + 1) = d := by omega
          have e2 : c + 1 + d - c = d + 1 := by omega
          rw [e1, e2, List.getElem?_cons_succ]
        · have h2 : ¬ (c ≤ q ∧ q < c + (rest.length + 1)) := by omega
          rw [if_neg hin, if_neg hq, if_neg h2]

/-- The initialization on an active table of `k >= 1` initiators, `2k` valid
lines and a snapshot succeed, and `load[i]` is the value stored for line `i`. -/
theorem rotation_snapshot (hdr : Header) (atof : String → gdouble) (file file2 : Option String)
    (pid : Int) (st0 : State) (id : soc_id) (k : Nat) (lines : List String)
    (hpid : st0.perfPID ≤ 0)
    (hsoc : (gtop_set_perf_ddr_soc file st0).perf_ddr_soc = some id)
    (htbl : table_shape k (perf_ddr_socs st0 id))
    (hcnt : has_counters (perf_ddr_socs st0 id))
    (hk : 1 ≤ k)
    (hfit : ((2 * k : Nat) : Int) < 2 ^ 31)
    (hev : 2 * k ≤ st0.usage.event_name.length)
    (hna : 2 * k ≤ st0.usage.names.length)
    (hload : 2 * k ≤ st0.usage.load.length)
    (hlen : lines.length = 2 * k)
    (hvalid : ∀ l ∈ lines, valid_line l = true) :
    ∃ st1 st2 st3, gst_ddr_usage_init hdr file (some pid) st0 = .ok st1 ∧
      feed_lines hdr atof lines st1 = .ok st2 ∧
      gst_ddr_usage_compute file2 st2 = .ok st3 ∧
      ∀ (i : Nat) (l : String), lines[i]? = some l →
        st3.usage.load[i]? = some (line_value atof l) := by
  obtain ⟨st1, hinit, hsoc1, htbl1, hnum1, hcur1, hload1, _⟩ :=
    gst_ddr_usage_init_ok hdr file pid st0 id k hpid hsoc htbl hcnt hfit hev hna
  obtain ⟨st2, hfeed, hsoc2, htbl2, hload2, hslots⟩ :=
    feed_lines_rotation hdr atof id k (by omega) hfit lines st1 0 hsoc1
      (by rw [htbl1]; exact htbl) hnum1 (by simpa using hcur1) (by omega) hvalid
  obtain ⟨load3, hcomp, _, hcopy, _⟩ := gst_ddr_usage_compute_ok file2 st2 id k
    (gtop_set_perf_ddr_soc_keeps file2 st2 id hsoc2) htbl2
    (by rw [hload2, hload1]; simpa using hload)
  refine ⟨st1, st2, _, hinit, hfeed, hcomp, ?_⟩
  intro i l hl
  have hi : i < 2 * k := by
    rw [← hlen]
    by_contra hc
    rw [List.getElem?_eq_none (by omega)] at hl
    cases hl
  show load3[i]? = _
  rw [hcopy i hi, hslots i, if_pos (by omega)]
  simp only [Nat.sub_zero, hl, Option.map_some']

theorem atof_dec_field_examples :
    atof_dec ((g_strsplit (g_strstrip (c_str "S0;1;;MiB;x;1048576;y\n".data)) ';').getD 5 "") = 1048576 ∧
    atof_dec ((g_strsplit (g_strstrip (c_str "S0;1;;MiB;x;2097152;y\n".data)) ';').getD 5 "") = 2097152 ∧
    atof_dec ((g_strsplit (g_strstrip (c_str "S0;1;;MiB;x;3145728;y\n".data)) ';').getD 5 "") = 3145728 ∧
    atof_dec ((g_strsplit (g_strstrip (c_str "S0;1;;MiB;x;4194304;y\n".data)) ';').getD 5 "") = 4194304 := by
  have f1 : (g_strsplit (g_strstrip (c_str "S0;1;;MiB;x;1048576;y\n".data)) ';').getD 5 "" = "1048576" := by
    decide
  have f2 : (g_strsplit (g_strstrip (c_str "S0;1;;MiB;x;2097152;y\n".data)) ';').getD 5 "" = "2097152" := by
    decide
  have f3 : (g_strsplit (g_strstrip (c_str "S0;1;;MiB;x;3145728;y\n".data)) ';').getD 5 "" = "3145728" := by
    decide
  have f4 : (g_strsplit (g_strstrip (c_str "S0;1;;MiB;x;4194304;y\n".data)) ';').getD 5 "" = "4194304" := by
    decide
  have p1 : parse_decimal "1048576".data = (false, 1048576, 0) := by decide
  have p2 : parse_decimal "2097152".data = (false, 2097152, 0) := by decide
  have p3 : parse_decimal "3145728".data = (false, 3145728, 0) := by decide
  have p4 : parse_decimal "4194304".data = (false, 4194304, 0) := by decide
  rw [f1, f2, f3, f4]
  exact ⟨atof_dec_of_parse _ _ p1 (by norm_num), atof_dec_of_parse _ _ p2 (by norm_num),
    atof_dec_of_parse _ _ p3 (by norm_num), atof_dec_of_parse _ _ p4 (by norm_num)⟩

/-- The values stored for the four lines of the scenario of the specification
are 1, 2, 3 and 4. -/
theorem line_value_scenario :
    line_value atof_dec "S0;1;;MiB;x;1048576;y\n" = 1 ∧
    line_value atof_dec "S0;1;;MiB;x;2097152;y\n" = 2 ∧
    line_value atof_dec "S0;1;;MiB;x;3145728;y\n" = 3 ∧
    line_value atof_dec "S0;1;;MiB;x;4194304;y\n" = 4 := by
  obtain ⟨a1, a2, a3, a4⟩ := atof_dec_field_examples
  exact ⟨line_value_mebi_multiple atof_dec _ 1 (by decide) a1,
    line_value_mebi_multiple atof_dec _ 2 (by decide) a2,
    line_value_mebi_multiple atof_dec _ 3 (by decide) a3,
    line_value_mebi_multiple atof_dec _ 4 (by decide) a4⟩

/-- C4 (counterexample): the start-up state initialized on the i.MX8MP table
(6 initiators) and 12 valid lines of which the first has the number 16777217
in field 5, which `atof` returns as it is; after the rotation the snapshot has
`load[0]` = 16, not 16777217 / 1048576. -/
theorem full_rotation_rounds :
    atof_dec ((g_strsplit (g_strstrip (c_str "S0;1;;MiB;x;16777217;y\n".data)) ';').getD 5 "") =
      .num false 16777217 ∧
    (∃ st1 st2 st3,
      gst_ddr_usage_init header_gint (some "i.MX8MP\n") (some 4242) (initial_state 16) =
        .ok st1 ∧
      feed_lines header_gint atof_dec
        ("S0;1;;MiB;x;16777217;y\n" :: List.replicate 11 "S0;1;;MiB;x;1048576;y\n") st1 =
        .ok st2 ∧
      gst_ddr_usage_compute (some "i.MX8MP\n") st2 = .ok st3 ∧
      st3.usage.load[0]? = some (.num false 16)) ∧
    (16 : ℚ) ≠ 16777217 / 1048576 := by
  refine ⟨line_value_tie_example.1, ?_, by norm_num⟩
  obtain ⟨st1, st2, st3, h1, h2, h3, h4⟩ :=
    rotation_snapshot header_gint atof_dec (some "i.MX8MP\n") (some "i.MX8MP\n") 4242
      (initial_state 16) .IMX8MP 6
      ("S0;1;;MiB;x;16777217;y\n" :: List.replicate 11 "S0;1;;MiB;x;1048576;y\n")
      (by decide) (by decide) table_shape_imx8mp has_counters_imx8mp
      (by decide) (by decide) (by decide) (by decide) (by decide) rfl (by decide)
  refine ⟨st1, st2, st3, h1, h2, h3, ?_⟩
  rw [h4 0 "S0;1;;MiB;x;16777217;y\n" rfl, line_value_tie_example.2]

/-- C4 (amended, full rotation): from the state left by the initialization on an
active table of k >= 1 initiators, 2k valid lines followed by a snapshot give,
for every i < 2k, `load[i]` = the quotient by 2^20, in binary32, of the
`gfloat` nearest to what `atof` reads in field 5 of line i (the interval is 1):
with s and v the sign and magnitude of that `gfloat`, `load[i]` is `v / 1048576`
rounded to binary32, the quotient itself when v is zero or at least 2^-106,
and always within 2^-150 of it; v is the number read itself when that is a
number of binary32.  For the initiators `all`, `npu` and the values 1048576,
2097152, 3145728, 4194304 the load array starts 1, 2, 3, 4. -/
theorem full_rotation (hdr : Header) (atof : String → gdouble) (file file2 : Option String)
    (pid : Int) (st0 : State) (id : soc_id) (k : Nat) (lines : List String)
    (hpid : st0.perfPID ≤ 0)
    (hsoc : (gtop_set_perf_ddr_soc file st0).perf_ddr_soc = some id)
    (htbl : table_shape k (perf_ddr_socs st0 id))
    (hcnt : has_counters (perf_ddr_socs st0 id))
    (hk : 1 ≤ k)
    (hfit : ((2 * k : Nat) : Int) < 2 ^ 31)
    (hev : 2 * k ≤ st0.usage.event_name.length)
    (hna : 2 * k ≤ st0.usage.names.length)
    (hload : 2 * k ≤ st0.usage.load.length)
    (hlen : lines.length = 2 * k)
    (hvalid : ∀ l ∈ lines, valid_line l = true) :
    ∃ st1 st2 st3, gst_ddr_usage_init hdr file (some pid) st0 = .ok st1 ∧
      feed_lines hdr atof lines st1 = .ok st2 ∧
      gst_ddr_usage_compute file2 st2 = .ok st3 ∧
      ∀ (i : Nat) (l : String), lines[i]? = some l →
        st3.usage.load[i]? =
          some (fp_div binary32
            (to_gfloat (atof ((g_strsplit (g_strstrip (c_str l.data)) ';').getD 5 "")))
            (.num false 1048576)) ∧
        (∀ s v,
          to_gfloat (atof ((g_strsplit (g_strstrip (c_str l.data)) ';').getD 5 "")) =
            .num s v →
          st3.usage.load[i]? = some (fp_round binary32 s (v / 1048576)) ∧
          ((v = 0 ∨ 2 ^ (-106 : ℤ) ≤ v) → st3.usage.load[i]? = some (.num s (v / 1048576))) ∧
          ∃ r, st3.usage.load[i]? = some (.num s r) ∧ |r - v / 1048576| ≤ 2 ^ (-150 : ℤ)) ∧
        (∀ s v, atof ((g_strsplit (g_strstrip (c_str l.data)) ';').getD 5 "") = .num s v →
          representable binary32 v →
          to_gfloat (atof ((g_strsplit (g_strstrip (c_str l.data)) ';').getD 5 "")) =
            .num s v) := by
  obtain ⟨st1, st2, st3, hinit, hfeed, hcomp, hval⟩ :=
    rotation_snapshot hdr atof file file2 pid st0 id k lines hpid hsoc htbl hcnt hk hfit hev hna
      hload hlen hvalid
  refine ⟨st1, st2, st3, hinit, hfeed, hcomp, ?_⟩
  intro i l hl
  have hone : ∀ v : ℚ, v / 1048576 / MEAS_INTERVAL = v / 1048576 := by
    intro v; unfold MEAS_INTERVAL; rw [div_one]
  refine ⟨by rw [hval i l hl, line_value_eq], ?_, ?_⟩
  · intro s v hv
    obtain ⟨_, e1, e2, r, e3, e4⟩ := line_value_finite atof l s v hv
    rw [hone] at e1 e2 e4
    refine ⟨by rw [hval i l hl, e1], fun h => by rw [hval i l hl, e2 h], r, ?_, e4⟩
    rw [hval i l hl, e3]
  · intro s v hv hrep
    rw [hv]
    exact fp_round_representable _ _ _ hrep

/-- The scenario of the specification: initiators `all`, `npu`, four lines with
the values 1048576, 2097152, 3145728, 4194304; the snapshot is 1, 2, 3, 4. -/
theorem full_rotation_witness :
    ∃ st1 st2 st3,
      gst_ddr_usage_init header_gint (some "i.MX8MP\n") (some 4242)
        (initial_state_all_npu 4) = .ok st1 ∧
      feed_lines header_gint atof_dec
        ["S0;1;;MiB;x;1048576;y\n", "S0;1;;MiB;x;2097152;y\n", "S0;1;;MiB;x;3145728;y\n",
          "S0;1;;MiB;x;4194304;y\n"] st1 = .ok st2 ∧
      gst_ddr_usage_compute (some "i.MX8MP\n") st2 = .ok st3 ∧
      st3.usage.load[0]? = some 1 ∧ st3.usage.load[1]? = some 2 ∧
      st3.usage.load[2]? = some 3 ∧ st3.usage.load[3]? = some 4 := by
  obtain ⟨st1, st2, st3, h1, h2, h3, h4⟩ :=
    full_rotation header_gint atof_dec (some "i.MX8MP\n") (some "i.MX8MP\n") 4242
      (initial_state_all_npu 4)
      .IMX8MP 2
      ["S0;1;;MiB;x;1048576;y\n", "S0;1;;MiB;x;2097152;y\n", "S0;1;;MiB;x;3145728;y\n",
        "S0;1;;MiB;x;4194304;y\n"]
      (by decide) (by decide) (table_shape_all_npu 0 0 0 0) (has_counters_all_npu 0 0 0 0)
      (by decide) (by decide) (by decide) (by decide) (by decide) rfl (by decide)
  obtain ⟨v1, v2, v3, v4⟩ := line_value_scenario
  refine ⟨st1, st2, st3, h1, h2, h3, ?_, ?_, ?_, ?_⟩
  · rw [(h4 0 "S0;1;;MiB;x;1048576;y\n" rfl).1, ← line_value_eq, v1]
  · rw [(h4 1 "S0;1;;MiB;x;2097152;y\n" rfl).1, ← line_value_eq, v2]
  · rw [(h4 2 "S0;1;;MiB;x;3145728;y\n" rfl).1, ← line_value_eq, v3]
  · rw [(h4 3 "S0;1;;MiB;x;4194304;y\n" rfl).1, ← line_value_eq, v4]

/-- C5: for an active table of k initiators (fitting the load array) and any
values in it, the snapshot succeeds and writes `load[2j]` = read value and
`load[2j+1]` = write value of initiator j, for every j < k in table order; so
when every write value is still the initial 0, every `load[2j+1]` is 0 and
every `load[2j]` is the read value held by the table. -/
theorem gst_ddr_usage_compute_copies (file : Option String) (st : State) (id : soc_id)
    (named : List perf_ddr_type)
    (hsoc : (gtop_set_perf_ddr_soc file st).perf_ddr_soc = some id)
    (htbl : is_table named (perf_ddr_socs st id))
    (hcap : 2 * named.length ≤ st.usage.load.length) :
    ∃ st1, gst_ddr_usage_compute file st = .ok st1 ∧
      (∀ (j : Nat) (e : perf_ddr_type), named[j]? = some e →
        st1.usage.load[2 * j]? = some e.rd_metric_value ∧
        st1.usage.load[2 * j + 1]? = some e.wr_metric_value) ∧
      ((∀ e ∈ named, e.wr_metric_value = 0) →
        ∀ (j : Nat) (e : perf_ddr_type), named[j]? = some e →
          st1.usage.load[2 * j]? = some e.rd_metric_value ∧
          st1.usage.load[2 * j + 1]? = some 0) := by
  obtain ⟨load1, hcomp, _, hcopy, _⟩ := gst_ddr_usage_compute_ok file st id named.length hsoc
    ⟨named, rfl, htbl⟩ hcap
  have hmain : ∀ (j : Nat) (e : perf_ddr_type), named[j]? = some e →
      load1[2 * j]? = some e.rd_metric_value ∧ load1[2 * j + 1]? = some e.wr_metric_value := by
    intro j e he
    have hj : j < named.length := by
      by_contra hc
      rw [List.getElem?_eq_none (by omega)] at he
      cases he
    have hte : (perf_ddr_socs st id)[j]? = some e := by
      rw [is_table_getElem? htbl hj, he]
    constructor
    · rw [hcopy (2 * j) (by omega)]
      unfold slot_value
      have h1 : 2 * j / 2 = j := by omega
      have h2 : 2 * j % 2 = 0 := by omega
      rw [h1, h2, hte]
      rfl
    · rw [hcopy (2 * j + 1) (by omega)]
      unfold slot_value
      have h1 : (2 * j + 1) / 2 = j := by omega
      have h2 : ¬ (2 * j + 1) % 2 = 0 := by omega
      rw [h1, hte]
      simp [h2]
  refine ⟨_, hcomp, hmain, ?_⟩
  intro hzero j e he
  obtain ⟨a, b⟩ := hmain j e he
  refine ⟨a, ?_⟩
  rw [← hzero e (List.getElem?_mem he)]
  exact b

/-- The table `all` = (5, 0), `npu` = (7, 0) and a load array of 4 elements. -/
theorem gst_ddr_usage_compute_copies_witness :
    ∃ st1, gst_ddr_usage_compute none (running_state (table_all_npu 5 0 7 0) 4 2 4) = .ok st1 ∧
      (∀ (j : Nat) (e : perf_ddr_type), ((table_all_npu 5 0 7 0).take 2)[j]? = some e →
        st1.usage.load[2 * j]? = some e.rd_metric_value ∧
        st1.usage.load[2 * j + 1]? = some e.wr_metric_value) ∧
      ((∀ e ∈ (table_all_npu 5 0 7 0).take 2, e.wr_metric_value = 0) →
        ∀ (j : Nat) (e : perf_ddr_type), ((table_all_npu 5 0 7 0).take 2)[j]? = some e →
          st1.usage.load[2 * j]? = some e.rd_metric_value ∧
          st1.usage.load[2 * j + 1]? = some 0) :=
  gst_ddr_usage_compute_copies none (running_state (table_all_npu 5 0 7 0) 4 2 4) .IMX8MP
    ((table_all_npu 5 0 7 0).take 2) (by decide)
    ⟨by simp [table_all_npu], sentinel, rfl, rfl⟩ (by decide)

/-- The snapshot of the table `all` = (5, 0), `npu` = (7, 0), in which only read
values have been written, is 5, 0, 7, 0. -/
theorem gst_ddr_usage_compute_reads_only :
    (gst_ddr_usage_compute none (running_state (table_all_npu 5 0 7 0) 4 2 4)).map
      (fun st => st.usage.load) = .ok [5, 0, 7, 0] := by
  rfl

/-! ## Metric count -/

theorem nmeas_loop_ok (s : perf_ddr_type) (hs : s.name = none) :
    ∀ (named : List perf_ddr_type) (i : Nat), (∀ e ∈ named, e.name ≠ none) →
      nmeas_loop (named ++ [s]) i = .ok (i + 2 * named.length) := by
  intro named
  induction named with
  | nil =>
    intro i _
    simp [nmeas_loop, hs]
  | cons e rest ih =>
    intro i hn
    obtain ⟨name, hname⟩ := Option.ne_none_iff_exists'.mp (hn e (List.mem_cons_self _ _))
    simp only [List.cons_append, nmeas_loop, hname]
    have hr := ih (i + 2) (fun x hx => hn x (List.mem_cons_of_mem _ hx))
    have hi : i + 2 + 2 * rest.length = i + 2 * (e :: rest).length := by
      rw [List.length_cons]; omega
    rw [hi] at hr
    exact hr

/-- C6: for an active counter table of k named entries followed by the
null-name sentinel, `gst_ddr_usage_get_nmeas` returns 2k; it returns 0 when the
first entry is the sentinel and 12 for the registered i.MX8MP table. -/
theorem gst_ddr_usage_get_nmeas_eq (file : Option String) (st : State) (id : soc_id)
    (k : Nat)
    (hsoc : (gtop_set_perf_ddr_soc file st).perf_ddr_soc = some id)
    (htbl : table_shape k (perf_ddr_socs st id)) :
    gst_ddr_usage_get_nmeas file st = .ok (gtop_set_perf_ddr_soc file st, 2 * (k : Int)) ∧
    (k = 0 → gst_ddr_usage_get_nmeas file st = .ok (gtop_set_perf_ddr_soc file st, 0)) ∧
    (perf_ddr_socs st id = perf_ddr_imx8mp →
      gst_ddr_usage_get_nmeas file st = .ok (gtop_set_perf_ddr_soc file st, 12)) := by
  have hmain : ∀ n, table_shape n (perf_ddr_socs st id) →
      gst_ddr_usage_get_nmeas file st = .ok (gtop_set_perf_ddr_soc file st, 2 * (n : Int)) := by
    intro n hn
    obtain ⟨named, hlen, hnamed, s, hs, htb⟩ := hn
    subst hlen
    obtain ⟨_, f2, _, _, _⟩ := gtop_set_perf_ddr_soc_frame file st
    unfold gst_ddr_usage_get_nmeas
    simp only [hsoc]
    rw [perf_ddr_socs_congr _ _ id f2, htb,
      nmeas_loop_ok s hs named 0 hnamed]
    simp [bind, Except.bind]
  refine ⟨hmain k htbl, ?_, ?_⟩
  · intro h0
    subst h0
    simpa using hmain 0 htbl
  · intro himx
    have := hmain 6 (by rw [himx]; exact table_shape_imx8mp)
    simpa using this

/-- The start-up state with the identity `i.MX8MP` in the identity file. -/
theorem gst_ddr_usage_get_nmeas_eq_witness :
    gst_ddr_usage_get_nmeas (some "i.MX8MP\n") (initial_state 16) =
      .ok (gtop_set_perf_ddr_soc (some "i.MX8MP\n") (initial_state 16), 2 * ((6 : Nat) : Int)) ∧
    (6 = 0 → gst_ddr_usage_get_nmeas (some "i.MX8MP\n") (initial_state 16) =
      .ok (gtop_set_perf_ddr_soc (some "i.MX8MP\n") (initial_state 16), 0)) ∧
    (perf_ddr_socs (initial_state 16) .IMX8MP = perf_ddr_imx8mp →
      gst_ddr_usage_get_nmeas (some "i.MX8MP\n") (initial_state 16) =
        .ok (gtop_set_perf_ddr_soc (some "i.MX8MP\n") (initial_state 16), 12)) :=
  gst_ddr_usage_get_nmeas_eq (some "i.MX8MP\n") (initial_state 16) .IMX8MP 6 (by decide)
    table_shape_imx8mp

/-- On the start-up state, with the identity `i.MX8MP` in the identity file, the
metric count is 12; on a table that starts with the sentinel it is 0. -/
theorem gst_ddr_usage_get_nmeas_examples :
    (gst_ddr_usage_get_nmeas (some "i.MX8MP\n") (initial_state 16)).map (fun r => r.2) =
      .ok 12 ∧
    (gst_ddr_usage_get_nmeas none (running_state [sentinel] 0 0 4)).map (fun r => r.2) =
      .ok 0 := by
  constructor <;> rfl

/-! ## No active table -/

/-- Without an active table the metric count and the snapshot dereference the
null pointer `perf_ddr_soc`. -/
theorem no_table_null_dereference (file : Option String) (st : State)
    (h : (gtop_set_perf_ddr_soc file st).perf_ddr_soc = none) :
    gst_ddr_usage_get_nmeas file st = .error .nullDeref ∧
    gst_ddr_usage_compute file st = .error .nullDeref := by
  unfold gst_ddr_usage_get_nmeas gst_ddr_usage_compute
  simp only [h, and_self]

/-- C7 (the code at the failing input): with an unknown identity in the
identity file, or with an unreadable file, `gst_ddr_usage_get_nmeas` and
`gst_ddr_usage_compute` dereference the null table pointer instead of
returning 0 and writing nothing, whereas `gst_ddr_usage_init` on the same
input returns through its null guard without spawning. -/
theorem unsupported_soc_null_dereference :
    gst_ddr_usage_get_nmeas (some "i.MX8MQ\n") (initial_state 16) = .error .nullDeref ∧
    gst_ddr_usage_compute (some "i.MX8MQ\n") (initial_state 16) = .error .nullDeref ∧
    gst_ddr_usage_get_nmeas none (initial_state 16) = .error .nullDeref ∧
    gst_ddr_usage_compute none (initial_state 16) = .error .nullDeref ∧
    gst_ddr_usage_init header_gint (some "i.MX8MQ\n") (some 4242) (initial_state 16) =
      .ok { initial_state 16 with soc_name := "i.MX8MQ\n".data } ∧
    gst_ddr_usage_init header_gint none (some 4242) (initial_state 16) =
      .ok (initial_state 16) := by
  refine ⟨rfl, rfl, rfl, rfl, rfl, rfl⟩

/-- The callback itself has no guard on the slot count: called directly on the
start-up state, where no table is active and the slot count is 0 (a call the
program never makes, the callback not being registered there), it computes
`meas_count % 0` on a line of 7 fields. -/
theorem cb_err_watch_zero_slots_divides :
    cb_err_watch header_gint atof_dec G_IO_IN (some "S0;1;;MiB;x;1048576;y\n")
      (initial_state 16) = .error .divByZero ∧
    cb_err_watch header_guint atof_dec G_IO_IN (some "S0;1;;MiB;x;1048576;y\n")
      (initial_state 16) = .error .divByZero := by
  constructor <;> rfl

/-! ## Unparsable value field -/

theorem line_value_unparsable_example :
    line_value atof_dec "S0;1;;MiB;x;<not counted>;y\n" = 0 ∧
    line_value atof_dec "S0;1;;MiB;x;;y\n" = 0 := by
  have f1 : (g_strsplit (g_strstrip (c_str "S0;1;;MiB;x;<not counted>;y\n".data)) ';').getD 5 "" =
      "<not counted>" := by decide
  have f2 : (g_strsplit (g_strstrip (c_str "S0;1;;MiB;x;;y\n".data)) ';').getD 5 "" = "" := by decide
  have p1 : parse_decimal "<not counted>".data = (false, 0, 0) := by decide
  have p2 : parse_decimal "".data = (false, 0, 0) := by decide
  exact ⟨line_value_zero atof_dec _ (by rw [f1]; exact atof_dec_of_parse _ 0 p1 (by norm_num)),
    line_value_zero atof_dec _ (by rw [f2]; exact atof_dec_of_parse _ 0 p2 (by norm_num))⟩

/-- C9 (counterexample): a 7-field line whose field 5 is the text
`<not counted>` advances the cursor from 0 to 1 and replaces the read value 1
of the first initiator by 0. -/
theorem cb_err_watch_unparsable_counterexample :
    ∃ st1, cb_err_watch header_gint atof_dec G_IO_IN (some "S0;1;;MiB;x;<not counted>;y\n")
        (running_state (table_all_npu 1 2 3 4) 4 0 4) = .ok (st1, true) ∧
      (running_state (table_all_npu 1 2 3 4) 4 0 4).usage.meas_count = 0 ∧
      st1.usage.meas_count = 1 ∧
      slot_value (running_state (table_all_npu 1 2 3 4) 4 0 4).perf_ddr_imx8mp 0 = some 1 ∧
      slot_value st1.perf_ddr_imx8mp 0 = some 0 := by
  obtain ⟨st1, hrun, hu, _, _, hslot⟩ := cb_err_watch_step header_gint atof_dec
    (running_state (table_all_npu 1 2 3 4) 4 0 4) .IMX8MP 2 0 G_IO_IN
    "S0;1;;MiB;x;<not counted>;y\n" rfl (table_shape_all_npu 1 2 3 4) (by decide) rfl
    (by decide) rfl (by decide) (by decide) (by decide)
  refine ⟨st1, hrun, rfl, ?_, ?_, ?_⟩
  · rw [hu]; rfl
  · simp [slot_value, running_state, table_all_npu]
  · have := hslot 0
    rw [line_value_unparsable_example.1] at this
    simpa [perf_ddr_socs] using this

/-- C9 (amended): on a 7-field line for whose field 5 `atof` returns 0, as it
does when no conversion can be performed, the callback returns TRUE, advances
the cursor by 1 and stores 0 in the slot selected by the cursor. -/
theorem cb_err_watch_unparsable_stores_zero (hdr : Header) (atof : String → gdouble)
    (st : State) (id : soc_id) (k c cond : Nat) (line : String)
    (hsoc : st.perf_ddr_soc = some id)
    (htbl : table_shape k (perf_ddr_socs st id))
    (hk : 1 ≤ k)
    (hnum : st.usage.meas_num = ((2 * k : Nat) : Int))
    (hfit : ((2 * k : Nat) : Int) < 2 ^ 31)
    (hc : st.usage.meas_count = (c : Int))
    (hcty : is_value hdr.meas_count_ty ((c + 1 : Nat) : Int))
    (hcond : cond ≠ G_IO_HUP)
    (h7 : (g_strsplit (g_strstrip (c_str line.data)) ';').length = 7)
    (hzero : atof ((g_strsplit (g_strstrip (c_str line.data)) ';').getD 5 "") = 0) :
    ∃ st1, cb_err_watch hdr atof cond (some line) st = .ok (st1, true) ∧
      st1.usage.meas_count = (c : Int) + 1 ∧
      slot_value (perf_ddr_socs st1 id) (c % (2 * k)) = some 0 := by
  obtain ⟨st1, hrun, hu, _, _, hslot⟩ := cb_err_watch_step hdr atof st id k c cond line hsoc
    htbl (by omega) hnum hfit hc (is_value_le _ _ _ (by omega) hcty) hcond
    (by simp [valid_line, h7])
  refine ⟨st1, hrun, ?_, ?_⟩
  · rw [hu]
    have : c_conv hdr.meas_count_ty ((c : Int) + 1) = (c : Int) + 1 := by
      have := hcty
      unfold is_value at this
      push_cast at this
      exact this
    exact this
  · rw [hslot, if_pos rfl, line_value_zero atof line hzero]

/-- A line with an empty field 5 on the table `all`, `npu` at cursor 7. -/
theorem cb_err_watch_unparsable_stores_zero_witness :
    ∃ st1, cb_err_watch header_guint atof_dec G_IO_IN (some "S0;1;;MiB;x;;y\n")
        (running_state (table_all_npu 1 2 3 4) 4 7 4) = .ok (st1, true) ∧
      st1.usage.meas_count = ((7 : Nat) : Int) + 1 ∧
      slot_value (perf_ddr_socs st1 .IMX8MP) (7 % (2 * 2)) = some 0 :=
  cb_err_watch_unparsable_stores_zero header_guint atof_dec
    (running_state (table_all_npu 1 2 3 4) 4 7 4) .IMX8MP 2 7 G_IO_IN "S0;1;;MiB;x;;y\n"
    rfl (table_shape_all_npu 1 2 3 4) (by decide) rfl (by decide) rfl (by decide) (by decide)
    (by decide)
    (by
      have f2 : (g_strsplit (g_strstrip (c_str "S0;1;;MiB;x;;y\n".data)) ';').getD 5 "" = "" := by
        decide
      have p2 : parse_decimal "".data = (false, 0, 0) := by decide
      rw [f2]
      exact atof_dec_of_parse _ 0 p2 (by norm_num))

/-! ## Reachable states -/

/-- Every normal return of the callback either leaves the state as it is, or
stores a converted cursor and replaces one array element of the active table by
an entry with the same three names. -/
theorem cb_err_watch_ok_cases (hdr : Header) (atof : String → gdouble) (cond : Nat)
    (string : Option String) (st st1 : State) (keep : Bool)
    (h : cb_err_watch hdr atof cond string st = .ok (st1, keep)) :
    st1 = st ∨
    ∃ id j evt evt1, st.perf_ddr_soc = some id ∧ (perf_ddr_socs st id)[j]? = some evt ∧
      evt1.name = evt.name ∧ evt1.rd_metric_name = evt.rd_metric_name ∧
      evt1.wr_metric_name = evt.wr_metric_name ∧
      st1 = set_table { st with usage := { st.usage with
          meas_count := c_conv hdr.meas_count_ty (st.usage.meas_count + 1) } } id
        ((perf_ddr_socs st id).set j evt1) := by
  unfold cb_err_watch at h
  split at h
  · left
    cases h; rfl
  · dsimp only at h
    split at h
    · left
      cases h; rfl
    · right
      cases hrem : c_rem hdr.meas_count_ty hdr.meas_num_ty st.usage.meas_count
          st.usage.meas_num with
      | error e => rw [hrem] at h; cases h
      | ok cnt =>
        rw [hrem] at h
        simp only [bind, Except.bind] at h
        cases hsoc : st.perf_ddr_soc with
        | none => rw [hsoc] at h; cases h
        | some id =>
          rw [hsoc] at h
          dsimp only at h
          split at h
          · cases h
          · cases hget : (perf_ddr_socs st id)[(Int.tdiv cnt 2).toNat]? with
            | none => rw [hget] at h; cases h
            | some evt =>
              rw [hget] at h
              dsimp only at h
              simp only [Except.ok.injEq, Prod.mk.injEq] at h
              obtain ⟨h1, _⟩ := h
              refine ⟨id, (Int.tdiv cnt 2).toNat, evt, _, rfl, hget, ?_, ?_, ?_, h1.symm⟩
              all_goals (split <;> rfl)

theorem table_shape_set (k : Nat) (tbl : List perf_ddr_type) (j : Nat)
    (evt evt1 : perf_ddr_type) (h : table_shape k tbl) (hget : tbl[j]? = some evt)
    (h1 : evt1.name = evt.name) : table_shape k (tbl.set j evt1) := by
  obtain ⟨named, hlen, hnamed, s, hs, rfl⟩ := h
  by_cases hj : j < named.length
  · rw [List.getElem?_append_left hj] at hget
    refine ⟨named.set j evt1, by simpa using hlen, ?_, s, hs, ?_⟩
    · intro e he
      rcases List.mem_or_eq_of_mem_set he with hm | hm
      · exact hnamed e hm
      · rw [hm, h1]
        exact hnamed evt (List.getElem?_mem hget)
    · rw [List.set_append_left _ _ hj]
  · have hjl : j < (named ++ [s]).length := by
      by_contra hc
      rw [List.getElem?_eq_none (by omega)] at hget
      cases hget
    have hjk : j = named.length := by
      simp at hjl; omega
    subst hjk
    have hevt : evt = s := by
      simpa using hget.symm
    refine ⟨named, hlen, hnamed, evt1, by rw [h1, hevt, hs], ?_⟩
    rw [List.set_append_right _ _ (le_refl _)]
    simp

theorem c_conv_idem (ty : CIntTy) (n : Int) : c_conv ty (c_conv ty n) = c_conv ty n := by
  cases ty <;> simp only [c_conv, to_gint, to_guint] <;> norm_num

theorem running_inv_step (hdr : Header) (atof : String → gdouble) (id : soc_id) (k : Nat)
    (cond : Nat) (string : Option String) (st st1 : State) (keep : Bool)
    (hinv : running_inv hdr id k st)
    (h : cb_err_watch hdr atof cond string st = .ok (st1, keep)) :
    running_inv hdr id k st1 := by
  obtain ⟨hsoc, htbl, hnum, _⟩ := hinv
  rcases cb_err_watch_ok_cases hdr atof cond string st st1 keep h with h0 | h0
  · rw [h0]; exact ⟨hsoc, htbl, hnum, by assumption⟩
  · obtain ⟨id1, j, evt, evt1, hsoc1, hget, n1, n2, n3, hst⟩ := h0
    have hid : id1 = id := by
      cases id1; cases id; rfl
    subst hid
    rw [hst]
    refine ⟨?_, ?_, ?_, ?_⟩
    · rw [set_table_perf_ddr_soc]; exact hsoc
    · rw [perf_ddr_socs_set_table]
      exact table_shape_set k _ j evt evt1 htbl hget n1
    · rw [set_table_usage]; exact hnum
    · rw [set_table_usage]; exact c_conv_idem _ _

theorem running_inv_reachable (hdr : Header) (atof : String → gdouble) (id : soc_id) (k : Nat)
    (a st : State) (ha : running_inv hdr id k a) (h : Reachable hdr atof a st) :
    running_inv hdr id k st := by
  induction h with
  | start => exact ha
  | step st st1 cond string keep _ hcb ih =>
    exact running_inv_step hdr atof id k cond string st st1 keep ih hcb

theorem reachable_trans (hdr : Header) (atof : String → gdouble) (a b c : State)
    (hab : Reachable hdr atof a b) (hbc : Reachable hdr atof b c) : Reachable hdr atof a c := by
  induction hbc with
  | start => exact hab
  | step st st1 cond string keep _ hcb ih => exact Reachable.step st st1 cond string keep ih hcb

theorem feed_lines_reachable (hdr : Header) (atof : String → gdouble) :
    ∀ (lines : List String) (st st2 : State), feed_lines hdr atof lines st = .ok st2 →
      Reachable hdr atof st st2 := by
  intro lines
  induction lines with
  | nil =>
    intro st st2 h
    simp only [feed_lines, Except.ok.injEq] at h
    rw [← h]; exact Reachable.start
  | cons line rest ih =>
    intro st st2 h
    cases hcb : cb_err_watch hdr atof G_IO_IN (some line) st with
    | error e =>
      simp only [feed_lines, hcb, bind, Except.bind] at h
      cases h
    | ok r =>
      obtain ⟨st1, keep⟩ := r
      have h1 : Reachable hdr atof st st1 :=
        Reachable.step st st1 G_IO_IN (some line) keep Reachable.start hcb
      simp only [feed_lines, hcb, bind, Except.bind] at h
      cases keep with
      | true =>
        simp only [if_true] at h
        exact reachable_trans hdr atof st st1 st2 h1 (ih st1 st2 h)
      | false =>
        simp only [Bool.false_eq_true, if_false, Except.ok.injEq] at h
        rw [← h]; exact h1

/-- The position computed for a cursor `a` and a slot count `n` when one of
the two is unsigned: the usual arithmetic conversions make both `guint`, and
the result is below `n`. -/
theorem c_rem_unsigned (ta tb : CIntTy) (a : Int) (n : Nat)
    (hty : ta = .guint ∨ tb = .guint) (hn : 0 < n) (hn31 : (n : Int) < 2 ^ 31) :
    ∃ p : Nat, c_rem ta tb a n = .ok (p : Int) ∧ p < n := by
  have hn32 : (n : Int) < 2 ^ 32 := by norm_num at hn31 ⊢; omega
  have hn0 : (n : Int) ≠ 0 := by omega
  have hq0 : 0 ≤ to_guint a % (n : Int) := Int.emod_nonneg _ hn0
  have hqn : to_guint a % (n : Int) < n := Int.emod_lt_of_pos _ (by omega)
  obtain ⟨p, hp⟩ := Int.eq_ofNat_of_zero_le hq0
  have hpn : p < n := by
    have : (p : Int) < n := by rw [← hp]; exact hqn
    exact_mod_cast this
  have hg : to_gint (to_guint a % (n : Int)) = (p : Int) := by
    rw [hp]
    exact to_gint_of_nat p (by
      have : (p : Int) < n := by exact_mod_cast hpn
      omega)
  refine ⟨p, ?_, hpn⟩
  cases ta <;> cases tb
  · rcases hty with h | h <;> cases h
  · simp only [c_rem, to_guint_of_nat n hn32, hn0, if_false, hg]
  · simp only [c_rem, to_guint_of_nat n hn32, hn0, if_false, hg]
  · simp only [c_rem, to_guint_of_nat n hn32, hn0, if_false, hg]

/-- In a state of a running program the position computed for the next valid
line is defined and lies in `0 .. 2k-1`, and the index `position / 2` designates
a named entry of the active table, when the cursor or the slot count is
unsigned or the cursor is not negative. -/
theorem position_of_running (hdr : Header) (id : soc_id) (k : Nat) (st : State)
    (hk : 1 ≤ k) (hfit : ((2 * k : Nat) : Int) < 2 ^ 31)
    (hinv : running_inv hdr id k st)
    (hsign : hdr.meas_count_ty = .guint ∨ hdr.meas_num_ty = .guint ∨
      0 ≤ st.usage.meas_count) :
    ∃ cnt evt,
      c_rem hdr.meas_count_ty hdr.meas_num_ty st.usage.meas_count st.usage.meas_num =
        .ok cnt ∧
      0 ≤ cnt ∧ cnt < 2 * (k : Int) ∧ 0 ≤ Int.tdiv cnt 2 ∧ Int.tdiv cnt 2 < (k : Int) ∧
      (perf_ddr_socs st id)[(Int.tdiv cnt 2).toNat]? = some evt ∧ evt.name ≠ none := by
  obtain ⟨_, ⟨named, hlen, hnamed⟩, hnum, hval⟩ := hinv
  subst hlen
  have hpos : 0 < 2 * named.length := by omega
  have hp : ∃ p : Nat, c_rem hdr.meas_count_ty hdr.meas_num_ty st.usage.meas_count
      st.usage.meas_num = .ok (p : Int) ∧ p < 2 * named.length := by
    rw [hnum]
    rcases hsign with h | h | h
    · exact c_rem_unsigned _ _ _ _ (Or.inl h) hpos hfit
    · exact c_rem_unsigned _ _ _ _ (Or.inr h) hpos hfit
    · obtain ⟨n, hn⟩ := Int.eq_ofNat_of_zero_le h
      have hvn : is_value hdr.meas_count_ty (n : Int) := by
        unfold is_value; rw [← hn]; exact hval
      rw [hn]
      exact ⟨n % (2 * named.length),
        c_rem_nat hdr.meas_count_ty hdr.meas_num_ty n (2 * named.length) hpos hfit hvn,
        Nat.mod_lt _ hpos⟩
  obtain ⟨p, hrem, hpn⟩ := hp
  have hidx : p / 2 < named.length := by omega
  have htd : Int.tdiv (p : Int) 2 = ((p / 2 : Nat) : Int) := by
    rw [Int.ofNat_tdiv]; rfl
  refine ⟨(p : Int), named[p / 2], hrem, Int.ofNat_nonneg _, ?_, ?_, ?_, ?_, ?_⟩
  · have : (p : Int) < ((2 * named.length : Nat) : Int) := Int.ofNat_lt.mpr hpn
    push_cast at this ⊢
    exact this
  · rw [htd]; exact Int.ofNat_nonneg _
  · rw [htd]; exact Int.ofNat_lt.mpr hidx
  · rw [htd, Int.toNat_ofNat, is_table_getElem? hnamed hidx]
    exact List.getElem?_eq_getElem hidx
  · exact hnamed.1 _ (List.getElem_mem _)

/-- With two signed counters the same holds in every reached state whose cursor
is not negative, as it is for the first 2^31 - 1 valid lines. -/
theorem position_in_table_signed (hdr : Header) (atof : String → gdouble)
    (file : Option String) (pid : Int) (st0 : State) (id : soc_id) (k : Nat)
    (hpid : st0.perfPID ≤ 0)
    (hsoc : (gtop_set_perf_ddr_soc file st0).perf_ddr_soc = some id)
    (htbl : table_shape k (perf_ddr_socs st0 id))
    (hcnt : has_counters (perf_ddr_socs st0 id))
    (hk : 1 ≤ k)
    (hfit : ((2 * k : Nat) : Int) < 2 ^ 31)
    (hev : 2 * k ≤ st0.usage.event_name.length)
    (hna : 2 * k ≤ st0.usage.names.length) :
    ∃ st1, gst_ddr_usage_init hdr file (some pid) st0 = .ok st1 ∧
      ∀ st, Reachable hdr atof st1 st → 0 ≤ st.usage.meas_count →
        ∃ cnt evt,
          c_rem hdr.meas_count_ty hdr.meas_num_ty st.usage.meas_count st.usage.meas_num =
            .ok cnt ∧
          0 ≤ cnt ∧ cnt < 2 * (k : Int) ∧ 0 ≤ Int.tdiv cnt 2 ∧ Int.tdiv cnt 2 < (k : Int) ∧
          (perf_ddr_socs st id)[(Int.tdiv cnt 2).toNat]? = some evt ∧ evt.name ≠ none := by
  obtain ⟨st1, hinit, hsoc1, htbl1, hnum1, hcur1, _⟩ :=
    gst_ddr_usage_init_ok hdr file pid st0 id k hpid hsoc htbl hcnt hfit hev hna
  refine ⟨st1, hinit, ?_⟩
  intro st hreach hnonneg
  have hinv1 : running_inv hdr id k st1 := by
    refine ⟨hsoc1, by rw [htbl1]; exact htbl, hnum1, ?_⟩
    rw [hcur1]
    cases hdr.meas_count_ty <;> rfl
  exact position_of_running hdr id k st hk hfit
    (running_inv_reachable hdr atof id k st1 st hinv1 hreach) (Or.inr (Or.inr hnonneg))

theorem filter_valid_replicate (line : String) (h : valid_line line = true) (n : Nat) :
    ((List.replicate n line).filter valid_line).length = n := by
  induction n with
  | zero => rfl
  | succ m ih => simp [List.replicate_succ, List.filter_cons, h, ih]

/-- With both counters declared `gint` and the increment of the cursor
wrapping at 2^31 - 1, as this embedding has it (ISO C leaves it undefined),
the state reached from the initialization on the i.MX8MP table by 2^31 valid
lines has the cursor -2^31; the position computed for the next valid line is
-8, the index -4, and the callback accesses the table out of bounds. -/
theorem position_negative_after_wrap :
    ∃ st1 st,
      gst_ddr_usage_init header_gint (some "i.MX8MP\n") (some 4242) (initial_state 16) =
        .ok st1 ∧
      Reachable header_gint atof_dec st1 st ∧
      st.usage.meas_count = -2147483648 ∧ st.usage.meas_num = 12 ∧
      c_rem header_gint.meas_count_ty header_gint.meas_num_ty st.usage.meas_count
        st.usage.meas_num = .ok (-8) ∧
      Int.tdiv (-8) 2 = -4 ∧
      cb_err_watch header_gint atof_dec G_IO_IN (some "S0;1;;MiB;x;1048576;y\n") st =
        .error .outOfBounds := by
  have hline : valid_line "S0;1;;MiB;x;1048576;y\n" = true := by decide
  obtain ⟨st1, hinit, hsoc1, htbl1, hnum1, hcur1, _⟩ :=
    gst_ddr_usage_init_ok header_gint (some "i.MX8MP\n") 4242 (initial_state 16) .IMX8MP 6
      (by decide) (by decide) table_shape_imx8mp has_counters_imx8mp (by decide) (by decide)
      (by decide)
  have hshape1 : table_shape 6 (perf_ddr_socs st1 .IMX8MP) := by
    rw [htbl1]; exact table_shape_imx8mp
  -- 2^31 - 1 valid lines bring the cursor to the largest `gint`
  obtain ⟨st2, hfeed, hcur2, hsoc2, hshape2, hnum2⟩ :=
    feed_lines_cursor header_gint atof_dec .IMX8MP 6 (by decide) (by decide)
      (List.replicate 2147483647 "S0;1;;MiB;x;1048576;y\n") st1 0 hsoc1 hshape1 hnum1
      (by simpa using hcur1)
      (by rw [filter_valid_replicate _ hline]; decide)
  rw [filter_valid_replicate _ hline] at hcur2
  -- one more valid line wraps it
  obtain ⟨st3, hrun, hu, hsoc3, _, _⟩ := cb_err_watch_step header_gint atof_dec st2 .IMX8MP 6
    (0 + 2147483647) G_IO_IN "S0;1;;MiB;x;1048576;y\n" hsoc2 hshape2 (by decide) hnum2
    (by decide) hcur2 (by decide) (by decide) hline
  have hcur3 : st3.usage.meas_count = -2147483648 := by
    rw [hu]; rfl
  have hnum3 : st3.usage.meas_num = 12 := by
    rw [hu]; exact hnum2
  have hreach : Reachable header_gint atof_dec st1 st3 :=
    Reachable.step st2 st3 G_IO_IN (some "S0;1;;MiB;x;1048576;y\n") true
      (feed_lines_reachable header_gint atof_dec _ st1 st2 hfeed) hrun
  have hrem : c_rem header_gint.meas_count_ty header_gint.meas_num_ty st3.usage.meas_count
      st3.usage.meas_num = .ok (-8) := by
    rw [hcur3, hnum3]; rfl
  refine ⟨st1, st3, hinit, hreach, hcur3, hnum3, hrem, by decide, ?_⟩
  unfold cb_err_watch
  rw [if_neg (by decide)]
  have h7 : (g_strsplit (g_strstrip (c_str "S0;1;;MiB;x;1048576;y\n".data)) ';').length = 7 := by
    decide
  simp only [h7, ne_eq, not_true_eq_false, if_false, hrem, hsoc3, bind, Except.bind]
  rfl

/-- With the counters declared `guint`: the state reached from the
initialization on the i.MX8MP table by 2^32 - 1 valid lines has the cursor
2^32 - 1 and the position 3; the next valid line is handled there and wraps the
cursor to 0. -/
theorem cursor_wraps_unsigned :
    ∃ st1 st2 st3,
      gst_ddr_usage_init header_guint (some "i.MX8MP\n") (some 4242) (initial_state 16) =
        .ok st1 ∧
      Reachable header_guint atof_dec st1 st2 ∧
      st2.usage.meas_count = 4294967295 ∧ st2.usage.meas_num = 12 ∧
      c_rem header_guint.meas_count_ty header_guint.meas_num_ty st2.usage.meas_count
        st2.usage.meas_num = .ok 3 ∧
      cb_err_watch header_guint atof_dec G_IO_IN (some "S0;1;;MiB;x;1048576;y\n") st2 =
        .ok (st3, true) ∧
      st3.usage.meas_count = 0 := by
  have hline : valid_line "S0;1;;MiB;x;1048576;y\n" = true := by decide
  obtain ⟨st1, hinit, hsoc1, htbl1, hnum1, hcur1, _⟩ :=
    gst_ddr_usage_init_ok header_guint (some "i.MX8MP\n") 4242 (initial_state 16) .IMX8MP 6
      (by decide) (by decide) table_shape_imx8mp has_counters_imx8mp (by decide) (by decide)
      (by decide)
  have hshape1 : table_shape 6 (perf_ddr_socs st1 .IMX8MP) := by
    rw [htbl1]; exact table_shape_imx8mp
  obtain ⟨st2, hfeed, hcur2, hsoc2, hshape2, hnum2⟩ :=
    feed_lines_cursor header_guint atof_dec .IMX8MP 6 (by decide) (by decide)
      (List.replicate 4294967295 "S0;1;;MiB;x;1048576;y\n") st1 0 hsoc1 hshape1 hnum1
      (by simpa using hcur1)
      (by rw [filter_valid_replicate _ hline]; decide)
  rw [filter_valid_replicate _ hline] at hcur2
  obtain ⟨st3, hrun, hu, _, _, _⟩ := cb_err_watch_step header_guint atof_dec st2 .IMX8MP 6
    (0 + 4294967295) G_IO_IN "S0;1;;MiB;x;1048576;y\n" hsoc2 hshape2 (by decide) hnum2
    (by decide) hcur2 (by decide) (by decide) hline
  refine ⟨st1, st2, st3, hinit, feed_lines_reachable header_guint atof_dec _ st1 st2 hfeed,
    hcur2, hnum2, ?_, hrun, ?_⟩
  · rw [hcur2, hnum2]; rfl
  · rw [hu]; rfl

/-! ## The initializer in full: names, slot count and script text -/

theorem printf_f_meas_interval : printf_f MEAS_INTERVAL = "1.000000" := by
  decide

theorem perf_cmdline_eq (e : perf_ddr_type) (rd wr : String)
    (hrd : e.rd_metric_name = some rd) (hwr : e.wr_metric_name = some wr) :
    PERF_CMDLINE rd wr MEAS_INTERVAL = sampling_command e := by
  have hlit : " sleep " ++ ("1.000000" ++ " &\n\twait $!\n") = " sleep 1.000000 &\n\twait $!\n" := by
    decide
  unfold PERF_CMDLINE sampling_command
  rw [printf_f_meas_interval, hrd, hwr]
  simp only [Option.getD_some, String.append_assoc, hlit]

theorem snprintf_name_fits (size : Nat) (name suffix buf : String)
    (h : (name ++ suffix).length < size) : snprintf_name size name suffix buf = name ++ suffix := by
  unfold snprintf_name
  have hlen : (name ++ suffix).data.length = (name ++ suffix).length := rfl
  rw [if_neg (by omega), List.take_of_length_le (by omega)]

theorem snprintf_name_rd_wr (size : Nat) (n buf : String) (h : n.length + 3 < size) :
    snprintf_name size n "-rd" buf = n ++ "-rd" ∧ snprintf_name size n "-wr" buf = n ++ "-wr" := by
  have h1 : (n ++ "-rd").length = n.length + 3 := by rw [String.length_append]; rfl
  have h2 : (n ++ "-wr").length = n.length + 3 := by rw [String.length_append]; rfl
  exact ⟨snprintf_name_fits _ _ _ _ (by omega), snprintf_name_fits _ _ _ _ (by omega)⟩

/-- The loop of the initializer in full: on `named` followed by a sentinel it
appends one sampling command per entry to the script, in order; entry `j` sets
`names[i + 2j]`, `names[i + 2j + 1]` to their own buffers and prints
`<name>-rd`, `<name>-wr` into them (whole, when they fit); it adds 2 per entry
to the slot count and leaves every other array element alone. -/
theorem init_loop_spec (hdr : Header) (s : perf_ddr_type) (hs : s.name = none) :
    ∀ (named : List perf_ddr_type) (i : Nat) (script_str : String) (usage : GstDDRUsage)
      (m : Nat),
      (∀ e ∈ named, e.name ≠ none ∧ e.rd_metric_name ≠ none ∧ e.wr_metric_name ≠ none) →
      usage.meas_num = (m : Int) →
      ((m + 2 * named.length : Nat) : Int) < 2 ^ 31 →
      i + 2 * named.length ≤ usage.event_name.length →
      i + 2 * named.length ≤ usage.names.length →
      ∃ usage1, init_loop hdr (named ++ [s]) i script_str usage =
          .ok (script_str ++ concat_strings (named.map sampling_command), usage1) ∧
        usage1.meas_num = ((m + 2 * named.length : Nat) : Int) ∧
        usage1.meas_count = usage.meas_count ∧ usage1.load = usage.load ∧
        usage1.event_name.length = usage.event_name.length ∧
        usage1.names.length = usage.names.length ∧
        (∀ q, q < i ∨ i + 2 * named.length ≤ q →
          usage1.names[q]? = usage.names[q]? ∧ usage1.event_name[q]? = usage.event_name[q]?) ∧
        (∀ (j : Nat) (e : perf_ddr_type) (n : String), named[j]? = some e → e.name = some n →
          usage1.names[i + 2 * j]? = some (some (i + 2 * j)) ∧
          usage1.names[i + 2 * j + 1]? = some (some (i + 2 * j + 1)) ∧
          (n.length + 3 < hdr.DDR_STRING_MAX →
            usage1.event_name[i + 2 * j]? = some (n ++ "-rd") ∧
            usage1.event_name[i + 2 * j + 1]? = some (n ++ "-wr"))) := by
  intro named
  induction named with
  | nil =>
    intro i script_str usage m _ hm _ _ _
    refine ⟨usage, ?_, by simpa using hm, rfl, rfl, rfl, rfl, fun _ _ => ⟨rfl, rfl⟩, ?_⟩
    · simp [init_loop, hs, concat_strings]
    · intro j e n he
      simp at he
  | cons e rest ih =>
    intro i script_str usage m hn hm hfit hev hna
    obtain ⟨h1, h2, h3⟩ := hn e (List.mem_cons_self _ _)
    obtain ⟨name, hname⟩ := Option.ne_none_iff_exists'.mp h1
    obtain ⟨rd, hrd⟩ := Option.ne_none_iff_exists'.mp h2
    obtain ⟨wr, hwr⟩ := Option.ne_none_iff_exists'.mp h3
    simp only [List.length_cons] at hfit hev hna
    have hconv : c_conv hdr.meas_num_ty (usage.meas_num + 2) = ((m + 2 : Nat) : Int) := by
      have hv : is_value hdr.meas_num_ty ((m + 2 : Nat) : Int) :=
        is_value_of_lt _ _ (by push_cast at hfit ⊢; omega)
      rw [hm]
      exact hv
    obtain ⟨usage1, hrun, r1, r2, r3, r4, r5, hframe, hnames⟩ :=
      ih (i + 2) (script_str ++ PERF_CMDLINE rd wr MEAS_INTERVAL)
        { usage with
          names := (usage.names.set i (some i)).set (i + 1) (some (i + 1)),
          event_name := (usage.event_name.set i
            (snprintf_name hdr.DDR_STRING_MAX name "-rd" (usage.event_name.getD i ""))).set
            (i + 1) (snprintf_name hdr.DDR_STRING_MAX name "-wr"
              ((usage.event_name.set i (snprintf_name hdr.DDR_STRING_MAX name "-rd"
                (usage.event_name.getD i ""))).getD (i + 1) "")),
          meas_num := c_conv hdr.meas_num_ty (usage.meas_num + 2) }
        (m + 2) (fun x hx => hn x (List.mem_cons_of_mem _ hx)) hconv
        (by push_cast at hfit ⊢; omega) (by simp; omega) (by simp; omega)
    refine ⟨usage1, ?_, ?_, r2, r3, by simpa using r4, by simpa using r5, ?_, ?_⟩
    · simp only [List.cons_append, init_loop, hname, hrd, hwr]
      rw [store_ok _ _ _ (by omega : i < usage.names.length),
        store_ok _ _ _ (by omega : i < usage.event_name.length)]
      simp only [bind, Except.bind]
      rw [store_ok _ _ _ (by simp; omega), store_ok _ _ _ (by simp; omega)]
      have hscript : script_str ++ PERF_CMDLINE rd wr MEAS_INTERVAL ++
          concat_strings (rest.map sampling_command) =
          script_str ++ concat_strings ((e :: rest).map sampling_command) := by
        rw [perf_cmdline_eq e rd wr hrd hwr, List.map_cons, concat_strings, String.append_assoc]
      rw [← hscript, ← hrun]
      rfl
    · rw [r1, List.length_cons]; push_cast; ring
    · intro q hq
      simp only [List.length_cons] at hq
      obtain ⟨f1, f2⟩ := hframe q (by omega)
      rw [f1, f2]
      constructor
      · rw [List.getElem?_set_ne (by omega), List.getElem?_set_ne (by omega)]
      · rw [List.getElem?_set_ne (by omega), List.getElem?_set_ne (by omega)]
    · intro j e1 n he1 hn1
      cases j with
      | zero =>
        simp only [List.getElem?_cons_zero, Option.some.injEq] at he1
        subst he1
        rw [hname] at hn1
        injection hn1 with hn1
        subst hn1
        obtain ⟨f1, f2⟩ := hframe i (Or.inl (by omega))
        obtain ⟨g1, g2⟩ := hframe (i + 1) (Or.inl (by omega))
        simp only [Nat.mul_zero, Nat.add_zero]
        refine ⟨?_, ?_, ?_⟩
        · rw [f1, List.getElem?_set_ne (by omega), List.getElem?_set_self (by omega)]
        · rw [g1, List.getElem?_set_self (by simp; omega)]
        · intro hfits
          obtain ⟨s1, s2⟩ := snprintf_name_rd_wr hdr.DDR_STRING_MAX name
            (usage.event_name.getD i "") hfits
          obtain ⟨_, s3⟩ := snprintf_name_rd_wr hdr.DDR_STRING_MAX name
            ((usage.event_name.set i (snprintf_name hdr.DDR_STRING_MAX name "-rd"
                (usage.event_name.getD i ""))).getD (i + 1) "") hfits
          constructor
          · rw [f2, List.getElem?_set_ne (by omega), List.getElem?_set_self (by omega), s1]
          · rw [g2, List.getElem?_set_self (by simp; omega), s3]
      | succ j2 =>
        simp only [List.getElem?_cons_succ] at he1
        have := hnames j2 e1 n he1 hn1
        have e1' : i + 2 + 2 * j2 = i + 2 * (j2 + 1) := by omega
        rw [e1'] at this
        exact this

/-- The first initialization in full, on an active table `named` followed by a
sentinel that fits the arrays of the caller's structure, with a successful
spawn: the resulting state, with the script text, the slot count, the cursor,
the zeroed load array and the names. -/
theorem gst_ddr_usage_init_spec (hdr : Header) (file : Option String) (pid : Int)
    (st0 : State) (id : soc_id) (named : List perf_ddr_type)
    (hpid : st0.perfPID ≤ 0)
    (hsoc : (gtop_set_perf_ddr_soc file st0).perf_ddr_soc = some id)
    (htbl : is_table named (perf_ddr_socs st0 id))
    (hcnt : has_counters (perf_ddr_socs st0 id))
    (hfit : ((2 * named.length : Nat) : Int) < 2 ^ 31)
    (hev : 2 * named.length ≤ st0.usage.event_name.length)
    (hna : 2 * named.length ≤ st0.usage.names.length) :
    ∃ usage1, gst_ddr_usage_init hdr file (some pid) st0 =
        .ok { gtop_set_perf_ddr_soc file st0 with
              usage := usage1, script := some (script_text named), perfPID := pid,
              watch := true } ∧
      usage1.meas_num = ((2 * named.length : Nat) : Int) ∧
      usage1.meas_count = 0 ∧
      usage1.load = st0.usage.load.map (fun _ => 0) ∧
      (∀ q, 2 * named.length ≤ q → usage1.names[q]? = (st0.usage.names.map (fun _ => none))[q]?) ∧
      (∀ (j : Nat) (e : perf_ddr_type) (n : String), named[j]? = some e → e.name = some n →
        usage1.names[2 * j]? = some (some (2 * j)) ∧
        usage1.names[2 * j + 1]? = some (some (2 * j + 1)) ∧
        (n.length + 3 < hdr.DDR_STRING_MAX →
          usage1.event_name[2 * j]? = some (n ++ "-rd") ∧
          usage1.event_name[2 * j + 1]? = some (n ++ "-wr"))) := by
  obtain ⟨hnamed, s, hs, htb⟩ := htbl
  obtain ⟨_, f2, _, _, _⟩ := gtop_set_perf_ddr_soc_frame file st0
  have htb1 : perf_ddr_socs (gtop_set_perf_ddr_soc file st0) id = named ++ [s] := by
    rw [perf_ddr_socs_congr _ _ id f2, htb]
  have hnamed3 : ∀ e ∈ named,
      e.name ≠ none ∧ e.rd_metric_name ≠ none ∧ e.wr_metric_name ≠ none := by
    intro e he
    have hmem : e ∈ perf_ddr_socs st0 id := by
      rw [htb]; exact List.mem_append_left _ he
    exact ⟨hnamed e he, hcnt e hmem (hnamed e he)⟩
  obtain ⟨usage1, hrun, r1, r2, r3, _, _, hframe, hnames⟩ :=
    init_loop_spec hdr s hs named 0 "#! /usr/bin/env bash\n\nwhile true;\ndo\n"
      (memset_usage st0.usage) 0 hnamed3 rfl (by simpa using hfit)
      (by simpa [memset_usage] using hev) (by simpa [memset_usage] using hna)
  refine ⟨usage1, ?_, by simpa using r1, by rw [r2]; rfl, by rw [r3]; rfl, ?_, ?_⟩
  · unfold gst_ddr_usage_init
    rw [if_neg (by omega), gtop_set_perf_ddr_soc_usage]
    simp only [hsoc]
    cases id
    simp only [perf_ddr_socs] at htb1 ⊢
    rw [htb1, hrun]
    rfl
  · intro q hq
    exact (hframe q (Or.inr (by omega))).1
  · intro j e n he hn
    have := hnames j e n he hn
    simpa using this

theorem gst_ddr_usage_get_nmeas_ok (file : Option String) (st : State) (id : soc_id)
    (named : List perf_ddr_type)
    (hsoc : (gtop_set_perf_ddr_soc file st).perf_ddr_soc = some id)
    (htbl : is_table named (perf_ddr_socs st id)) :
    gst_ddr_usage_get_nmeas file st =
      .ok (gtop_set_perf_ddr_soc file st, ((2 * named.length : Nat) : Int)) := by
  obtain ⟨hnamed, s, hs, htb⟩ := htbl
  obtain ⟨_, f2, _, _, _⟩ := gtop_set_perf_ddr_soc_frame file st
  unfold gst_ddr_usage_get_nmeas
  simp only [hsoc]
  rw [perf_ddr_socs_congr _ _ id f2, htb, nmeas_loop_ok s hs named 0 hnamed]
  simp [bind, Except.bind]

/-- C11: after the first initialization on an active table of k initiators
whose names with `-rd` / `-wr` fit the name buffers, the stored slot count
`meas_num` is 2k, which is what `gst_ddr_usage_get_nmeas` returns, and for
every j < k the metric name at index 2j is `<initiator_j>-rd` and the one at
index 2j+1 is `<initiator_j>-wr`. -/
theorem init_names_and_count (hdr : Header) (file file2 : Option String) (pid : Int)
    (st0 : State) (id : soc_id) (named : List perf_ddr_type)
    (hpid : st0.perfPID ≤ 0)
    (hsoc : (gtop_set_perf_ddr_soc file st0).perf_ddr_soc = some id)
    (htbl : is_table named (perf_ddr_socs st0 id))
    (hcnt : has_counters (perf_ddr_socs st0 id))
    (hfit : ((2 * named.length : Nat) : Int) < 2 ^ 31)
    (hev : 2 * named.length ≤ st0.usage.event_name.length)
    (hna : 2 * named.length ≤ st0.usage.names.length)
    (hbuf : ∀ e ∈ named, ∀ n, e.name = some n → n.length + 3 < hdr.DDR_STRING_MAX) :
    ∃ st1 st2, gst_ddr_usage_init hdr file (some pid) st0 = .ok st1 ∧
      st1.usage.meas_num = 2 * (named.length : Int) ∧
      gst_ddr_usage_get_nmeas file2 st1 = .ok (st2, 2 * (named.length : Int)) ∧
      ∀ (j : Nat) (e : perf_ddr_type) (n : String), named[j]? = some e → e.name = some n →
        metric_name st1.usage (2 * j) = some (n ++ "-rd") ∧
        metric_name st1.usage (2 * j + 1) = some (n ++ "-wr") := by
  obtain ⟨usage1, hinit, hnum, _, _, _, hnames⟩ :=
    gst_ddr_usage_init_spec hdr file pid st0 id named hpid hsoc htbl hcnt hfit hev hna
  obtain ⟨_, f2, _, _, _⟩ := gtop_set_perf_ddr_soc_frame file st0
  obtain ⟨st1, hst1⟩ : ∃ st1 : State, st1 = { gtop_set_perf_ddr_soc file st0 with
      usage := usage1, script := some (script_text named), perfPID := pid, watch := true } :=
    ⟨_, rfl⟩
  rw [← hst1] at hinit
  have hu : st1.usage = usage1 := by rw [hst1]
  have hsoc1 : st1.perf_ddr_soc = some id := by rw [hst1]; exact hsoc
  have htbl1 : is_table named (perf_ddr_socs st1 id) := by
    have : perf_ddr_socs st1 id = perf_ddr_socs st0 id := by
      rw [hst1]; cases id; exact f2
    rw [this]; exact htbl
  have hget := gst_ddr_usage_get_nmeas_ok file2 st1 id named
    (gtop_set_perf_ddr_soc_keeps file2 st1 id hsoc1) htbl1
  refine ⟨st1, _, hinit, by rw [hu]; simpa using hnum, by simpa using hget, ?_⟩
  rw [hu]
  intro j e n he hn
  obtain ⟨n1, n2, hev1⟩ := hnames j e n he hn
  obtain ⟨e1, e2⟩ := hev1 (hbuf e (List.getElem?_mem he) n hn)
  constructor
  · unfold metric_name
    rw [n1]
    exact e1
  · unfold metric_name
    rw [n2]
    exact e2

theorem is_table_imx8mp : is_table (perf_ddr_imx8mp.take 6) perf_ddr_imx8mp :=
  ⟨by decide, sentinel, rfl, rfl⟩

theorem is_table_all_npu (a b c d : gfloat) :
    is_table ((table_all_npu a b c d).take 2) (table_all_npu a b c d) :=
  ⟨by simp [table_all_npu], sentinel, rfl, rfl⟩

theorem names_fit_imx8mp :
    ∀ e ∈ perf_ddr_imx8mp.take 6, ∀ n, e.name = some n →
      n.length + 3 < header_gint.DDR_STRING_MAX := by
  intro e he n hn
  simp only [perf_ddr_imx8mp, List.take_succ_cons, List.take_zero, List.mem_cons,
    List.mem_singleton, List.not_mem_nil, or_false] at he
  rcases he with h | h | h | h | h | h <;>
    (rw [h] at hn; simp only [Option.some.injEq] at hn; rw [← hn]; decide)

/-- The start-up state with the identity `i.MX8MP`, name buffers of 32 bytes
and arrays of 16 elements. -/
theorem init_names_and_count_witness :
    ∃ st1 st2, gst_ddr_usage_init header_gint (some "i.MX8MP\n") (some 4242)
        (initial_state 16) = .ok st1 ∧
      st1.usage.meas_num = 2 * ((perf_ddr_imx8mp.take 6).length : Int) ∧
      gst_ddr_usage_get_nmeas (some "i.MX8MP\n") st1 =
        .ok (st2, 2 * ((perf_ddr_imx8mp.take 6).length : Int)) ∧
      ∀ (j : Nat) (e : perf_ddr_type) (n : String), (perf_ddr_imx8mp.take 6)[j]? = some e →
        e.name = some n →
        metric_name st1.usage (2 * j) = some (n ++ "-rd") ∧
        metric_name st1.usage (2 * j + 1) = some (n ++ "-wr") :=
  init_names_and_count header_gint (some "i.MX8MP\n") (some "i.MX8MP\n") 4242 (initial_state 16)
    .IMX8MP (perf_ddr_imx8mp.take 6) (by decide) (by decide) is_table_imx8mp
    has_counters_imx8mp (by decide) (by decide) (by decide) names_fit_imx8mp

/-- The metric names and the slot count left by the initialization of the
start-up state on the i.MX8MP table. -/
theorem init_names_imx8mp :
    (gst_ddr_usage_init header_gint (some "i.MX8MP\n") (some 4242) (initial_state 16)).map
      (fun st => (st.usage.meas_num, (List.range 12).map (metric_name st.usage))) =
    .ok (12, [some "all-rd", some "all-wr", some "npu-rd", some "npu-wr", some "gpu3d-rd",
      some "gpu3d-wr", some "gpu2d-rd", some "gpu2d-wr", some "a53-rd", some "a53-wr",
      some "isi1-rd", some "isi1-wr"]) := by
  rfl

/-- C12: for an active table of k initiators the script written by the
initializer is the header `#! /usr/bin/env bash`, `while true;`, `do`, followed
for j = 0 .. k-1 in table order by the command
`perf stat -a -x ";" -M <read_counter_j>,<write_counter_j> sleep 1.000000 &`
with its `wait $!`, followed by `done`: exactly k sampling commands. -/
theorem init_script_text (hdr : Header) (file : Option String) (pid : Int)
    (st0 : State) (id : soc_id) (named : List perf_ddr_type)
    (hpid : st0.perfPID ≤ 0)
    (hsoc : (gtop_set_perf_ddr_soc file st0).perf_ddr_soc = some id)
    (htbl : is_table named (perf_ddr_socs st0 id))
    (hcnt : has_counters (perf_ddr_socs st0 id))
    (hfit : ((2 * named.length : Nat) : Int) < 2 ^ 31)
    (hev : 2 * named.length ≤ st0.usage.event_name.length)
    (hna : 2 * named.length ≤ st0.usage.names.length) :
    ∃ st1, gst_ddr_usage_init hdr file (some pid) st0 = .ok st1 ∧
      st1.script = some ("#! /usr/bin/env bash\n\nwhile true;\ndo\n" ++
        concat_strings (named.map (fun e =>
          "\t/usr/bin/perf stat -a -x \";\" -M " ++ e.rd_metric_name.getD "" ++ "," ++
            e.wr_metric_name.getD "" ++ " sleep 1.000000 &\n\twait $!\n")) ++
        "done\n") ∧
      st1.script = some (script_text named) ∧
      (named.map sampling_command).length = named.length := by
  obtain ⟨usage1, hinit, _⟩ :=
    gst_ddr_usage_init_spec hdr file pid st0 id named hpid hsoc htbl hcnt hfit hev hna
  exact ⟨_, hinit, rfl, rfl, by simp⟩

/-- The script for the table `all`, `npu`. -/
theorem init_script_text_witness :
    ∃ st1, gst_ddr_usage_init header_gint (some "i.MX8MP\n") (some 4242)
        (initial_state_all_npu 4) = .ok st1 ∧
      st1.script = some ("#! /usr/bin/env bash\n\nwhile true;\ndo\n" ++
        concat_strings (((table_all_npu 0 0 0 0).take 2).map (fun e =>
          "\t/usr/bin/perf stat -a -x \";\" -M " ++ e.rd_metric_name.getD "" ++ "," ++
            e.wr_metric_name.getD "" ++ " sleep 1.000000 &\n\twait $!\n")) ++
        "done\n") ∧
      st1.script = some "#! /usr/bin/env bash\n\nwhile true;\ndo\n\t/usr/bin/perf stat -a -x \";\" -M imx8mp-ddr0-all-r,imx8mp-ddr0-all-w sleep 1.000000 &\n\twait $!\n\t/usr/bin/perf stat -a -x \";\" -M imx8mp-ddr0-npu-r,imx8mp-ddr0-npu-w sleep 1.000000 &\n\twait $!\ndone\n" ∧
      (((table_all_npu 0 0 0 0).take 2).map sampling_command).length = 2 :=
  init_script_text header_gint (some "i.MX8MP\n") 4242 (initial_state_all_npu 4) .IMX8MP
    ((table_all_npu 0 0 0 0).take 2) (by decide) (by decide) (is_table_all_npu 0 0 0 0)
    (has_counters_all_npu 0 0 0 0) (by decide) (by decide) (by decide)

/-! ## The resolver -/

theorem starts_takeWhile {t l : List Char} (p : Char → Bool) (h : t <+: l)
    (ht : ∀ x ∈ t, p x = true) : t <+: l.takeWhile p := by
  obtain ⟨r, rfl⟩ := h
  rw [List.takeWhile_append_of_pos ht]
  exact List.prefix_append _ _

/-- What `fgets` reads is an initial part of the file. -/
theorem fgets_starts_file (size : Nat) (file buf : List Char)
    (h : fgets size file = some buf) : buf <+: file := by
  unfold fgets at h
  cases file with
  | nil => cases h
  | cons a rest =>
    simp only [Option.some.injEq] at h
    rw [← h]
    refine (List.take_prefix _ _).trans ?_
    split
    · rename_i hlt
      have hne : List.dropWhile (fun ch => decide (ch ≠ Char.ofNat 10)) (a :: rest) ≠ [] := by
        intro hnil
        have := List.takeWhile_append_dropWhile (fun ch => decide (ch ≠ Char.ofNat 10))
          (a :: rest)
        rw [hnil, List.append_nil] at this
        rw [this] at hlt
        exact Nat.lt_irrefl _ hlt
      have hhead := List.head_dropWhile_not (fun ch => decide (ch ≠ Char.ofNat 10))
        (a :: rest) hne
      have hnl : (List.dropWhile (fun ch => decide (ch ≠ Char.ofNat 10)) (a :: rest)).head hne =
          Char.ofNat 10 := by
        simpa using hhead
      obtain ⟨x, r, hxr⟩ := List.exists_cons_of_ne_nil hne
      have hx : x = Char.ofNat 10 := by
        have h1 := List.head?_eq_head hne
        rw [hnl, hxr, List.head?_cons, Option.some.injEq] at h1
        exact h1
      refine ⟨r, ?_⟩
      have := List.takeWhile_append_dropWhile (fun ch => decide (ch ≠ Char.ofNat 10)) (a :: rest)
      rw [hxr, hx] at this
      rw [List.append_assoc]
      exact this
    · exact List.takeWhile_prefix _

/-- A text without newline that starts the file starts what a large enough
`fgets` reads. -/
theorem fgets_keeps_start (size : Nat) (file buf pat : List Char)
    (h : fgets size file = some buf) (hpat : pat <+: file)
    (hnl : ∀ x ∈ pat, x ≠ Char.ofNat 10) (hlen : pat.length ≤ size - 1) : pat <+: buf := by
  unfold fgets at h
  cases file with
  | nil => cases h
  | cons a rest =>
    simp only [Option.some.injEq] at h
    rw [← h, List.prefix_take_iff]
    refine ⟨?_, hlen⟩
    have hup : pat <+: List.takeWhile (fun ch => decide (ch ≠ Char.ofNat 10)) (a :: rest) :=
      starts_takeWhile _ hpat (fun x hx => by simpa using hnl x hx)
    split
    · exact hup.trans (List.prefix_append _ _)
    · exact hup

/-- The comparison of the resolver succeeds exactly when the file starts with
the known identity. -/
theorem strncmp_identity (file buf : List Char) (h : fgets 1024 file = some buf) :
    strncmp_eq buf "i.MX8MP".data (SOC_NAME_MAX_LENGTH - 1) = true ↔ "i.MX8MP".data <+: file := by
  have hpat : (c_str "i.MX8MP".data).take (SOC_NAME_MAX_LENGTH - 1) = "i.MX8MP".data := by decide
  have hlen : "i.MX8MP".data.length = SOC_NAME_MAX_LENGTH - 1 := by decide
  unfold strncmp_eq
  rw [hpat, beq_iff_eq]
  constructor
  · intro heq
    have h1 : "i.MX8MP".data <+: c_str buf := by
      rw [← heq]; exact List.take_prefix _ _
    exact (h1.trans (List.takeWhile_prefix _)).trans (fgets_starts_file _ _ _ h)
  · intro hp
    have h1 : "i.MX8MP".data <+: buf :=
      fgets_keeps_start 1024 file buf _ h hp (by decide) (by decide)
    have h2 : "i.MX8MP".data <+: c_str buf := starts_takeWhile _ h1 (by decide)
    have h3 := List.prefix_iff_eq_take.mp h2
    rw [hlen] at h3
    exact h3.symm

/-- C13: on the first resolve (cached identity empty, no table selected) with
a readable identity file, the i.MX8MP table is selected if and only if the file
begins with `i.MX8MP`; for every other content, and when the file cannot be
opened, the active table stays unset. -/
theorem resolver_selects_imx8mp (st : State) (f : String)
    (hname : c_str st.soc_name = []) (hnone : st.perf_ddr_soc = none) :
    ((gtop_set_perf_ddr_soc (some f) st).perf_ddr_soc = some soc_id.IMX8MP ↔
      "i.MX8MP".data <+: f.data) ∧
    (¬ "i.MX8MP".data <+: f.data → (gtop_set_perf_ddr_soc (some f) st).perf_ddr_soc = none) ∧
    (gtop_set_perf_ddr_soc none st).perf_ddr_soc = none := by
  have hmain : (gtop_set_perf_ddr_soc (some f) st).perf_ddr_soc =
      if "i.MX8MP".data <+: f.data then some soc_id.IMX8MP else none := by
    unfold gtop_set_perf_ddr_soc
    rw [if_neg (by rw [hname]; simp)]
    dsimp only
    cases hf : fgets 1024 f.data with
    | none =>
      dsimp only
      have hnil : f.data = [] := by
        unfold fgets at hf
        cases hd : f.data with
        | nil => rfl
        | cons a r => rw [hd] at hf; cases hf
      rw [hnil, if_neg (by decide), hnone]
    | some buf =>
      dsimp only
      by_cases hp : "i.MX8MP".data <+: f.data
      · rw [if_pos hp, if_pos ((strncmp_identity _ _ hf).mpr hp)]
      · rw [if_neg hp, if_neg (fun h => hp ((strncmp_identity _ _ hf).mp h))]
        exact hnone
  refine ⟨?_, ?_, ?_⟩
  · rw [hmain]
    by_cases hp : "i.MX8MP".data <+: f.data
    · simp [hp]
    · simp [hp]
  · intro hp
    rw [hmain, if_neg hp]
  · unfold gtop_set_perf_ddr_soc
    rw [if_neg (by rw [hname]; simp)]
    exact hnone

/-- The start-up state and an identity file holding `i.MX8MP`. -/
theorem resolver_selects_imx8mp_witness :
    ((gtop_set_perf_ddr_soc (some "i.MX8MP\n") (initial_state 16)).perf_ddr_soc =
        some soc_id.IMX8MP ↔ "i.MX8MP".data <+: "i.MX8MP\n".data) ∧
    (¬ "i.MX8MP".data <+: "i.MX8MP\n".data →
      (gtop_set_perf_ddr_soc (some "i.MX8MP\n") (initial_state 16)).perf_ddr_soc = none) ∧
    (gtop_set_perf_ddr_soc none (initial_state 16)).perf_ddr_soc = none :=
  resolver_selects_imx8mp (initial_state 16) "i.MX8MP\n" rfl rfl

/-- The resolver on the start-up state: `i.MX8MP` and `i.MX8MP` followed by more
text select the table; `i.MX8MQ`, `i.MX8M`, a leading blank, the empty file and
an unreadable file do not. -/
theorem resolver_examples :
    (gtop_set_perf_ddr_soc (some "i.MX8MP\n") (initial_state 16)).perf_ddr_soc = some .IMX8MP ∧
    (gtop_set_perf_ddr_soc (some "i.MX8MPlus rev2\n") (initial_state 16)).perf_ddr_soc =
      some .IMX8MP ∧
    (gtop_set_perf_ddr_soc (some "i.MX8MQ\n") (initial_state 16)).perf_ddr_soc = none ∧
    (gtop_set_perf_ddr_soc (some "i.MX8M\n") (initial_state 16)).perf_ddr_soc = none ∧
    (gtop_set_perf_ddr_soc (some " i.MX8MP\n") (initial_state 16)).perf_ddr_soc = none ∧
    (gtop_set_perf_ddr_soc (some "") (initial_state 16)).perf_ddr_soc = none ∧
    (gtop_set_perf_ddr_soc none (initial_state 16)).perf_ddr_soc = none := by
  decide

theorem gtop_set_perf_ddr_soc_cached (file : Option String) (st : State)
    (h : c_str st.soc_name ≠ []) : gtop_set_perf_ddr_soc file st = st := by
  unfold gtop_set_perf_ddr_soc
  rw [if_pos]
  intro h0
  exact h (List.length_eq_zero.mp h0)

theorem fgets_head (size : Nat) (ch : Char) (rest : List Char) (hsize : 2 ≤ size) :
    ∃ r, fgets size (ch :: rest) = some (ch :: r) := by
  obtain ⟨n, hn⟩ : ∃ n, size - 1 = n + 1 := ⟨size - 2, by omega⟩
  unfold fgets
  dsimp only
  rw [hn]
  by_cases hnl : ch = Char.ofNat 10
  · subst hnl
    refine ⟨[], ?_⟩
    simp [List.takeWhile_cons]
  · have hp : decide (ch ≠ Char.ofNat 10) = true := by simpa using hnl
    rw [List.takeWhile_cons, if_pos hp]
    split
    · exact ⟨_, by rw [List.cons_append, List.take_succ_cons]⟩
    · exact ⟨_, by rw [List.take_succ_cons]⟩

/-- C14 (resolver idempotence): when the cached identity is not empty,
`gtop_set_perf_ddr_soc` changes nothing, whatever the identity file holds, and
so does every sequence of later calls; and a first call that reads a line of
text (its first byte is not NUL) leaves the cached identity not empty. -/
theorem resolver_idempotent (st : State) (file : Option String) (later : List (Option String))
    (h : c_str st.soc_name ≠ []) :
    gtop_set_perf_ddr_soc file st = st ∧
    later.foldl (fun s x => gtop_set_perf_ddr_soc x s) st = st ∧
    ∀ (st0 : State) (f : String) (ch : Char) (rest : List Char),
      c_str st0.soc_name = [] → f.data = ch :: rest → ch ≠ Char.ofNat 0 →
      c_str (gtop_set_perf_ddr_soc (some f) st0).soc_name ≠ [] ∧
      ∀ file2, gtop_set_perf_ddr_soc file2 (gtop_set_perf_ddr_soc (some f) st0) =
        gtop_set_perf_ddr_soc (some f) st0 := by
  refine ⟨gtop_set_perf_ddr_soc_cached file st h, ?_, ?_⟩
  · induction later with
    | nil => rfl
    | cons x xs ih =>
      rw [List.foldl_cons, gtop_set_perf_ddr_soc_cached x st h]
      exact ih
  · intro st0 f ch rest h0 hf hch
    have hne : c_str (gtop_set_perf_ddr_soc (some f) st0).soc_name ≠ [] := by
      obtain ⟨r, hr⟩ := fgets_head 1024 ch rest (by decide)
      have hp : decide (ch ≠ Char.ofNat 0) = true := by simpa using hch
      unfold gtop_set_perf_ddr_soc
      rw [if_neg (by rw [h0]; simp)]
      dsimp only
      rw [hf, hr]
      dsimp only
      have hname : strncpy (ch :: r) SOC_NAME_MAX_LENGTH = ch :: (c_str r).take 7 := by
        unfold strncpy c_str
        rw [List.takeWhile_cons, if_pos hp]
        rfl
      rw [hname]
      unfold c_str
      rw [List.takeWhile_cons, if_pos hp]
      exact List.cons_ne_nil _ _
    exact ⟨hne, fun file2 => gtop_set_perf_ddr_soc_cached file2 _ hne⟩

/-- A state whose cached identity is `i.MX8MP`, and later calls with other
files. -/
theorem resolver_idempotent_witness :
    gtop_set_perf_ddr_soc (some "i.MX8MQ\n") (running_state perf_ddr_imx8mp 12 0 16) =
      running_state perf_ddr_imx8mp 12 0 16 ∧
    [some "i.MX8MQ\n", none, some "i.MX8MP\n"].foldl (fun s x => gtop_set_perf_ddr_soc x s)
      (running_state perf_ddr_imx8mp 12 0 16) = running_state perf_ddr_imx8mp 12 0 16 ∧
    ∀ (st0 : State) (f : String) (ch : Char) (rest : List Char),
      c_str st0.soc_name = [] → f.data = ch :: rest → ch ≠ Char.ofNat 0 →
      c_str (gtop_set_perf_ddr_soc (some f) st0).soc_name ≠ [] ∧
      ∀ file2, gtop_set_perf_ddr_soc file2 (gtop_set_perf_ddr_soc (some f) st0) =
        gtop_set_perf_ddr_soc (some f) st0 :=
  resolver_idempotent (running_state perf_ddr_imx8mp 12 0 16) (some "i.MX8MQ\n")
    [some "i.MX8MQ\n", none, some "i.MX8MP\n"] (by decide)

/-! ## The guard of the initializer -/

theorem gst_ddr_usage_init_guarded (hdr : Header) (file : Option String) (spawn : Option Int)
    (st : State) (h : 0 < st.perfPID) :
    gst_ddr_usage_init hdr file spawn st = .ok st ∧ launches file st = false := by
  constructor
  · unfold gst_ddr_usage_init
    rw [if_pos h]
  · unfold launches
    have : ¬ st.perfPID ≤ 0 := by omega
    simp [this]

/-- A call of the initializer that returns has either launched the script,
and then holds the pid of the spawned process, or has left process handle,
script and registration as they were. -/
theorem gst_ddr_usage_init_launch (hdr : Header) (file : Option String) (pid : Int)
    (st st1 : State) (h : gst_ddr_usage_init hdr file (some pid) st = .ok st1) :
    (launches file st = true → st1.perfPID = pid ∧ st1.watch = true ∧ st1.script.isSome) ∧
    (launches file st = false →
      st1.perfPID = st.perfPID ∧ st1.watch = st.watch ∧ st1.script = st.script) := by
  obtain ⟨_, _, f3, f4, f5⟩ :=
    gtop_set_perf_ddr_soc_frame file { st with usage := memset_usage st.usage }
  unfold gst_ddr_usage_init at h
  unfold launches
  by_cases hp : st.perfPID > 0
  · rw [if_pos hp] at h
    simp only [Except.ok.injEq] at h
    have hn : ¬ st.perfPID ≤ 0 := by omega
    subst h
    simp [hn]
  · rw [if_neg hp] at h
    have hle : st.perfPID ≤ 0 := by omega
    dsimp only at h
    cases hsoc : (gtop_set_perf_ddr_soc file
        { st with usage := memset_usage st.usage }).perf_ddr_soc with
    | none =>
      rw [hsoc] at h
      simp only [Except.ok.injEq] at h
      subst h
      simp only [hle, decide_True, hsoc, Option.isSome_none, Bool.and_false, Bool.false_eq_true,
        false_implies, true_implies, true_and]
      exact ⟨f3, f5, f4⟩
    | some id =>
      rw [hsoc] at h
      dsimp only at h
      cases hloop : init_loop hdr
          (perf_ddr_socs (gtop_set_perf_ddr_soc file { st with usage := memset_usage st.usage })
            id) 0 "#! /usr/bin/env bash\n\nwhile true;\ndo\n"
          (gtop_set_perf_ddr_soc file { st with usage := memset_usage st.usage }).usage with
      | error e =>
        rw [hloop] at h
        cases h
      | ok r =>
        rw [hloop] at h
        simp only [bind, Except.bind, gst_perf_spawn, Except.ok.injEq] at h
        subst h
        simp [hle]

theorem launch_count_guarded (hdr : Header) :
    ∀ (calls : List (Option String × Int)) (st : State), 0 < st.perfPID →
      launch_count hdr calls st = 0 := by
  intro calls
  induction calls with
  | nil => intro st _; rfl
  | cons call rest ih =>
    intro st h
    obtain ⟨h1, h2⟩ := gst_ddr_usage_init_guarded hdr call.1 (some call.2) st h
    simp only [launch_count, h1, h2, Bool.false_eq_true, if_false, Nat.zero_add]
    exact ih st h

theorem launch_count_le_one (hdr : Header) :
    ∀ (calls : List (Option String × Int)) (st : State), (∀ call ∈ calls, 0 < call.2) →
      launch_count hdr calls st ≤ 1 := by
  intro calls
  induction calls with
  | nil => intro st _; exact Nat.zero_le _
  | cons call rest ih =>
    intro st hpos
    have hrest : ∀ c ∈ rest, 0 < c.2 := fun c hc => hpos c (List.mem_cons_of_mem _ hc)
    cases hinit : gst_ddr_usage_init hdr call.1 (some call.2) st with
    | error e => simp only [launch_count, hinit]; exact Nat.zero_le _
    | ok st1 =>
      simp only [launch_count, hinit]
      obtain ⟨hl, _⟩ := gst_ddr_usage_init_launch hdr call.1 call.2 st st1 hinit
      by_cases hla : launches call.1 st = true
      · have hpid : 0 < st1.perfPID := by
          rw [(hl hla).1]; exact hpos call (List.mem_cons_self _ _)
        rw [if_pos hla, launch_count_guarded hdr rest st1 hpid]
      · rw [if_neg hla, Nat.zero_add]
        exact ih st1 hrest

/-- C15: when the background process has been started (`perfPID > 0`), the
initializer returns the state as it is, caller's structure, table values and
cursor included, and launches nothing, and neither does any sequence of further
calls; over every sequence of calls of the initializer from any state, with
spawns returning pids of processes, the script is launched at most once. -/
theorem init_launches_once (hdr : Header) (file : Option String) (spawn : Option Int)
    (st st0 : State) (calls : List (Option String × Int))
    (h : 0 < st.perfPID) (hcalls : ∀ call ∈ calls, 0 < call.2) :
    gst_ddr_usage_init hdr file spawn st = .ok st ∧
    launches file st = false ∧
    launch_count hdr calls st = 0 ∧
    launch_count hdr calls st0 ≤ 1 :=
  ⟨(gst_ddr_usage_init_guarded hdr file spawn st h).1,
    (gst_ddr_usage_init_guarded hdr file spawn st h).2,
    launch_count_guarded hdr calls st h, launch_count_le_one hdr calls st0 hcalls⟩

/-- A running state, and three calls of the initializer from the start-up
state. -/
theorem init_launches_once_witness :
    gst_ddr_usage_init header_gint (some "i.MX8MP\n") (some 77)
      (running_state (table_all_npu 1 2 3 4) 4 3 4) =
      .ok (running_state (table_all_npu 1 2 3 4) 4 3 4) ∧
    launches (some "i.MX8MP\n") (running_state (table_all_npu 1 2 3 4) 4 3 4) = false ∧
    launch_count header_gint [(some "i.MX8MP\n", 4242), (none, 4243), (some "i.MX8MP\n", 4244)]
      (running_state (table_all_npu 1 2 3 4) 4 3 4) = 0 ∧
    launch_count header_gint [(some "i.MX8MP\n", 4242), (none, 4243), (some "i.MX8MP\n", 4244)]
      (initial_state 16) ≤ 1 :=
  init_launches_once header_gint (some "i.MX8MP\n") (some 77)
    (running_state (table_all_npu 1 2 3 4) 4 3 4) (initial_state 16)
    [(some "i.MX8MP\n", 4242), (none, 4243), (some "i.MX8MP\n", 4244)] (by decide) (by decide)

/-- Three calls of the initializer from the start-up state launch the script
once. -/
theorem launch_count_example :
    launch_count header_gint [(some "i.MX8MP\n", 4242), (none, 4243), (some "i.MX8MP\n", 4244)]
      (initial_state 16) = 1 := by
  rfl

/-! ## Frame of the snapshot -/

/-- C16: on a state with an active table of k initiators (fitting the load
array) the snapshot succeeds and changes no entry of the table, so no read or
write value, nor the cursor, the slot count, the metric names or their
buffers; of the caller's load array it keeps the length and every element of
index 2k or more. -/
theorem gst_ddr_usage_compute_frame (file : Option String) (st : State) (id : soc_id)
    (k : Nat)
    (hsoc : st.perf_ddr_soc = some id)
    (htbl : table_shape k (perf_ddr_socs st id))
    (hcap : 2 * k ≤ st.usage.load.length) :
    ∃ st1, gst_ddr_usage_compute file st = .ok st1 ∧
      st1.perf_ddr_imx8mp = st.perf_ddr_imx8mp ∧
      perf_ddr_socs st1 id = perf_ddr_socs st id ∧
      st1.perf_ddr_soc = st.perf_ddr_soc ∧
      st1.usage.meas_count = st.usage.meas_count ∧
      st1.usage.meas_num = st.usage.meas_num ∧
      st1.usage.names = st.usage.names ∧
      st1.usage.event_name = st.usage.event_name ∧
      st1.usage.load.length = st.usage.load.length ∧
      (∀ q, 2 * k ≤ q → st1.usage.load[q]? = st.usage.load[q]?) ∧
      st1.perfPID = st.perfPID ∧ st1.script = st.script ∧ st1.watch = st.watch := by
  have hsoc1 := gtop_set_perf_ddr_soc_keeps file st id hsoc
  obtain ⟨load1, hcomp, hlen, _, hframe⟩ := gst_ddr_usage_compute_ok file st id k hsoc1 htbl hcap
  obtain ⟨_, f2, f3, f4, f5⟩ := gtop_set_perf_ddr_soc_frame file st
  refine ⟨_, hcomp, f2, ?_, ?_, rfl, rfl, rfl, rfl, hlen, hframe, f3, f4, f5⟩
  · cases id; exact f2
  · rw [hsoc]; exact hsoc1

/-- The table `all` = (1, 2), `npu` = (3, 4) and a load array of 6 elements. -/
theorem gst_ddr_usage_compute_frame_witness :
    ∃ st1, gst_ddr_usage_compute none (running_state (table_all_npu 1 2 3 4) 4 2 6) = .ok st1 ∧
      st1.perf_ddr_imx8mp = (running_state (table_all_npu 1 2 3 4) 4 2 6).perf_ddr_imx8mp ∧
      perf_ddr_socs st1 .IMX8MP =
        perf_ddr_socs (running_state (table_all_npu 1 2 3 4) 4 2 6) .IMX8MP ∧
      st1.perf_ddr_soc = (running_state (table_all_npu 1 2 3 4) 4 2 6).perf_ddr_soc ∧
      st1.usage.meas_count = (running_state (table_all_npu 1 2 3 4) 4 2 6).usage.meas_count ∧
      st1.usage.meas_num = (running_state (table_all_npu 1 2 3 4) 4 2 6).usage.meas_num ∧
      st1.usage.names = (running_state (table_all_npu 1 2 3 4) 4 2 6).usage.names ∧
      st1.usage.event_name = (running_state (table_all_npu 1 2 3 4) 4 2 6).usage.event_name ∧
      st1.usage.load.length = (running_state (table_all_npu 1 2 3 4) 4 2 6).usage.load.length ∧
      (∀ q, 2 * 2 ≤ q →
        st1.usage.load[q]? = (running_state (table_all_npu 1 2 3 4) 4 2 6).usage.load[q]?) ∧
      st1.perfPID = (running_state (table_all_npu 1 2 3 4) 4 2 6).perfPID ∧
      st1.script = (running_state (table_all_npu 1 2 3 4) 4 2 6).script ∧
      st1.watch = (running_state (table_all_npu 1 2 3 4) 4 2 6).watch :=
  gst_ddr_usage_compute_frame none (running_state (table_all_npu 1 2 3 4) 4 2 6) .IMX8MP 2 rfl
    (table_shape_all_npu 1 2 3 4) (by decide)

/-! ## Hang-up -/

theorem line_value_example :
    line_value atof_dec "S0;1;;MiB;x;3145728;y\n" = 3 :=
  line_value_scenario.2.2.1

/-- C17 (counterexample): reported hang-up together with data available
(condition 17), the callback handles the line read, advances the cursor from 0
to 1, overwrites the read value 1 of the first initiator by 3, and returns
TRUE. -/
theorem cb_err_watch_hup_with_data :
    ∃ st1, cb_err_watch header_gint atof_dec (G_IO_IN ||| G_IO_HUP)
        (some "S0;1;;MiB;x;3145728;y\n") (running_state (table_all_npu 1 2 3 4) 4 0 4) =
        .ok (st1, true) ∧
      (G_IO_IN ||| G_IO_HUP) &&& G_IO_HUP = G_IO_HUP ∧
      (running_state (table_all_npu 1 2 3 4) 4 0 4).usage.meas_count = 0 ∧
      st1.usage.meas_count = 1 ∧
      slot_value (running_state (table_all_npu 1 2 3 4) 4 0 4).perf_ddr_imx8mp 0 = some 1 ∧
      slot_value st1.perf_ddr_imx8mp 0 = some 3 := by
  obtain ⟨st1, hrun, hu, _, _, hslot⟩ := cb_err_watch_step header_gint atof_dec
    (running_state (table_all_npu 1 2 3 4) 4 0 4) .IMX8MP 2 0 (G_IO_IN ||| G_IO_HUP)
    "S0;1;;MiB;x;3145728;y\n" rfl (table_shape_all_npu 1 2 3 4) (by decide) rfl
    (by decide) rfl (by decide) (by decide) (by decide)
  refine ⟨st1, hrun, by decide, rfl, ?_, ?_, ?_⟩
  · rw [hu]; rfl
  · simp [slot_value, running_state, table_all_npu]
  · have := hslot 0
    rw [line_value_example] at this
    simpa [perf_ddr_socs] using this

/-- C17 (amended): when the reported condition is exactly the hang-up flag,
the callback returns FALSE, which deregisters the line source, and leaves the
whole state as it is; for every other condition, also hang-up together with
data available, it handles what was read and returns TRUE (on a table of
k >= 1 initiators with a cursor holding a natural number). -/
theorem cb_err_watch_hangup (hdr : Header) (atof : String → gdouble) (st : State)
    (id : soc_id) (k c : Nat) (string : Option String)
    (hsoc : st.perf_ddr_soc = some id)
    (htbl : table_shape k (perf_ddr_socs st id))
    (hk : 1 ≤ k)
    (hnum : st.usage.meas_num = ((2 * k : Nat) : Int))
    (hfit : ((2 * k : Nat) : Int) < 2 ^ 31)
    (hc : st.usage.meas_count = (c : Int)) (hcty : is_value hdr.meas_count_ty c) :
    cb_err_watch hdr atof G_IO_HUP string st = .ok (st, false) ∧
    ∀ cond, cond ≠ G_IO_HUP →
      ∃ st1, cb_err_watch hdr atof cond string st = .ok (st1, true) := by
  constructor
  · unfold cb_err_watch
    rw [if_pos rfl]
  · intro cond h
    cases string with
    | none => exact ⟨st, cb_err_watch_null_string hdr atof st cond h⟩
    | some line =>
      by_cases hv : valid_line line = true
      · obtain ⟨st1, hrun, _⟩ := cb_err_watch_step hdr atof st id k c cond line hsoc htbl
          (by omega) hnum hfit hc hcty h hv
        exact ⟨st1, hrun⟩
      · have h7 : (g_strsplit (g_strstrip (c_str line.data)) ';').length ≠ 7 := by
          simpa [valid_line] using hv
        refine ⟨st, ?_⟩
        unfold cb_err_watch
        rw [if_neg h]
        simp only [h7, ne_eq, not_false_eq_true, if_true]

/-- The table `all`, `npu` at cursor 5 and a valid line. -/
theorem cb_err_watch_hangup_witness :
    cb_err_watch header_gint atof_dec G_IO_HUP (some "S0;1;;MiB;x;1048576;y\n")
      (running_state (table_all_npu 1 2 3 4) 4 5 4) =
      .ok (running_state (table_all_npu 1 2 3 4) 4 5 4, false) ∧
    ∀ cond, cond ≠ G_IO_HUP →
      ∃ st1, cb_err_watch header_gint atof_dec cond (some "S0;1;;MiB;x;1048576;y\n")
        (running_state (table_all_npu 1 2 3 4) 4 5 4) = .ok (st1, true) :=
  cb_err_watch_hangup header_gint atof_dec (running_state (table_all_npu 1 2 3 4) 4 5 4)
    .IMX8MP 2 5 (some "S0;1;;MiB;x;1048576;y\n") rfl (table_shape_all_npu 1 2 3 4)
    (by decide) rfl (by decide) rfl (by decide)

/-! ## Names of the table entries are constant -/

theorem map_set_same {β : Type} (f : perf_ddr_type → β) (tbl : List perf_ddr_type) (j : Nat)
    (evt evt1 : perf_ddr_type) (hget : tbl[j]? = some evt) (hf : f evt1 = f evt) :
    (tbl.set j evt1).map f = tbl.map f := by
  apply List.ext_getElem?
  intro n
  rw [List.getElem?_map, List.getElem?_map, List.getElem?_set]
  by_cases hjn : j = n
  · subst hjn
    have hlen : j < tbl.length := by
      by_contra hc
      rw [List.getElem?_eq_none (by omega)] at hget
      cases hget
    rw [if_pos rfl, if_pos hlen, hget, Option.map_some', Option.map_some', hf]
  · rw [if_neg hjn]

/-- The callback changes neither the keys of the table nor, of the caller's
structure, anything but the cursor. -/
theorem cb_err_watch_keys (hdr : Header) (atof : String → gdouble) (cond : Nat)
    (string : Option String) (st st1 : State) (keep : Bool) (id : soc_id)
    (hsoc : st.perf_ddr_soc = some id)
    (h : cb_err_watch hdr atof cond string st = .ok (st1, keep)) :
    st1.perf_ddr_soc = some id ∧
    (perf_ddr_socs st1 id).map entry_key = (perf_ddr_socs st id).map entry_key ∧
    st1.usage.meas_num = st.usage.meas_num ∧ st1.usage.load = st.usage.load ∧
    st1.usage.names = st.usage.names ∧ st1.usage.event_name = st.usage.event_name := by
  rcases cb_err_watch_ok_cases hdr atof cond string st st1 keep h with h0 | h0
  · rw [h0]; exact ⟨hsoc, rfl, rfl, rfl, rfl, rfl⟩
  · obtain ⟨id1, j, evt, evt1, _, hget, n1, n2, n3, hst⟩ := h0
    have hid : id1 = id := by cases id1; cases id; rfl
    subst hid
    rw [hst]
    refine ⟨?_, ?_, ?_, ?_, ?_, ?_⟩
    · rw [set_table_perf_ddr_soc]; exact hsoc
    · rw [perf_ddr_socs_set_table]
      exact map_set_same entry_key _ j evt evt1 hget (by unfold entry_key; rw [n1, n2, n3])
    all_goals rw [set_table_usage]

theorem reachable_keys (hdr : Header) (atof : String → gdouble) (id : soc_id) (a st : State)
    (ha : a.perf_ddr_soc = some id) (h : Reachable hdr atof a st) :
    st.perf_ddr_soc = some id ∧
    (perf_ddr_socs st id).map entry_key = (perf_ddr_socs a id).map entry_key ∧
    st.usage.meas_num = a.usage.meas_num ∧ st.usage.load = a.usage.load ∧
    st.usage.names = a.usage.names ∧ st.usage.event_name = a.usage.event_name := by
  induction h with
  | start => exact ⟨ha, rfl, rfl, rfl, rfl, rfl⟩
  | step st st1 cond string keep _ hcb ih =>
    obtain ⟨i1, i2, i3, i4, i5, i6⟩ := ih
    obtain ⟨k1, k2, k3, k4, k5, k6⟩ := cb_err_watch_keys hdr atof cond string st st1 keep id i1 hcb
    exact ⟨k1, k2.trans i2, k3.trans i3, k4.trans i4, k5.trans i5, k6.trans i6⟩

/-- A table with the keys of a table `named ++ [sentinel]` is itself of this
form, entry by entry with the same keys. -/
theorem is_table_of_keys (named tbl0 tbl : List perf_ddr_type) (h0 : is_table named tbl0)
    (hkeys : tbl.map entry_key = tbl0.map entry_key) :
    ∃ named1, is_table named1 tbl ∧ named1.map entry_key = named.map entry_key := by
  obtain ⟨hnamed, s, hs, rfl⟩ := h0
  rw [List.map_append, List.map_eq_append_iff] at hkeys
  obtain ⟨l1, l2, rfl, hl1, hl2⟩ := hkeys
  rw [List.map_cons, List.map_nil, List.map_eq_cons_iff] at hl2
  obtain ⟨s1, r, rfl, hs1, hr⟩ := hl2
  have hr' : r = [] := List.map_eq_nil_iff.mp hr
  subst hr'
  refine ⟨l1, ⟨?_, s1, ?_, rfl⟩, hl1⟩
  · intro e he
    have hmem : entry_key e ∈ named.map entry_key := by
      rw [← hl1]; exact List.mem_map_of_mem _ he
    obtain ⟨e0, he0, hk⟩ := List.mem_map.mp hmem
    have : e.name = e0.name := by
      have := congrArg Prod.fst hk
      exact this.symm
    rw [this]; exact hnamed e0 he0
  · have := congrArg Prod.fst hs1
    exact this.trans hs

/-! ## Emission order and consumption order -/

/-- Entry `j` of a table reached from an initialized one, with the keys of
entry `j` of the table that was initialized. -/
theorem reachable_entry (hdr : Header) (atof : String → gdouble) (id : soc_id)
    (named : List perf_ddr_type) (st1 st : State)
    (hsoc1 : st1.perf_ddr_soc = some id) (htbl1 : is_table named (perf_ddr_socs st1 id))
    (hreach : Reachable hdr atof st1 st) :
    ∃ named1, is_table named1 (perf_ddr_socs st id) ∧ named1.length = named.length ∧
      ∀ (j : Nat) (e : perf_ddr_type), named[j]? = some e →
        ∃ e1, named1[j]? = some e1 ∧ (perf_ddr_socs st id)[j]? = some e1 ∧
          entry_key e1 = entry_key e := by
  obtain ⟨_, hkeys, _⟩ := reachable_keys hdr atof id st1 st hsoc1 hreach
  obtain ⟨named1, htbl, hmap⟩ := is_table_of_keys named _ _ htbl1 hkeys
  have hlen : named1.length = named.length := by
    have := congrArg List.length hmap
    simpa using this
  refine ⟨named1, htbl, hlen, ?_⟩
  intro j e he
  have hj : j < named.length := by
    by_contra hc
    rw [List.getElem?_eq_none (by omega)] at he
    cases he
  have h1 : (named1.map entry_key)[j]? = some (entry_key e) := by
    rw [hmap, List.getElem?_map, he]; rfl
  rw [List.getElem?_map] at h1
  cases hget : named1[j]? with
  | none => rw [hget] at h1; cases h1
  | some e1 =>
    rw [hget] at h1
    simp only [Option.map_some', Option.some.injEq] at h1
    exact ⟨e1, rfl, by rw [is_table_getElem? htbl (by omega), hget], h1⟩

/-- C18: for an active table of k initiators and every j < k, the j-th sampling
command of the script written by the initializer is the one for table entry j
(its read counter, then its write counter); the metric names at the indices 2j
and 2j+1 are those of entry j; and in every state reached afterwards entry j
of the table still has the same name and counters, the snapshot copies its
values to `load[2j]` and `load[2j+1]`, and a valid line updates its read value
when the cursor modulo 2k is 2j and its write value when it is 2j+1. -/
theorem emission_consumption_order (hdr : Header) (atof : String → gdouble)
    (file file2 : Option String) (pid : Int) (st0 : State) (id : soc_id)
    (named : List perf_ddr_type)
    (hpid : st0.perfPID ≤ 0)
    (hsoc : (gtop_set_perf_ddr_soc file st0).perf_ddr_soc = some id)
    (htbl : is_table named (perf_ddr_socs st0 id))
    (hcnt : has_counters (perf_ddr_socs st0 id))
    (hfit : ((2 * named.length : Nat) : Int) < 2 ^ 31)
    (hev : 2 * named.length ≤ st0.usage.event_name.length)
    (hna : 2 * named.length ≤ st0.usage.names.length)
    (hload : 2 * named.length ≤ st0.usage.load.length)
    (hbuf : ∀ e ∈ named, ∀ n, e.name = some n → n.length + 3 < hdr.DDR_STRING_MAX) :
    ∃ st1, gst_ddr_usage_init hdr file (some pid) st0 = .ok st1 ∧
      st1.script = some (script_text named) ∧
      ∀ (j : Nat) (e : perf_ddr_type) (n : String), named[j]? = some e → e.name = some n →
        (named.map sampling_command)[j]? = some (sampling_command e) ∧
        metric_name st1.usage (2 * j) = some (n ++ "-rd") ∧
        metric_name st1.usage (2 * j + 1) = some (n ++ "-wr") ∧
        ∀ st, Reachable hdr atof st1 st →
          ∃ e1, (perf_ddr_socs st id)[j]? = some e1 ∧ entry_key e1 = entry_key e ∧
            (∃ st2, gst_ddr_usage_compute file2 st = .ok st2 ∧
              st2.usage.load[2 * j]? = some e1.rd_metric_value ∧
              st2.usage.load[2 * j + 1]? = some e1.wr_metric_value) ∧
            ∀ (c cond : Nat) (line : String), st.usage.meas_count = (c : Int) →
              is_value hdr.meas_count_ty c → cond ≠ G_IO_HUP → valid_line line = true →
              (c % (2 * named.length) = 2 * j →
                ∃ st2, cb_err_watch hdr atof cond (some line) st = .ok (st2, true) ∧
                  (perf_ddr_socs st2 id)[j]? =
                    some { e1 with rd_metric_value := line_value atof line }) ∧
              (c % (2 * named.length) = 2 * j + 1 →
                ∃ st2, cb_err_watch hdr atof cond (some line) st = .ok (st2, true) ∧
                  (perf_ddr_socs st2 id)[j]? =
                    some { e1 with wr_metric_value := line_value atof line }) := by
  obtain ⟨usage1, hinit, hnum, _, hload1, _, hnames⟩ :=
    gst_ddr_usage_init_spec hdr file pid st0 id named hpid hsoc htbl hcnt hfit hev hna
  obtain ⟨_, f2, _, _, _⟩ := gtop_set_perf_ddr_soc_frame file st0
  obtain ⟨st1, hst1⟩ : ∃ st1 : State, st1 = { gtop_set_perf_ddr_soc file st0 with
      usage := usage1, script := some (script_text named), perfPID := pid, watch := true } :=
    ⟨_, rfl⟩
  rw [← hst1] at hinit
  have hu : st1.usage = usage1 := by rw [hst1]
  have hsoc1 : st1.perf_ddr_soc = some id := by rw [hst1]; exact hsoc
  have htbl1 : is_table named (perf_ddr_socs st1 id) := by
    have : perf_ddr_socs st1 id = perf_ddr_socs st0 id := by
      rw [hst1]; cases id; exact f2
    rw [this]; exact htbl
  refine ⟨st1, hinit, by rw [hst1], ?_⟩
  intro j e n he hn
  have hj : j < named.length := by
    by_contra hc
    rw [List.getElem?_eq_none (by omega)] at he
    cases he
  obtain ⟨n1, n2, hev1⟩ := hnames j e n he hn
  obtain ⟨e1n, e2n⟩ := hev1 (hbuf e (List.getElem?_mem he) n hn)
  refine ⟨by rw [List.getElem?_map, he]; rfl, ?_, ?_, ?_⟩
  · rw [hu]; unfold metric_name; rw [n1]; exact e1n
  · rw [hu]; unfold metric_name; rw [n2]; exact e2n
  intro st hreach
  obtain ⟨hsocst, _, hnumst, hloadst, _, _⟩ := reachable_keys hdr atof id st1 st hsoc1 hreach
  obtain ⟨named1, htblst, hlen1, hentry⟩ :=
    reachable_entry hdr atof id named st1 st hsoc1 htbl1 hreach
  obtain ⟨e1, hn1e, hte1, hkey⟩ := hentry j e he
  have hnum2 : st.usage.meas_num = ((2 * named1.length : Nat) : Int) := by
    rw [hnumst, hu, hnum, hlen1]
  refine ⟨e1, hte1, hkey, ?_, ?_⟩
  · obtain ⟨load2, hcomp, _, hcopy, _⟩ := gst_ddr_usage_compute_ok file2 st id named1.length
      (gtop_set_perf_ddr_soc_keeps file2 st id hsocst) ⟨named1, rfl, htblst⟩
      (by rw [hloadst, hu, hload1, hlen1]; simpa using hload)
    refine ⟨_, hcomp, ?_, ?_⟩
    · show load2[2 * j]? = _
      rw [hcopy (2 * j) (by omega)]
      unfold slot_value
      have h1 : 2 * j / 2 = j := by omega
      have h2 : 2 * j % 2 = 0 := by omega
      rw [h1, h2, hte1]
      rfl
    · show load2[2 * j + 1]? = _
      rw [hcopy (2 * j + 1) (by omega)]
      unfold slot_value
      have h1 : (2 * j + 1) / 2 = j := by omega
      have h2 : ¬ (2 * j + 1) % 2 = 0 := by omega
      rw [h1, hte1]
      simp [h2]
  · intro c cond line hc hcty hcond hvalid
    obtain ⟨evt, hevt, hrun⟩ := cb_err_watch_valid hdr atof st id named1 c cond line hsocst
      htblst (by omega) hnum2 (by rw [hlen1]; exact hfit) hc hcty hcond hvalid
    rw [hlen1] at hevt hrun
    have hjt : j < (perf_ddr_socs st id).length := by
      rw [is_table_length htblst]; omega
    constructor
    · intro hpos
      have hidx : c % (2 * named.length) / 2 = j := by omega
      rw [hpos] at hrun
      rw [hidx, hn1e, Option.some.injEq] at hevt
      have hidx2 : 2 * j / 2 = j := by omega
      rw [hidx2, ← hevt] at hrun
      refine ⟨_, hrun, ?_⟩
      rw [perf_ddr_socs_set_table, List.getElem?_set_self hjt]
      have : ¬ 2 * j % 2 = 1 := by omega
      rw [write_slot, if_neg this]
    · intro hpos
      have hidx : c % (2 * named.length) / 2 = j := by omega
      rw [hpos] at hrun
      rw [hidx, hn1e, Option.some.injEq] at hevt
      have hidx2 : (2 * j + 1) / 2 = j := by omega
      rw [hidx2, ← hevt] at hrun
      refine ⟨_, hrun, ?_⟩
      rw [perf_ddr_socs_set_table, List.getElem?_set_self hjt]
      have : (2 * j + 1) % 2 = 1 := by omega
      rw [write_slot, if_pos this]

/-- The start-up state with the identity `i.MX8MP`, on the registered table. -/
theorem emission_consumption_order_witness :
    ∃ st1, gst_ddr_usage_init header_gint (some "i.MX8MP\n") (some 4242) (initial_state 16) =
        .ok st1 ∧
      st1.script = some (script_text (perf_ddr_imx8mp.take 6)) ∧
      ∀ (j : Nat) (e : perf_ddr_type) (n : String), (perf_ddr_imx8mp.take 6)[j]? = some e →
        e.name = some n →
        ((perf_ddr_imx8mp.take 6).map sampling_command)[j]? = some (sampling_command e) ∧
        metric_name st1.usage (2 * j) = some (n ++ "-rd") ∧
        metric_name st1.usage (2 * j + 1) = some (n ++ "-wr") ∧
        ∀ st, Reachable header_gint atof_dec st1 st →
          ∃ e1, (perf_ddr_socs st .IMX8MP)[j]? = some e1 ∧ entry_key e1 = entry_key e ∧
            (∃ st2, gst_ddr_usage_compute (some "i.MX8MP\n") st = .ok st2 ∧
              st2.usage.load[2 * j]? = some e1.rd_metric_value ∧
              st2.usage.load[2 * j + 1]? = some e1.wr_metric_value) ∧
            ∀ (c cond : Nat) (line : String), st.usage.meas_count = (c : Int) →
              is_value header_gint.meas_count_ty c → cond ≠ G_IO_HUP → valid_line line = true →
              (c % (2 * (perf_ddr_imx8mp.take 6).length) = 2 * j →
                ∃ st2, cb_err_watch header_gint atof_dec cond (some line) st = .ok (st2, true) ∧
                  (perf_ddr_socs st2 .IMX8MP)[j]? =
                    some { e1 with rd_metric_value := line_value atof_dec line }) ∧
              (c % (2 * (perf_ddr_imx8mp.take 6).length) = 2 * j + 1 →
                ∃ st2, cb_err_watch header_gint atof_dec cond (some line) st = .ok (st2, true) ∧
                  (perf_ddr_socs st2 .IMX8MP)[j]? =
                    some { e1 with wr_metric_value := line_value atof_dec line }) :=
  emission_consumption_order header_gint atof_dec (some "i.MX8MP\n") (some "i.MX8MP\n") 4242
    (initial_state 16) .IMX8MP (perf_ddr_imx8mp.take 6) (by decide) (by decide) is_table_imx8mp
    has_counters_imx8mp (by decide) (by decide) (by decide) (by decide) names_fit_imx8mp

/-! ## One slot per valid line -/

/-- C19: on a table of k >= 1 initiators a valid line makes the callback store
the value of the line in the slot selected by the cursor before the call, and
nothing else in the table: every other slot keeps its value (the other
direction of that initiator and both values of every other entry), and every
entry keeps its name and counters; slot count, metric names, name buffers and
load array of the caller's structure are unchanged; and the stored value is
the same from any other state, whatever the slot held before. -/
theorem valid_line_touches_one_slot (hdr : Header) (atof : String → gdouble) (st : State)
    (id : soc_id) (k c cond : Nat) (line : String)
    (hsoc : st.perf_ddr_soc = some id)
    (htbl : table_shape k (perf_ddr_socs st id))
    (hk : 1 ≤ k)
    (hnum : st.usage.meas_num = ((2 * k : Nat) : Int))
    (hfit : ((2 * k : Nat) : Int) < 2 ^ 31)
    (hc : st.usage.meas_count = (c : Int)) (hcty : is_value hdr.meas_count_ty c)
    (hcond : cond ≠ G_IO_HUP) (h7 : valid_line line = true) :
    ∃ st1, cb_err_watch hdr atof cond (some line) st = .ok (st1, true) ∧
      slot_value (perf_ddr_socs st1 id) (c % (2 * k)) = some (line_value atof line) ∧
      (∀ q, q ≠ c % (2 * k) →
        slot_value (perf_ddr_socs st1 id) q = slot_value (perf_ddr_socs st id) q) ∧
      (perf_ddr_socs st1 id).map entry_key = (perf_ddr_socs st id).map entry_key ∧
      (perf_ddr_socs st1 id).length = (perf_ddr_socs st id).length ∧
      st1.usage.meas_num = st.usage.meas_num ∧ st1.usage.names = st.usage.names ∧
      st1.usage.event_name = st.usage.event_name ∧ st1.usage.load = st.usage.load ∧
      ∀ (other : State), other.perf_ddr_soc = some id →
        table_shape k (perf_ddr_socs other id) →
        other.usage.meas_num = ((2 * k : Nat) : Int) → other.usage.meas_count = (c : Int) →
        ∃ other1, cb_err_watch hdr atof cond (some line) other = .ok (other1, true) ∧
          slot_value (perf_ddr_socs other1 id) (c % (2 * k)) =
            slot_value (perf_ddr_socs st1 id) (c % (2 * k)) := by
  obtain ⟨st1, hrun, _, _, _, hslot⟩ := cb_err_watch_step hdr atof st id k c cond line hsoc
    htbl (by omega) hnum hfit hc hcty hcond h7
  obtain ⟨_, k2, k3, k4, k5, k6⟩ :=
    cb_err_watch_keys hdr atof cond (some line) st st1 true id hsoc hrun
  have hnew : slot_value (perf_ddr_socs st1 id) (c % (2 * k)) = some (line_value atof line) := by
    rw [hslot, if_pos rfl]
  refine ⟨st1, hrun, hnew, ?_, k2, ?_, k3, k5, k6, k4, ?_⟩
  · intro q hq
    rw [hslot, if_neg hq]
  · have := congrArg List.length k2
    simpa using this
  · intro other osoc otbl onum oc
    obtain ⟨other1, orun, _, _, _, oslot⟩ := cb_err_watch_step hdr atof other id k c cond line
      osoc otbl (by omega) onum hfit oc hcty hcond h7
    exact ⟨other1, orun, by rw [oslot, if_pos rfl, hnew]⟩

/-- The table `all` = (1, 2), `npu` = (3, 4) at cursor 6 and a line of value
3145728: the slot 2, the read value of `npu`. -/
theorem valid_line_touches_one_slot_witness :
    ∃ st1, cb_err_watch header_gint atof_dec G_IO_IN (some "S0;1;;MiB;x;3145728;y\n")
        (running_state (table_all_npu 1 2 3 4) 4 6 4) = .ok (st1, true) ∧
      slot_value (perf_ddr_socs st1 .IMX8MP) (6 % (2 * 2)) =
        some (line_value atof_dec "S0;1;;MiB;x;3145728;y\n") ∧
      (∀ q, q ≠ 6 % (2 * 2) →
        slot_value (perf_ddr_socs st1 .IMX8MP) q =
          slot_value (perf_ddr_socs (running_state (table_all_npu 1 2 3 4) 4 6 4) .IMX8MP) q) ∧
      (perf_ddr_socs st1 .IMX8MP).map entry_key =
        (perf_ddr_socs (running_state (table_all_npu 1 2 3 4) 4 6 4) .IMX8MP).map entry_key ∧
      (perf_ddr_socs st1 .IMX8MP).length =
        (perf_ddr_socs (running_state (table_all_npu 1 2 3 4) 4 6 4) .IMX8MP).length ∧
      st1.usage.meas_num = (running_state (table_all_npu 1 2 3 4) 4 6 4).usage.meas_num ∧
      st1.usage.names = (running_state (table_all_npu 1 2 3 4) 4 6 4).usage.names ∧
      st1.usage.event_name = (running_state (table_all_npu 1 2 3 4) 4 6 4).usage.event_name ∧
      st1.usage.load = (running_state (table_all_npu 1 2 3 4) 4 6 4).usage.load ∧
      ∀ (other : State), other.perf_ddr_soc = some .IMX8MP →
        table_shape 2 (perf_ddr_socs other .IMX8MP) →
        other.usage.meas_num = ((2 * 2 : Nat) : Int) → other.usage.meas_count = ((6 : Nat) : Int) →
        ∃ other1, cb_err_watch header_gint atof_dec G_IO_IN (some "S0;1;;MiB;x;3145728;y\n")
            other = .ok (other1, true) ∧
          slot_value (perf_ddr_socs other1 .IMX8MP) (6 % (2 * 2)) =
            slot_value (perf_ddr_socs st1 .IMX8MP) (6 % (2 * 2)) :=
  valid_line_touches_one_slot header_gint atof_dec (running_state (table_all_npu 1 2 3 4) 4 6 4)
    .IMX8MP 2 6 G_IO_IN "S0;1;;MiB;x;3145728;y\n" rfl (table_shape_all_npu 1 2 3 4) (by decide)
    rfl (by decide) rfl (by decide) (by decide) (by decide)

/-- The callback on the table `all` = (1, 2), `npu` = (7, 4) at cursor 6 with a
line of value 3145728: afterwards the four slots are 1, 2, 3, 4. -/
theorem valid_line_slots_example :
    ∃ st1, cb_err_watch header_gint atof_dec G_IO_IN (some "S0;1;;MiB;x;3145728;y\n")
        (running_state (table_all_npu 1 2 7 4) 4 6 4) = .ok (st1, true) ∧
      (List.range 4).map (slot_value st1.perf_ddr_imx8mp) = [some 1, some 2, some 3, some 4] := by
  obtain ⟨st1, hrun, _, _, _, hslot⟩ := cb_err_watch_step header_gint atof_dec
    (running_state (table_all_npu 1 2 7 4) 4 6 4) .IMX8MP 2 6 G_IO_IN
    "S0;1;;MiB;x;3145728;y\n" rfl (table_shape_all_npu 1 2 7 4) (by decide) rfl
    (by decide) rfl (by decide) (by decide) (by decide)
  refine ⟨st1, hrun, ?_⟩
  have h0 := hslot 0
  have h1 := hslot 1
  have h2 := hslot 2
  have h3 := hslot 3
  rw [line_value_example] at h0 h1 h2 h3
  simp only [perf_ddr_socs] at h0 h1 h2 h3
  simp only [List.range, List.range.loop, List.map, h0, h1, h2, h3]
  simp [slot_value, running_state, table_all_npu]

/-! ## The program: the callback runs only on the slots of an active table -/

end DDRUsage
